import Mathlib

/-!
Frame protocol of homelab-screen (src/src/usb.c, src/src/trlcd.h, src/src/state.c) and
the page list and page rotation of its display loop (src/src/main.c).

Shallow embedding of the device protocol layer of homelab-screen.

* C arrays are modelled as arrays of natural numbers; the size of an array is
  its declared size, and a `uint8_t` store truncates to 8 bits.
* `libusb_bulk_transfer` is the environment.  Its answers are given by an
  arbitrary map from the number of bulk transfers issued so far to a status and
  a transferred count; every call is appended to a log together with the bytes
  handed to it.
* The other libusb calls of usb_init and usb_cleanup answer as a record of the
  environment says (`Libusb`); every call and every line written is appended to a
  log of events.  A configuration descriptor is a list of interfaces, each a list of
  alternate settings, each a list of endpoints, the counts being the lengths.
* `int` and `time_t` values are integers; the values the display loop computes stay
  far inside the range of the C types.
-/

namespace HomelabScreen

/-! ## Constants of trlcd.h -/

/-- LCD_W of trlcd.h. -/
def LCD_W : Nat := 240

/-- LCD_H of trlcd.h. -/
def LCD_H : Nat := 320

/-- FRAME_SIZE of trlcd.h: (LCD_W * LCD_H * 2). -/
def FRAME_SIZE : Nat := LCD_W * LCD_H * 2

/-- PACKET_SIZE of trlcd.h. -/
def PACKET_SIZE : Nat := 512

/-! ## Memory and the surface -/

/-- Content of a `uint8_t` array. -/
abbrev Bytes := Array Nat

/-- The pixel surface `uint16_t framebuffer[LCD_W * LCD_H]`. -/
abbrev Framebuffer := Array Nat

/-- Reading `m[i]` from a `uint8_t` array. -/
def load8 (m : Bytes) (i : Nat) : Nat :=
  m.getD i 0

/-- Assignment `m[i] = v` into a `uint8_t` array (the value is truncated to 8 bits). -/
def store8 (m : Bytes) (i v : Nat) : Bytes :=
  m.setD i (v % 256)

/-- The call `memset(m, c, n)`. -/
def memset (m : Bytes) (c n : Nat) : Bytes :=
  (List.range n).foldl (fun m i => store8 m i c) m

/-- The call `memcpy(dst, src + offset, n)`. -/
def memcpy (dst src : Bytes) (offset n : Nat) : Bytes :=
  (List.range n).foldl (fun dst i => store8 dst i (load8 src (offset + i))) dst

/-- The first `n` bytes of a byte array, as they are handed to the transport. -/
def bytesOf (m : Bytes) (n : Nat) : List Nat :=
  m.toList.take n

/-! ## The device link and the transport -/

/-- The globals `dev_handle`, `g_ep_out` and `g_usb_iface` of state.c. -/
structure Link where
  dev_handle : Option Nat
  g_ep_out : Nat
  g_usb_iface : Int
deriving DecidableEq, Repr

/-- One call of `libusb_bulk_transfer`: its arguments, with the bytes read from `data`. -/
structure BulkCall where
  dev_handle : Option Nat
  endpoint : Nat
  data : List Nat
  length : Nat
  timeout : Nat
deriving DecidableEq, Repr

/-- What one call of `libusb_bulk_transfer` reports: its return value and `*transferred`. -/
structure BulkResult where
  rc : Int
  transferred : Int
deriving DecidableEq, Repr

/-- The environment: the answer to a bulk transfer, by the number of transfers issued before it. -/
abbrev Usb := Nat → BulkResult

/-- The call `libusb_bulk_transfer(dev, endpoint, data, length, &transferred, timeout)`:
the answer of the environment and the log extended by this call. -/
def libusb_bulk_transfer (usb : Usb) (dev : Option Nat) (endpoint : Nat) (data : Bytes)
    (length timeout : Nat) (log : List BulkCall) : BulkResult × List BulkCall :=
  (usb log.length, log ++ [⟨dev, endpoint, bytesOf data length, length, timeout⟩])

/-! ## usb.c: build_header -/

/-- The function `build_header` of usb.c, on the previous content `hdr` of the packet buffer. -/
def build_header (hdr : Bytes) : Bytes :=
  let hdr := memset hdr 0 PACKET_SIZE
  let hdr := store8 hdr 0 0xDA
  let hdr := store8 hdr 1 0xDB
  let hdr := store8 hdr 2 0xDC
  let hdr := store8 hdr 3 0xDD
  let hdr := store8 hdr 4 0x02
  let hdr := store8 hdr 5 0x00
  let hdr := store8 hdr 6 0x01
  let hdr := store8 hdr 7 0x00
  let hdr := store8 hdr 8 0xF0
  let hdr := store8 hdr 9 0x00
  let hdr := store8 hdr 10 0x40
  let hdr := store8 hdr 11 0x01
  let hdr := store8 hdr 12 0x02
  let hdr := store8 hdr 13 0x00
  let hdr := store8 hdr 22 0x00
  let hdr := store8 hdr 23 0x58
  let hdr := store8 hdr 24 0x02
  let hdr := store8 hdr 25 0x00
  let hdr := store8 hdr 26 0x00
  let hdr := store8 hdr 27 0x00
  let hdr := store8 hdr 28 0x00
  let hdr := store8 hdr 29 0x08
  hdr

/-! ## usb.c: send_frame -/

/-- Body of the inner loop of the conversion in `send_frame`, for cell (x, y). -/
def convert_cell (framebuffer : Framebuffer) (y : Nat) (frame_data : Bytes) (x : Nat) : Bytes :=
  let pixel := framebuffer.getD (y * LCD_W + x) 0
  let idx := (y * LCD_W + x) * 2
  let frame_data := store8 frame_data idx (pixel &&& 0xFF)
  let frame_data := store8 frame_data (idx + 1) (pixel >>> 8)
  frame_data

/-- The loop `for (int x = 0; x < LCD_W; x++)` of the conversion, for row `y`. -/
def convert_row (framebuffer : Framebuffer) (frame_data : Bytes) (y : Nat) : Bytes :=
  (List.range LCD_W).foldl (convert_cell framebuffer y) frame_data

/-- The loop `for (int y = 0; y < LCD_H; y++)` of the conversion: the static array
`frame_data` after it, from its previous content. -/
def convert_framebuffer (framebuffer : Framebuffer) (frame_data : Bytes) : Bytes :=
  (List.range LCD_H).foldl (convert_row framebuffer) frame_data

/-- What `send_frame` returns, with the memory and the log it leaves behind. -/
structure SendResult where
  ret : Int
  frame_data : Bytes
  log : List BulkCall

/-- The loop `for (int offset = 0; offset < FRAME_SIZE; offset += PACKET_SIZE)` of
`send_frame`, from the loop head with the given `offset`: the value `send_frame`
returns and the log. -/
def send_data (usb : Usb) (link : Link) (frame_data : Bytes) (offset : Nat) (packet : Bytes)
    (log : List BulkCall) : Int × List BulkCall :=
  if offset < FRAME_SIZE then
    let chunk := FRAME_SIZE - offset
    let chunk := if chunk > PACKET_SIZE then PACKET_SIZE else chunk
    let packet := memset packet 0 PACKET_SIZE
    let packet := memcpy packet frame_data offset chunk
    let r := libusb_bulk_transfer usb link.dev_handle link.g_ep_out packet PACKET_SIZE 1000 log
    if r.1.rc < 0 ∨ r.1.transferred ≠ PACKET_SIZE then
      (-1, r.2)
    else
      send_data usb link frame_data (offset + PACKET_SIZE) packet r.2
  else
    (0, log)
termination_by FRAME_SIZE - offset
decreasing_by
  simp only [PACKET_SIZE]
  omega

/-- The function `send_frame` of usb.c.  `packet` is the content of the local packet
array on entry, `frame_data` the previous content of the static array, `log` the bulk
transfers issued before the call. -/
def send_frame (usb : Usb) (link : Link) (framebuffer : Framebuffer) (packet frame_data : Bytes)
    (log : List BulkCall) : SendResult :=
  let packet := build_header packet
  let r := libusb_bulk_transfer usb link.dev_handle link.g_ep_out packet PACKET_SIZE 1000 log
  if r.1.rc < 0 ∨ r.1.transferred ≠ PACKET_SIZE then
    ⟨-1, frame_data, r.2⟩
  else
    let frame_data := convert_framebuffer framebuffer frame_data
    let s := send_data usb link frame_data 0 packet r.2
    ⟨s.1, frame_data, s.2⟩

/-! ## usb.c: usb_init and usb_cleanup -/

/-- The struct `libusb_endpoint_descriptor`, with the field usb.c reads. -/
structure libusb_endpoint_descriptor where
  bEndpointAddress : Nat
deriving DecidableEq, Repr

/-- The struct `libusb_interface_descriptor`: `endpoint` holds the `bNumEndpoints`
endpoint descriptors. -/
structure libusb_interface_descriptor where
  bInterfaceNumber : Int
  endpoint : List libusb_endpoint_descriptor
deriving DecidableEq, Repr

/-- The struct `libusb_interface`: `altsetting` holds the `num_altsetting` alternate
settings. -/
structure libusb_interface where
  altsetting : List libusb_interface_descriptor
deriving DecidableEq, Repr

/-- The struct `libusb_config_descriptor`: `interface` holds the `bNumInterfaces`
interfaces. -/
structure libusb_config_descriptor where
  interface : List libusb_interface
deriving DecidableEq, Repr

/-- The environment of usb_init: what the calls into libusb answer.  `open_device` is
the handle returned by `libusb_open_device_with_vid_pid` for `g_vid` and `g_pid` (none
is NULL), `active_config` the descriptor that `libusb_get_active_config_descriptor`
stores through its out parameter (none leaves it NULL). -/
structure Libusb where
  init_rc : Int
  open_device : Option Nat
  get_active_config_rc : Int
  active_config : Option libusb_config_descriptor
  set_auto_detach_rc : Int
  claim_interface_rc : Int → Int

/-- The lines usb_init writes. -/
inductive Diag where
  | init_failed
  | device_not_found
  | config_unreadable
  | no_usable_endpoint
  | auto_detach_warning
  | claim_failed
  | found_out_endpoint (ep : Nat) (iface : Int)
  | device_opened
deriving DecidableEq, Repr

/-- What usb_init and usb_cleanup do to the outside: calls into libusb with their
arguments (for the claim also its return value) and lines written to stderr or stdout. -/
inductive UsbEvent where
  | libusb_init
  | libusb_exit
  | libusb_open_device_with_vid_pid
  | libusb_close (dev : Option Nat)
  | libusb_get_device (dev : Option Nat)
  | libusb_get_active_config_descriptor
  | libusb_free_config_descriptor
  | libusb_set_auto_detach_kernel_driver (dev : Option Nat) (enable : Int)
  | libusb_claim_interface (dev : Option Nat) (iface : Int) (rc : Int)
  | libusb_release_interface (dev : Option Nat) (iface : Int)
  | fprintf_stderr (d : Diag)
  | printf (d : Diag)
deriving DecidableEq, Repr

/-- What usb_init returns, with the link and the log it leaves behind. -/
structure InitResult where
  ret : Int
  link : Link
  log : List UsbEvent
deriving DecidableEq, Repr

/-- The loop `for (int e = 0; e < alt->bNumEndpoints; e++)` of usb_init: the link after
it, and whether it left through `goto endpoint_found`. -/
def scan_endpoints (alt : libusb_interface_descriptor) (link : Link) :
    List libusb_endpoint_descriptor → Link × Bool
  | [] => (link, false)
  | ep :: rest =>
    if ep.bEndpointAddress &&& 0x80 = 0 then
      ({ link with g_ep_out := ep.bEndpointAddress, g_usb_iface := alt.bInterfaceNumber }, true)
    else
      scan_endpoints alt link rest

/-- The loop `for (int a = 0; a < iface->num_altsetting; a++)` of usb_init. -/
def scan_altsettings (link : Link) : List libusb_interface_descriptor → Link × Bool
  | [] => (link, false)
  | alt :: rest =>
    let r := scan_endpoints alt link alt.endpoint
    if r.2 then r else scan_altsettings r.1 rest

/-- The loop `for (int i = 0; i < cfg->bNumInterfaces; i++)` of usb_init. -/
def scan_interfaces (link : Link) : List libusb_interface → Link × Bool
  | [] => (link, false)
  | iface :: rest =>
    let r := scan_altsettings link iface.altsetting
    if r.2 then r else scan_interfaces r.1 rest

/-- The code of usb_init from the label `fail`, with the value of `cfg` there. -/
def usb_init_fail (cfg : Option libusb_config_descriptor) (link : Link)
    (log : List UsbEvent) : InitResult :=
  let log := if cfg.isSome then log ++ [UsbEvent.libusb_free_config_descriptor] else log
  let log := if link.dev_handle.isSome then log ++ [UsbEvent.libusb_close link.dev_handle]
    else log
  let link := if link.dev_handle.isSome then { link with dev_handle := none } else link
  let link := { link with g_ep_out := 0 }
  let link := { link with g_usb_iface := -1 }
  ⟨-1, link, log ++ [UsbEvent.libusb_exit]⟩

/-- The function `usb_init` of usb.c, on the link globals and the log so far. -/
def usb_init (usb : Libusb) (link : Link) (log : List UsbEvent) : InitResult :=
  let rc := usb.init_rc
  let log := log ++ [UsbEvent.libusb_init]
  if rc < 0 then
    ⟨-1, link, log ++ [UsbEvent.fprintf_stderr Diag.init_failed]⟩
  else
    let link := { link with dev_handle := usb.open_device }
    let log := log ++ [UsbEvent.libusb_open_device_with_vid_pid]
    if link.dev_handle.isNone then
      ⟨-1, link, log ++ [UsbEvent.fprintf_stderr Diag.device_not_found, UsbEvent.libusb_exit]⟩
    else
      let link := { link with g_ep_out := 0 }
      let link := { link with g_usb_iface := -1 }
      let log := log ++ [UsbEvent.libusb_get_device link.dev_handle,
        UsbEvent.libusb_get_active_config_descriptor]
      let rc := usb.get_active_config_rc
      let cfg := usb.active_config
      -- the test `rc < 0 || !cfg`, with `cfg` dereferenced only where it is not NULL
      match cfg with
      | none =>
        usb_init_fail none link (log ++ [UsbEvent.fprintf_stderr Diag.config_unreadable])
      | some c =>
        if rc < 0 then
          usb_init_fail (some c) link (log ++ [UsbEvent.fprintf_stderr Diag.config_unreadable])
        else
          let link := (scan_interfaces link c.interface).1
          let log := log ++ [UsbEvent.libusb_free_config_descriptor]
          if link.g_ep_out = 0 ∨ link.g_usb_iface < 0 then
            usb_init_fail none link (log ++ [UsbEvent.fprintf_stderr Diag.no_usable_endpoint])
          else
            let rc := usb.set_auto_detach_rc
            let log := log ++ [UsbEvent.libusb_set_auto_detach_kernel_driver link.dev_handle 1]
            let log := if rc < 0 then log ++ [UsbEvent.fprintf_stderr Diag.auto_detach_warning]
              else log
            let rc := usb.claim_interface_rc link.g_usb_iface
            let log := log ++ [UsbEvent.libusb_claim_interface link.dev_handle link.g_usb_iface rc]
            if rc < 0 then
              usb_init_fail none link (log ++ [UsbEvent.fprintf_stderr Diag.claim_failed])
            else
              ⟨0, link, log ++ [UsbEvent.printf (Diag.found_out_endpoint link.g_ep_out
                link.g_usb_iface), UsbEvent.printf Diag.device_opened]⟩

/-- The function `usb_cleanup` of usb.c. -/
def usb_cleanup (link : Link) (log : List UsbEvent) : Link × List UsbEvent :=
  let log := if link.dev_handle.isSome then
      let log := if link.g_usb_iface ≥ 0 then
          log ++ [UsbEvent.libusb_release_interface link.dev_handle link.g_usb_iface]
        else log
      log ++ [UsbEvent.libusb_close link.dev_handle]
    else log
  let link := if link.dev_handle.isSome then { link with dev_handle := none } else link
  let link := { link with g_ep_out := 0 }
  let link := { link with g_usb_iface := -1 }
  (link, log ++ [UsbEvent.libusb_exit])

/-! ## main.c: the page list and the page rotation -/

/-- The page-render functions the array `renderers` of main can point to. -/
inductive Renderer where
  | render_page_overview
  | render_page_cpu
  | render_page_memory
  | render_page_network
  | render_page_system
  | render_page_proxmox
  | render_page_storage
deriving DecidableEq, Repr

/-- The statement `renderers[num_pages++] = f` of main, on the array and the counter. -/
def push_renderer (st : Array (Option Renderer) × Int) (f : Renderer) :
    Array (Option Renderer) × Int :=
  (st.1.setD st.2.toNat (some f), st.2 + 1)

/-- The construction of the renderer list in main: the array `renderers[8]` (none is a
slot that was not assigned) and `num_pages`, from `g_pve_metrics.pve_available`. -/
def build_renderers (pve_available : Int) : Array (Option Renderer) × Int :=
  let st : Array (Option Renderer) × Int := (mkArray 8 none, 0)
  let st := push_renderer st Renderer.render_page_overview
  let st := push_renderer st Renderer.render_page_cpu
  let st := push_renderer st Renderer.render_page_memory
  let st := push_renderer st Renderer.render_page_network
  let st := push_renderer st Renderer.render_page_system
  if pve_available ≠ 0 then
    let st := push_renderer st Renderer.render_page_proxmox
    let st := push_renderer st Renderer.render_page_storage
    st
  else
    st

/-- The page-switch check of the display loop of main: `current_page` and
`last_page_switch` after it, at time `now`. -/
def page_switch (g_interval num_pages current_page last_page_switch now : Int) : Int × Int :=
  if now - last_page_switch ≥ g_interval then
    (Int.tmod (current_page + 1) num_pages, now)
  else
    (current_page, last_page_switch)

/-! ## render.c: drawing primitives

The file render.c is not among the sources; only its declarations in trlcd.h and its
tests are.  The three primitives below are modelled from the specification. -/

/-- Modelled from the spec: render.c is missing.  `set_pixel(x, y, color)` writes one
cell and silently ignores any coordinate outside [0,W) × [0,H) (spec 4.1); the surface
is row-major with top-left origin (spec 3), so the cell of (x, y) is y * LCD_W + x, as
test_set_pixel_valid reads it.  The colour is a 16-bit value. -/
def set_pixel (framebuffer : Framebuffer) (x y : Int) (color : Nat) : Framebuffer :=
  if 0 ≤ x ∧ x < LCD_W ∧ 0 ≤ y ∧ y < LCD_H then
    framebuffer.setD (y * LCD_W + x).toNat (color % 65536)
  else
    framebuffer

/-- Modelled from the spec: render.c is missing.  `fill_rect(x, y, w, h, color)` writes
a rectangle, clipped to the surface bounds; negative-origin or oversized rectangles are
partially drawn, never rejected (spec 4.1).  Modelled as the loop over the h rows and the
w columns from (x, y), every cell written through set_pixel, which does the clipping. -/
def fill_rect (framebuffer : Framebuffer) (x y w h : Int) (color : Nat) : Framebuffer :=
  (List.range h.toNat).foldl
    (fun fb (j : Nat) =>
      (List.range w.toNat).foldl (fun fb (i : Nat) => set_pixel fb (x + i) (y + j) color) fb)
    framebuffer

/-- The environment of the display loop, for a type `σ` of metrics snapshots.  The
index is the number of iterations begun before. -/
structure LoopEnv (σ : Type) where
  g_running : Nat → Bool
  time : Nat → Int
  collect_metrics : Nat → σ → σ
  collect_proxmox_metrics : Nat → σ → σ
  render : Renderer → σ → Framebuffer → Framebuffer
  usb : Usb
  packet : Nat → Bytes

/-- What the display loop does, in order, besides the bulk transfers of send_frame.  A
render event carries the content of the slot `renderers[current_page]` that was called
(none is a slot that was never assigned), a send_frame event the value returned. -/
inductive LoopEvent where
  | collect_metrics
  | collect_proxmox_metrics
  | printf_page (page num_pages : Int)
  | render (slot : Option Renderer)
  | send_frame (ret : Int)
  | fprintf_send_failed
  | nanosleep
deriving DecidableEq, Repr

/-- The variables of main and the globals the display loop works on. -/
structure LoopState (σ : Type) where
  iteration : Nat
  current_page : Int
  last_page_switch : Int
  snapshot : σ
  framebuffer : Framebuffer
  frame_data : Bytes
  link : Link
  bulk_log : List BulkCall
  trace : List LoopEvent

/-- The slot `renderers[current_page]` the display loop calls. -/
def renderer_slot (renderers : Array (Option Renderer)) (current_page : Int) :
    Option Renderer :=
  if 0 ≤ current_page then renderers.getD current_page.toNat none else none

/-- The surface after the call `renderers[current_page]()`. -/
def call_renderer {σ : Type} (env : LoopEnv σ) (slot : Option Renderer) (snapshot : σ)
    (framebuffer : Framebuffer) : Framebuffer :=
  match slot with
  | some r => env.render r snapshot framebuffer
  | none => framebuffer

/-- The call of send_frame in the iteration that starts in state `st`, with everything
the iteration does before it. -/
def iteration_frame {σ : Type} (env : LoopEnv σ) (renderers : Array (Option Renderer))
    (num_pages g_interval : Int) (st : LoopState σ) : SendResult :=
  let snapshot := env.collect_proxmox_metrics st.iteration
    (env.collect_metrics st.iteration st.snapshot)
  let now := env.time st.iteration
  let sw := page_switch g_interval num_pages st.current_page st.last_page_switch now
  let slot := renderer_slot renderers sw.1
  let framebuffer := call_renderer env slot snapshot st.framebuffer
  send_frame env.usb st.link framebuffer (env.packet st.iteration) st.frame_data st.bulk_log

/-- One iteration of the body of `while (g_running)` in main: the state after it, and
whether it left the loop through `break`. -/
def loop_body {σ : Type} (env : LoopEnv σ) (renderers : Array (Option Renderer))
    (num_pages g_interval : Int) (st : LoopState σ) : LoopState σ × Bool :=
  let snapshot := env.collect_proxmox_metrics st.iteration
    (env.collect_metrics st.iteration st.snapshot)
  let trace := st.trace ++ [LoopEvent.collect_metrics, LoopEvent.collect_proxmox_metrics]
  let now := env.time st.iteration
  let sw := page_switch g_interval num_pages st.current_page st.last_page_switch now
  let trace := if now - st.last_page_switch ≥ g_interval then
      trace ++ [LoopEvent.printf_page (sw.1 + 1) num_pages]
    else trace
  let slot := renderer_slot renderers sw.1
  let framebuffer := call_renderer env slot snapshot st.framebuffer
  let trace := trace ++ [LoopEvent.render slot]
  let r := iteration_frame env renderers num_pages g_interval st
  let trace := trace ++ [LoopEvent.send_frame r.ret]
  if r.ret < 0 then
    (⟨st.iteration + 1, sw.1, sw.2, snapshot, framebuffer, r.frame_data, st.link, r.log,
      trace ++ [LoopEvent.fprintf_send_failed]⟩, true)
  else
    (⟨st.iteration + 1, sw.1, sw.2, snapshot, framebuffer, r.frame_data, st.link, r.log,
      trace ++ [LoopEvent.nanosleep]⟩, false)

/-- The loop `while (g_running)` of main, for at most `fuel` iterations: the state in
which it is left, or none when the iterations do not suffice. -/
def display_loop {σ : Type} (env : LoopEnv σ) (renderers : Array (Option Renderer))
    (num_pages g_interval : Int) : Nat → LoopState σ → Option (LoopState σ)
  | 0, _ => none
  | fuel + 1, st =>
    if env.g_running st.iteration then
      let r := loop_body env renderers num_pages g_interval st
      if r.2 then some r.1 else display_loop env renderers num_pages g_interval fuel r.1
    else
      some st

/-- What main leaves behind when it returns. -/
structure MainResult (σ : Type) where
  ret : Int
  state : LoopState σ
  link : Link
  usb_log : List UsbEvent

/-- The function main from `int current_page = 0` to its end: the renderer list, the
display loop and the shutdown.  `now` is the answer of the first `time(NULL)`; the
state `st` gives the globals at that point (its page variables are overwritten here). -/
def main_display {σ : Type} (env : LoopEnv σ) (pve_available g_interval now : Int)
    (st : LoopState σ) (usb_log : List UsbEvent) (fuel : Nat) : Option (MainResult σ) :=
  let st := { st with current_page := 0, last_page_switch := now }
  let rs := build_renderers pve_available
  match display_loop env rs.1 rs.2 g_interval fuel st with
  | none => none
  | some st =>
    let c := usb_cleanup st.link usb_log
    some ⟨0, st, c.1, c.2⟩

/-! ## cli.c: the numeric helpers and parse_args

A C string is the list of its bytes; the byte after the last one is the terminator,
so reading at an offset beyond the list gives 0.  The conversions `strtol` and
`strtoul` of the C library are written out as ISO C describes them (white space, an
optional sign, for base 16 an optional `0x`, then the longest run of digits), for a
64-bit `long`. -/

def INT_MAX : Int := 2147483647

def UINT16_MAX : Int := 65535

def LONG_MAX : Int := 9223372036854775807

def LONG_MIN : Int := -9223372036854775808

def ULONG_MAX : Int := 18446744073709551615

/-- The value of errno after a conversion that does not fit. -/
def ERANGE : Int := 34

/-- The C library predicate isspace in the C locale. -/
def isspace (c : Nat) : Bool := c == 32 || (9 ≤ c && c ≤ 13)

/-- The C library predicate isdigit. -/
def isdigit (c : Nat) : Bool := 48 ≤ c && c ≤ 57

/-- The value of a hexadecimal digit, if the byte is one. -/
def hex_digit (c : Nat) : Option Nat :=
  if 48 ≤ c ∧ c ≤ 57 then some (c - 48)
  else if 97 ≤ c ∧ c ≤ 102 then some (c - 87)
  else if 65 ≤ c ∧ c ≤ 70 then some (c - 55)
  else none

/-- What a conversion of the strtol family leaves: the value returned, the offset of
`endptr` from the start of the text, and errno (which the callers clear before). -/
structure StrtoResult where
  val : Int
  endptr : Nat
  errno : Int
deriving DecidableEq, Repr

/-- The C library call `strtol(nptr, &endptr, 10)`. -/
def strtol_base10 (nptr : List Nat) : StrtoResult :=
  let ws := nptr.takeWhile isspace
  let rest := nptr.dropWhile isspace
  let neg := rest.head? == some 45
  let signed := rest.head? == some 45 || rest.head? == some 43
  let rest := if signed then rest.drop 1 else rest
  let digits := rest.takeWhile isdigit
  if digits = [] then ⟨0, 0, 0⟩
  else
    let mag : Nat := digits.foldl (fun a c => 10 * a + (c - 48)) 0
    let v : Int := if neg then -(mag : Int) else (mag : Int)
    let e := ws.length + (if signed then 1 else 0) + digits.length
    if v > LONG_MAX then ⟨LONG_MAX, e, ERANGE⟩
    else if v < LONG_MIN then ⟨LONG_MIN, e, ERANGE⟩
    else ⟨v, e, 0⟩

/-- The C library call `strtoul(nptr, &endptr, 16)`. -/
def strtoul_base16 (nptr : List Nat) : StrtoResult :=
  let ws := nptr.takeWhile isspace
  let rest := nptr.dropWhile isspace
  let neg := rest.head? == some 45
  let signed := rest.head? == some 45 || rest.head? == some 43
  let rest := if signed then rest.drop 1 else rest
  let prefixed := rest.head? == some 48 &&
    ((rest.drop 1).head? == some 120 || (rest.drop 1).head? == some 88) &&
    (((rest.drop 2).head?.bind hex_digit).isSome)
  let rest := if prefixed then rest.drop 2 else rest
  let digits := rest.takeWhile (fun c => (hex_digit c).isSome)
  if digits = [] then ⟨0, 0, 0⟩
  else
    let mag : Nat := digits.foldl (fun a c => 16 * a + (hex_digit c).getD 0) 0
    let e := ws.length + (if signed then 1 else 0) + (if prefixed then 2 else 0)
      + digits.length
    if (mag : Int) > ULONG_MAX then ⟨ULONG_MAX, e, ERANGE⟩
    else if neg then ⟨(-(mag : Int)) % (ULONG_MAX + 1), e, 0⟩
    else ⟨mag, e, 0⟩

/-- The conversion `(int)val` of a long. -/
def cast_int (val : Int) : Int := (val + 2147483648) % 4294967296 - 2147483648

/-- The conversion `(uint16_t)val` of an unsigned long. -/
def cast_uint16 (val : Int) : Nat := (val % 65536).toNat

/-- The function parse_hex_u16 of cli.c.  `arg` is none for a null pointer; `out` is
none for a null pointer and otherwise the value stored at `*out`.  The result is the
value returned and the value stored at `*out` afterwards. -/
def parse_hex_u16 (arg : Option (List Nat)) (out : Option Nat) : Int × Option Nat :=
  match arg, out with
  | some s, some _ =>
    if s.getD 0 0 = 0 then (-1, out)
    else
      let r := strtoul_base16 s
      if r.errno ≠ 0 ∨ r.endptr = 0 ∨ s.getD r.endptr 0 ≠ 0 ∨ r.val > UINT16_MAX then
        (-1, out)
      else (0, some (cast_uint16 r.val))
  | _, _ => (-1, out)

/-- The function parse_positive_int of cli.c, with the conventions of parse_hex_u16. -/
def parse_positive_int (arg : Option (List Nat)) (out : Option Int) : Int × Option Int :=
  match arg, out with
  | some s, some _ =>
    if s.getD 0 0 = 0 then (-1, out)
    else
      let r := strtol_base10 s
      if r.errno ≠ 0 ∨ r.endptr = 0 ∨ s.getD r.endptr 0 ≠ 0 ∨ r.val < 1 ∨ r.val > INT_MAX then
        (-1, out)
      else (0, some (cast_int r.val))
  | _, _ => (-1, out)

/-- The globals parse_args assigns. -/
structure CliState where
  g_vid : Nat
  g_pid : Nat
  g_interval : Int
  g_cli_iface : List Nat
deriving DecidableEq, Repr

/-- What one call of getopt_long gives parse_args: one of the long options with its
argument, `h`, or an element it does not recognise. -/
inductive CliOption where
  | vid (optarg : List Nat)
  | pid (optarg : List Nat)
  | interval (optarg : List Nat)
  | interface (optarg : List Nat)
  | help
  | unrecognised
deriving DecidableEq, Repr

/-- The way parse_args ends: it returns a value, or it ends the process by `exit`. -/
inductive CliOutcome where
  | returned (ret : Int)
  | exited (code : Int)
deriving DecidableEq, Repr

/-- The length of the C string stored in a list of bytes: strlen. -/
def strlen (s : List Nat) : Nat := (s.takeWhile (fun c => c != 0)).length

/-- The function parse_args of cli.c on the sequence of options getopt_long reports.
The local `val` of each case is uninitialised before the helper is called; the helper
is given 0 there. -/
def parse_args : List CliOption → CliState → CliOutcome × CliState
  | [], st => (CliOutcome.returned 0, st)
  | CliOption.vid optarg :: opts, st =>
    let r := parse_hex_u16 (some optarg) (some 0)
    if r.1 ≠ 0 then (CliOutcome.returned (-1), st)
    else parse_args opts { st with g_vid := r.2.getD 0 }
  | CliOption.pid optarg :: opts, st =>
    let r := parse_hex_u16 (some optarg) (some 0)
    if r.1 ≠ 0 then (CliOutcome.returned (-1), st)
    else parse_args opts { st with g_pid := r.2.getD 0 }
  | CliOption.interval optarg :: opts, st =>
    let r := parse_positive_int (some optarg) (some 0)
    if r.1 ≠ 0 then (CliOutcome.returned (-1), st)
    else parse_args opts { st with g_interval := r.2.getD 0 }
  | CliOption.interface optarg :: opts, st =>
    if optarg.getD 0 0 = 0 ∨ strlen optarg ≥ 32 then (CliOutcome.returned (-1), st)
    else parse_args opts { st with g_cli_iface := optarg.takeWhile (fun c => c != 0) }
  | CliOption.help :: _, st => (CliOutcome.exited 0, st)
  | CliOption.unrecognised :: _, st => (CliOutcome.returned (-1), st)

/-! ## proxmox.c: the search helpers and the JSON field parsers

The text the parsers work on lies in a list of bytes `mem` (reading beyond it gives the
terminator 0); the pointers `start`, `end`, `obj_start`, `obj_end` and the pointers the
helpers return are offsets into it, none standing for NULL in a result.  An offset is
never null, so the null-pointer tests of the helpers have no counterpart here. -/

/-- The bytes of a string literal of the source. -/
def text (s : String) : List Nat := s.toList.map Char.toNat

/-- The C string stored at the start of a list of bytes: the bytes before the first 0. -/
def c_str (s : List Nat) : List Nat := s.takeWhile (fun c => c != 0)

/-- The test `memcmp(p, needle, needle_len) == 0` on the bytes at offset `p`. -/
def memcmp_eq (mem : List Nat) (p : Nat) (needle : List Nat) (needle_len : Nat) : Bool :=
  (List.range needle_len).all (fun i => mem.getD (p + i) 0 == needle.getD i 0)

/-- The function find_in_range of proxmox.c. -/
def find_in_range (mem : List Nat) (start end_ : Nat) (needle : List Nat) : Option Nat :=
  let needle_len := strlen needle
  if needle_len = 0 ∨ start ≥ end_ then none
  else if end_ - start < needle_len then none
  else (List.range' start (end_ - needle_len - start + 1)).find?
    (fun p => memcmp_eq mem p needle needle_len)

/-- The function find_char_in_range of proxmox.c. -/
def find_char_in_range (mem : List Nat) (start end_ : Nat) (c : Nat) : Option Nat :=
  if start ≥ end_ then none
  else (List.range' start (end_ - start)).find? (fun p => mem.getD p 0 == c)

/-- The bytes of `buf` after `data` was stored at its offset `i`. -/
def poke (buf : List Nat) (i : Nat) (data : List Nat) : List Nat :=
  buf.take i ++ data ++ buf.drop (i + data.length)

/-- The function parse_json_string_field of proxmox.c: the value returned and the
content of the buffer `out` afterwards. -/
def parse_json_string_field (mem : List Nat) (obj_start obj_end : Nat) (field : List Nat)
    (out : List Nat) (out_len : Nat) : Int × List Nat :=
  if out_len = 0 ∨ obj_start ≥ obj_end then (-1, out)
  else if (c_str field).length + 2 ≥ 64 then (-1, out)
  else
    let key := [34] ++ c_str field ++ [34]
    match find_in_range mem obj_start obj_end key with
    | none => (-1, out)
    | some k =>
      match find_char_in_range mem k obj_end 58 with
      | none => (-1, out)
      | some colon =>
        match find_char_in_range mem (colon + 1) obj_end 34 with
        | none => (-1, out)
        | some quote_start =>
          match find_char_in_range mem (quote_start + 1) obj_end 34 with
          | none => (-1, out)
          | some quote_end =>
            let n := quote_end - (quote_start + 1)
            let n := if n ≥ out_len then out_len - 1 else n
            let out := poke out 0 ((List.range n).map (fun i => mem.getD (quote_start + 1 + i) 0))
            (0, poke out n [0])

/-- The C library call `strtoull(nptr, &endptr, 10)` for a 64-bit unsigned long long. -/
def strtoull_base10 (nptr : List Nat) : StrtoResult :=
  let ws := nptr.takeWhile isspace
  let rest := nptr.dropWhile isspace
  let neg := rest.head? == some 45
  let signed := rest.head? == some 45 || rest.head? == some 43
  let rest := if signed then rest.drop 1 else rest
  let digits := rest.takeWhile isdigit
  if digits = [] then ⟨0, 0, 0⟩
  else
    let mag : Nat := digits.foldl (fun a c => 10 * a + (c - 48)) 0
    let e := ws.length + (if signed then 1 else 0) + digits.length
    if (mag : Int) > ULONG_MAX then ⟨ULONG_MAX, e, ERANGE⟩
    else if neg then ⟨(-(mag : Int)) % (ULONG_MAX + 1), e, 0⟩
    else ⟨mag, e, 0⟩

/-- The function parse_json_u64_field of proxmox.c: the value returned and the value
of `*out` afterwards. -/
def parse_json_u64_field (mem : List Nat) (obj_start obj_end : Nat) (field : List Nat)
    (out : Nat) : Int × Nat :=
  if obj_start ≥ obj_end then (-1, out)
  else if (c_str field).length + 2 ≥ 64 then (-1, out)
  else
    let key := [34] ++ c_str field ++ [34]
    match find_in_range mem obj_start obj_end key with
    | none => (-1, out)
    | some k =>
      match find_char_in_range mem k obj_end 58 with
      | none => (-1, out)
      | some colon =>
        let r := strtoull_base10 (mem.drop (colon + 1))
        if r.errno ≠ 0 ∨ r.endptr = 0 ∨ colon + 1 + r.endptr > obj_end then (-1, out)
        else (0, r.val.toNat)
/-! ## proxmox.c: get_pve_storage

Commands are run through `popen`: the environment maps a command line to nothing when
popen fails and otherwise to the whole output of the command with the status pclose
reports.  The `float` percentage is computed here as an exact fraction; no statement
below depends on it.  A store to `storage[idx]` with `idx` outside 0..7 lies beyond the
array, where ProxmoxMetrics goes on with `storage_count`.  What the program does from
there on depends on the bytes the store lands on, and the model does not follow it: it
records the index of the store, and the loop over the lines of df, the one loop that
stores without a test of the index, ends there.  A state with a recorded store says
where the program left the array and nothing about the values it holds afterwards. -/

/-- The environment of popen and pclose. -/
abbrev Popen := List Nat → Option (List Nat × Int)

/-- One element of the array `storage` of ProxmoxMetrics. -/
structure StorageEntry where
  name : List Nat
  used_pct : ℚ
  used_bytes : Nat
  total_bytes : Nat
deriving DecidableEq, Repr

/-- The struct ProxmoxMetrics of trlcd.h. -/
structure ProxmoxMetrics where
  running_vms : Int
  total_vms : Int
  running_cts : Int
  total_cts : Int
  pve_version : List Nat
  node_name : List Nat
  pve_available : Int
  storage : Array StorageEntry
  storage_count : Int
deriving DecidableEq, Repr

/-- The global `g_pve_metrics` together with the indices of the stores made beyond
its array `storage`.  Once such a store is recorded, `metrics` holds the values from
before that store and no longer describes the program. -/
structure PveState where
  metrics : ProxmoxMetrics
  overrun : List Int
deriving DecidableEq, Repr

/-- The element `storage[idx]` as it is read. -/
def storage_at (st : PveState) (idx : Int) : StorageEntry :=
  if 0 ≤ idx then st.metrics.storage.getD idx.toNat ⟨[], 0, 0, 0⟩ else ⟨[], 0, 0, 0⟩

/-- A store to the element `storage[idx]`.  With `idx` outside 0..7 the store does not
reach an element of the array (one slot further, `storage[8].name` begins where
`storage_count` lies): the index is recorded, and `metrics` is left as it was before the
store, which says nothing about the values after it. -/
def storage_set (st : PveState) (idx : Int) (e : StorageEntry) : PveState :=
  if 0 ≤ idx ∧ idx < 8 then
    { st with metrics := { st.metrics with storage := st.metrics.storage.setD idx.toNat e } }
  else { st with overrun := st.overrun ++ [idx] }

/-- The call `snprintf(buf, size, "%s", s)`: the string left in `buf`. -/
def snprintf_s (size : Nat) (s : List Nat) : List Nat := (c_str s).take (size - 1)

/-- The replacement the sanitising loop of get_pve_storage applies to one character. -/
def sanitize_node_char (c : Nat) : Nat :=
  if (97 ≤ c ∧ c ≤ 122) ∨ (65 ≤ c ∧ c ≤ 90) ∨ (48 ≤ c ∧ c ≤ 57) ∨ c = 45 ∨ c = 95 ∨ c = 46
  then c else 95

/-- The array `node` of get_pve_storage after the sanitising loop. -/
def pvesh_node (node_name : List Nat) : List Nat :=
  let node := snprintf_s 64 (if node_name.getD 0 0 ≠ 0 then node_name else text "localhost")
  node.map sanitize_node_char

/-- The command line `pvesh_cmd` get_pve_storage passes to popen. -/
def pvesh_cmd (node_name : List Nat) : List Nat :=
  snprintf_s 192 (text "pvesh get /nodes/" ++ pvesh_node node_name
    ++ text "/storage --output-format json 2>/dev/null")

/-- The loop `while (obj_start > buf && *obj_start != '{') obj_start--`. -/
def scan_back (mem : List Nat) : Nat → Nat
  | 0 => 0
  | p + 1 => if mem.getD (p + 1) 0 ≠ 123 then scan_back mem p else p + 1

/-- The percentage get_pve_storage stores for an entry. -/
def used_percent (used total : Nat) : ℚ :=
  if total > 0 then 100 * (used : ℚ) / (total : ℚ) else 0

/-- The body of the storage-object scan loop of get_pve_storage at scan position `p`:
none when the iteration leaves the loop through `break`, otherwise the scan position
and the state with which the loop continues. -/
def storage_scan_body (mem : List Nat) (buf_end : Nat) (p : Nat) (st : PveState) :
    Option (Nat × PveState) :=
  match find_in_range mem p buf_end ([34] ++ text "storage" ++ [34]) with
  | none => none
  | some storage_key =>
    let obj_start := scan_back mem storage_key
    if mem.getD obj_start 0 ≠ 123 then some (storage_key + 9, st)
    else
      match find_char_in_range mem storage_key buf_end 125 with
      | none => none
      | some brace =>
        let obj_end := brace + 1
        let idx := st.metrics.storage_count
        let r := parse_json_string_field mem obj_start obj_end (text "storage")
          (storage_at st idx).name 32
        if r.1 ≠ 0 then some (obj_end, st)
        else
          let st := storage_set st idx { storage_at st idx with name := r.2 }
          let u := parse_json_u64_field mem obj_start obj_end (text "used") 0
          let t := if u.1 = 0 then
              parse_json_u64_field mem obj_start obj_end (text "total") 0
            else (-1, 0)
          let st := if u.1 = 0 ∧ t.1 = 0 then
              storage_set st idx
                { storage_at st idx with used_bytes := u.2, total_bytes := t.2,
                                         used_pct := used_percent u.2 t.2 }
            else
              storage_set st idx
                { storage_at st idx with used_bytes := 0, total_bytes := 0, used_pct := 0 }
          let st := { st with metrics :=
            { st.metrics with storage_count := st.metrics.storage_count + 1 } }
          some (obj_end, st)

/-- The storage-object scan loop of get_pve_storage from scan position `p`, for at most
`fuel` iterations; none when they do not suffice. -/
def storage_scan (mem : List Nat) (buf_end : Nat) : Nat → Nat → PveState → Option PveState
  | 0, _, _ => none
  | fuel + 1, p, st =>
    if st.metrics.storage_count < 8 then
      match storage_scan_body mem buf_end p st with
      | none => some st
      | some next => storage_scan mem buf_end fuel next.1 next.2
    else some st

/-- The C library call `fgets(line, size, fp)`: the line read and the rest of the
stream, or none at the end of the stream. -/
def fgets (size : Nat) (stream : List Nat) : Option (List Nat × List Nat) :=
  if stream = [] then none
  else
    let chunk := stream.take (size - 1)
    let line := match chunk.indexOf? 10 with
      | some i => chunk.take (i + 1)
      | none => chunk
    some (line, stream.drop line.length)

/-- The call `sscanf(line, "%63s %llu %llu", fs, &total_b, &used_b)` where it returns
at least 3: the two numbers stored. -/
def sscanf_df (line : List Nat) : Option (Nat × Nat) :=
  let s := (c_str line).dropWhile isspace
  let fs := (s.takeWhile (fun c => !isspace c)).take 63
  if fs = [] then none
  else
    let s := s.drop fs.length
    let total_b := strtoull_base10 s
    if total_b.endptr = 0 then none
    else
      let s := s.drop total_b.endptr
      let used_b := strtoull_base10 s
      if used_b.endptr = 0 then none
      else some (total_b.val.toNat, used_b.val.toNat)

/-- The loop `while (fgets(line, sizeof(line), fp))` of the df fallback on the stream of
one command, for the path `path`; `fuel` bounds the number of lines read.  The loop has
no test of `idx`; at a store beyond the array the model records the store and ends. -/
def df_lines (path : List Nat) : Nat → List Nat → Bool → PveState → PveState
  | 0, _, _, st => st
  | fuel + 1, stream, first, st =>
    match fgets 256 stream with
    | none => st
    | some (line, rest) =>
      if first then df_lines path fuel rest false st
      else
        match sscanf_df line with
        | some (total_b, used_b) =>
          let idx := st.metrics.storage_count
          let e := storage_at st idx
          let stored := storage_set st idx
            { name := poke e.name 0 (snprintf_s 32 (path.drop 9) ++ [0]),
              used_bytes := used_b, total_bytes := total_b,
              used_pct := used_percent used_b total_b }
          if 0 ≤ idx ∧ idx < 8 then
            let st := { stored with metrics :=
              { stored.metrics with storage_count := stored.metrics.storage_count + 1 } }
            df_lines path fuel rest false st
          else stored
        | none => df_lines path fuel rest false st

/-- The loop over `pve_paths` of the df fallback. -/
def df_fallback (popen : Popen) : List (List Nat) → PveState → PveState
  | [], st => st
  | path :: paths, st =>
    if st.metrics.storage_count < 8 then
      let cmd := snprintf_s 128 (text "df -B1 " ++ path ++ text " 2>/dev/null")
      match popen cmd with
      | none => df_fallback popen paths st
      | some (output, _) =>
        df_fallback popen paths (df_lines path (output.length + 1) output true st)
    else st

/-- The function get_pve_storage of proxmox.c; `fuel` bounds the iterations of the scan
loop, and the result is none when they do not suffice. -/
def get_pve_storage (popen : Popen) (fuel : Nat) (st : PveState) : Option PveState :=
  let st := { st with metrics := { st.metrics with storage_count := 0 } }
  let paths := [text "/var/lib/vz", text "/var/lib/pve/local-btrfs"]
  match popen (pvesh_cmd st.metrics.node_name) with
  | none => some (df_fallback popen paths st)
  | some (output, status) =>
    let buf := output.take 16383
    let total := buf.length
    if status = 0 ∧ total > 2 then
      match storage_scan buf total fuel 0 st with
      | none => none
      | some st =>
        if st.metrics.storage_count > 0 then some st
        else some (df_fallback popen paths st)
    else some (df_fallback popen paths st)

/-! ## usb.c: send_frame as a step on the globals

The same function once more, statement by statement, on a record of everything it can
reach: the surface, the link globals, its static array and the transport.  Every
assignment of the source is an update of the field it assigns. -/

/-- The globals `framebuffer`, `dev_handle`, `g_ep_out`, `g_usb_iface`, the static
array `frame_data` of send_frame and the log of the transport. -/
structure UsbGlobals where
  framebuffer : Framebuffer
  link : Link
  frame_data : Bytes
  log : List BulkCall

/-- The body of the inner conversion loop of send_frame for cell (x, y): the two
assignments to `frame_data`. -/
def convert_cell_globals (y : Nat) (g : UsbGlobals) (x : Nat) : UsbGlobals :=
  let pixel := g.framebuffer.getD (y * LCD_W + x) 0
  let idx := (y * LCD_W + x) * 2
  let g := { g with frame_data := store8 g.frame_data idx (pixel &&& 0xFF) }
  let g := { g with frame_data := store8 g.frame_data (idx + 1) (pixel >>> 8) }
  g

/-- The two conversion loops of send_frame. -/
def convert_globals (g : UsbGlobals) : UsbGlobals :=
  (List.range LCD_H).foldl
    (fun g (y : Nat) => (List.range LCD_W).foldl (convert_cell_globals y) g) g

/-- The data loop of send_frame from the loop head with the given `offset`. -/
def send_data_globals (usb : Usb) (offset : Nat) (packet : Bytes) (g : UsbGlobals) :
    Int × UsbGlobals :=
  if offset < FRAME_SIZE then
    let chunk := FRAME_SIZE - offset
    let chunk := if chunk > PACKET_SIZE then PACKET_SIZE else chunk
    let packet := memset packet 0 PACKET_SIZE
    let packet := memcpy packet g.frame_data offset chunk
    let r := libusb_bulk_transfer usb g.link.dev_handle g.link.g_ep_out packet PACKET_SIZE 1000
      g.log
    let g := { g with log := r.2 }
    if r.1.rc < 0 ∨ r.1.transferred ≠ PACKET_SIZE then
      (-1, g)
    else
      send_data_globals usb (offset + PACKET_SIZE) packet g
  else
    (0, g)
termination_by FRAME_SIZE - offset
decreasing_by
  simp only [PACKET_SIZE]
  omega

/-- The function send_frame of usb.c on the globals: the value returned and the
globals afterwards. -/
def send_frame_globals (usb : Usb) (packet : Bytes) (g : UsbGlobals) : Int × UsbGlobals :=
  let packet := build_header packet
  let r := libusb_bulk_transfer usb g.link.dev_handle g.link.g_ep_out packet PACKET_SIZE 1000
    g.log
  let g := { g with log := r.2 }
  if r.1.rc < 0 ∨ r.1.transferred ≠ PACKET_SIZE then
    (-1, g)
  else
    send_data_globals usb 0 packet (convert_globals g)

/-! ## metrics.c: compute_counter_rate

A `float` operation gives the rounded exact result.  The rounding `rnd` of the format is
a parameter: the conversions `(float)(current - previous)` and `(float)dt` round an
integer, the division rounds the exact quotient of the two rounded values.  No value
here leaves the range of `float` (the operands are below 2^64 and the divisor is at
least 1). -/

/-- The function compute_counter_rate of metrics.c.  The counters are `uint64_t`, `dt`
is a `time_t`; the difference is taken only when `current >= previous`, so it does not
wrap. -/
def compute_counter_rate (rnd : ℚ → ℚ) (current previous : Nat) (dt : Int) : ℚ :=
  if dt ≤ 0 ∨ current < previous then 0
  else rnd (rnd (((current - previous : Nat) : ℚ)) / rnd (dt : ℚ))

/-! ## proxmox.c: get_pve_vms and get_pve_cts -/

/-- The test `strstr(haystack, needle) != NULL` of the C library: the needle occurs in
the haystack as a contiguous piece. -/
def strstr_found (haystack needle : List Nat) : Bool :=
  decide (c_str needle <:+: c_str haystack)

/-- The loop `while (fgets(line, sizeof(line), fp))` of get_pve_vms and of get_pve_cts
on the two counters it increments, given as (running, total); `first` is the flag of
the same name and `fuel` bounds the number of lines read. -/
def list_lines : Nat → List Nat → Bool → Int × Int → Int × Int
  | 0, _, _, counters => counters
  | fuel + 1, stream, first, counters =>
    match fgets 256 stream with
    | none => counters
    | some (line, rest) =>
      if first then list_lines fuel rest false counters
      else if line.getD 0 0 = 10 ∨ line.getD 0 0 = 0 then list_lines fuel rest false counters
      else
        let total := counters.2 + 1
        let running := if strstr_found line (text "running") then counters.1 + 1
          else counters.1
        list_lines fuel rest false (running, total)

/-- The function get_pve_vms of proxmox.c. -/
def get_pve_vms (popen : Popen) (st : PveState) : PveState :=
  let st := { st with metrics := { st.metrics with running_vms := 0 } }
  let st := { st with metrics := { st.metrics with total_vms := 0 } }
  match popen (text "qm list 2>/dev/null") with
  | none => st
  | some (output, _) =>
    let c := list_lines (output.length + 1) output true
      (st.metrics.running_vms, st.metrics.total_vms)
    { st with metrics := { st.metrics with running_vms := c.1, total_vms := c.2 } }

/-- The function get_pve_cts of proxmox.c. -/
def get_pve_cts (popen : Popen) (st : PveState) : PveState :=
  let st := { st with metrics := { st.metrics with running_cts := 0 } }
  let st := { st with metrics := { st.metrics with total_cts := 0 } }
  match popen (text "pct list 2>/dev/null") with
  | none => st
  | some (output, _) =>
    let c := list_lines (output.length + 1) output true
      (st.metrics.running_cts, st.metrics.total_cts)
    { st with metrics := { st.metrics with running_cts := c.1, total_cts := c.2 } }

/-! ## proxmox.c: get_pve_version and collect_proxmox_metrics

Files are opened through `fopen`: the environment maps a path to nothing when the file
cannot be opened and otherwise to its content.  What the collectors ask of the
environment is recorded as a list of events, in order. -/

/-- The environment of the Proxmox collectors: popen with pclose, and fopen. -/
structure PveEnv where
  popen : Popen
  fopen : List Nat → Option (List Nat)

/-- What collect_proxmox_metrics does that can be seen from outside: the call of
`time(NULL)`, the assignment to `last_pve_collect`, a command run through popen, a
file opened through fopen. -/
inductive PveEvent where
  | time
  | store_last_pve_collect (now : Int)
  | popen (cmd : List Nat)
  | fopen (path : List Nat)
deriving DecidableEq, Repr

def PVE_COLLECT_INTERVAL : Int := 10

/-- The statements `if (fgets(buf, 32, fp)) buf[strcspn(buf, "\n")] = '\0';` of
get_pve_version on the array `pve_version`. -/
def read_version (buf stream : List Nat) : List Nat :=
  match fgets 32 stream with
  | none => buf
  | some (line, _) =>
    let buf := poke buf 0 (line ++ [0])
    poke buf ((c_str buf).takeWhile (fun c => c != 10)).length [0]

/-- The function get_pve_version of proxmox.c. -/
def get_pve_version (env : PveEnv) (st : PveState) : PveState :=
  let st := { st with metrics :=
    { st.metrics with pve_version := poke st.metrics.pve_version 0 [0] } }
  let fallback := fun (st : PveState) =>
    match env.fopen (text "/etc/pve/.version") with
    | none => st
    | some content =>
      { st with metrics :=
        { st.metrics with pve_version := read_version st.metrics.pve_version content } }
  match env.popen (text "pveversion 2>/dev/null") with
  | none => fallback st
  | some (output, _) =>
    let st := { st with metrics :=
      { st.metrics with pve_version := read_version st.metrics.pve_version output } }
    if st.metrics.pve_version.getD 0 0 ≠ 0 then st else fallback st

/-- The events of get_pve_version, in order. -/
def get_pve_version_events (env : PveEnv) (st : PveState) : List PveEvent :=
  let st := { st with metrics :=
    { st.metrics with pve_version := poke st.metrics.pve_version 0 [0] } }
  match env.popen (text "pveversion 2>/dev/null") with
  | none => [PveEvent.popen (text "pveversion 2>/dev/null"),
      PveEvent.fopen (text "/etc/pve/.version")]
  | some (output, _) =>
    if (read_version st.metrics.pve_version output).getD 0 0 ≠ 0 then
      [PveEvent.popen (text "pveversion 2>/dev/null")]
    else [PveEvent.popen (text "pveversion 2>/dev/null"),
      PveEvent.fopen (text "/etc/pve/.version")]

/-- The events of the loop over `pve_paths` of the df fallback, in order. -/
def df_fallback_events (popen : Popen) : List (List Nat) → PveState → List PveEvent
  | [], _ => []
  | path :: paths, st =>
    if st.metrics.storage_count < 8 then
      let cmd := snprintf_s 128 (text "df -B1 " ++ path ++ text " 2>/dev/null")
      match popen cmd with
      | none => PveEvent.popen cmd :: df_fallback_events popen paths st
      | some (output, _) =>
        PveEvent.popen cmd ::
          df_fallback_events popen paths (df_lines path (output.length + 1) output true st)
    else []

/-- The events of get_pve_storage, in order. -/
def get_pve_storage_events (popen : Popen) (fuel : Nat) (st : PveState) : List PveEvent :=
  let st := { st with metrics := { st.metrics with storage_count := 0 } }
  let paths := [text "/var/lib/vz", text "/var/lib/pve/local-btrfs"]
  PveEvent.popen (pvesh_cmd st.metrics.node_name) ::
    match popen (pvesh_cmd st.metrics.node_name) with
    | none => df_fallback_events popen paths st
    | some (output, status) =>
      let buf := output.take 16383
      let total := buf.length
      if status = 0 ∧ total > 2 then
        match storage_scan buf total fuel 0 st with
        | none => []
        | some st =>
          if st.metrics.storage_count > 0 then []
          else df_fallback_events popen paths st
      else df_fallback_events popen paths st

/-- The globals collect_proxmox_metrics works on, with the events so far. -/
structure CollectState where
  pve : PveState
  last_pve_collect : Int
  events : List PveEvent

/-- The function collect_proxmox_metrics of proxmox.c; `now` is the answer of
`time(NULL)`.  The scan loop of get_pve_storage is allowed 16384 iterations, and the
result is none if they do not suffice. -/
def collect_proxmox_metrics (env : PveEnv) (now : Int) (s : CollectState) :
    Option CollectState :=
  if s.pve.metrics.pve_available = 0 then some s
  else
    let s := { s with events := s.events ++ [PveEvent.time] }
    if now - s.last_pve_collect < PVE_COLLECT_INTERVAL then some s
    else
      let s := { s with last_pve_collect := now,
                        events := s.events ++ [PveEvent.store_last_pve_collect now] }
      let s := { s with pve := get_pve_vms env.popen s.pve,
                        events := s.events ++ [PveEvent.popen (text "qm list 2>/dev/null")] }
      let s := { s with pve := get_pve_cts env.popen s.pve,
                        events := s.events ++ [PveEvent.popen (text "pct list 2>/dev/null")] }
      match get_pve_storage env.popen 16384 s.pve with
      | none => none
      | some pve =>
        let s := { s with pve := pve,
                          events := s.events ++ get_pve_storage_events env.popen 16384 s.pve }
        let s := { s with pve := get_pve_version env s.pve,
                          events := s.events ++ get_pve_version_events env s.pve }
        some s

/-! ## Vocabulary of the statements

The definitions below are not translated from the source.  They name what the
statements about the code talk about: a delivered transfer, the little-endian
decoding of header fields, and the packets a frame is expected to consist of. -/

/-- A transfer that reports no error and exactly PACKET_SIZE transferred bytes. -/
def Delivered (r : BulkResult) : Prop :=
  0 ≤ r.rc ∧ r.transferred = (PACKET_SIZE : Int)

instance : DecidablePred Delivered := fun r => by
  unfold Delivered
  infer_instance

/-- Little-endian value of the two bytes at `i` and `i + 1`. -/
def le16 (m : Bytes) (i : Nat) : Nat :=
  load8 m i + 256 * load8 m (i + 1)

/-- Little-endian value of the four bytes at `i` .. `i + 3`. -/
def le32 (m : Bytes) (i : Nat) : Nat :=
  load8 m i + 256 * load8 m (i + 1) + 65536 * load8 m (i + 2) + 16777216 * load8 m (i + 3)

/-- Little-endian decoding of a byte buffer into 16-bit cells. -/
def decode16 (m : Bytes) : Array Nat :=
  Array.ofFn (n := m.size / 2) (fun i => le16 m (2 * i.val))

/-- Expected value of byte `j` of the encoded surface: low byte of cell `j / 2` at even
`j`, high byte at odd `j`. -/
def encByte (framebuffer : Framebuffer) (j : Nat) : Nat :=
  if j % 2 = 0 then framebuffer.getD (j / 2) 0 % 256 else framebuffer.getD (j / 2) 0 / 256 % 256

/-- Issue of a fixed list of calls, in order, stopping after the first one that is not
delivered. -/
def issue (usb : Usb) : List BulkCall → List BulkCall → Int × List BulkCall
  | [], log => (0, log)
  | c :: cs, log =>
    if Delivered (usb log.length) then issue usb cs (log ++ [c]) else (-1, log ++ [c])

/-- Bytes `PACKET_SIZE * k` .. `PACKET_SIZE * k + PACKET_SIZE - 1` of a byte buffer. -/
def chunkOf (frame_data : Bytes) (k : Nat) : List Nat :=
  (frame_data.toList.drop (PACKET_SIZE * k)).take PACKET_SIZE

/-- Expected bulk transfer of data packet number `k` (from 0) of a frame. -/
def dataCall (link : Link) (frame_data : Bytes) (k : Nat) : BulkCall :=
  ⟨link.dev_handle, link.g_ep_out, chunkOf frame_data k, PACKET_SIZE, 1000⟩

/-- Expected bulk transfer of the header packet of a frame. -/
def headerCall (link : Link) (packet : Bytes) : BulkCall :=
  ⟨link.dev_handle, link.g_ep_out, bytesOf (build_header packet) PACKET_SIZE, PACKET_SIZE, 1000⟩

/-- Expected bulk transfers of one whole frame: the header, then the data packets in
ascending offset order. -/
def frameCalls (link : Link) (framebuffer : Framebuffer) (packet frame_data : Bytes) :
    List BulkCall :=
  headerCall link packet ::
    (List.range (FRAME_SIZE / PACKET_SIZE)).map
      (dataCall link (convert_framebuffer framebuffer frame_data))

/-- Direction bit (0x80) of an endpoint address clear: an OUT endpoint. -/
def isOut (addr : Nat) : Bool :=
  addr &&& 0x80 = 0

/-- Endpoints of a list of alternate settings in enumeration order (alt-setting index,
then endpoint index), each as its address with the number of the owning interface. -/
def altEndpoints (alts : List libusb_interface_descriptor) : List (Nat × Int) :=
  alts.flatMap (fun alt => alt.endpoint.map (fun ep => (ep.bEndpointAddress, alt.bInterfaceNumber)))

/-- Endpoints of a list of interfaces in enumeration order (interface index, then
alt-setting index, then endpoint index). -/
def ifaceEndpoints (ifaces : List libusb_interface) : List (Nat × Int) :=
  ifaces.flatMap (fun iface => altEndpoints iface.altsetting)

/-- Endpoints of a configuration in enumeration order. -/
def allEndpoints (cfg : libusb_config_descriptor) : List (Nat × Int) :=
  ifaceEndpoints cfg.interface

/-- First OUT endpoint of a configuration in enumeration order, if there is one: its
address and the number of its interface. -/
def firstOut (cfg : libusb_config_descriptor) : Option (Nat × Int) :=
  (allEndpoints cfg).find? (fun p => isOut p.1)

/-- The link and the found flag after a scan that meets the given first OUT endpoint. -/
def recordEndpoint (link : Link) : Option (Nat × Int) → Link × Bool
  | none => (link, false)
  | some p => ({ link with g_ep_out := p.1, g_usb_iface := p.2 }, true)

/-- The calls every run of usb_init issues up to the scan of the configuration, once the
device is open. -/
def openingEvents (dev : Option Nat) : List UsbEvent :=
  [UsbEvent.libusb_init, UsbEvent.libusb_open_device_with_vid_pid,
    UsbEvent.libusb_get_device dev, UsbEvent.libusb_get_active_config_descriptor]

/-- The auto-detach call of usb_init with the warning that follows a negative answer. -/
def detachEvents (dev : Option Nat) (rc : Int) : List UsbEvent :=
  UsbEvent.libusb_set_auto_detach_kernel_driver dev 1 ::
    (if rc < 0 then [UsbEvent.fprintf_stderr Diag.auto_detach_warning] else [])

/-- An event is a claim of an interface that succeeded. -/
def isSuccessfulClaim : UsbEvent → Bool
  | UsbEvent.libusb_claim_interface _ _ rc => decide (0 ≤ rc)
  | _ => false

/-- An event is a claim of an interface, whatever it answered. -/
def isClaim : UsbEvent → Bool
  | UsbEvent.libusb_claim_interface _ _ _ => true
  | _ => false

/-- An event is a release of an interface. -/
def isRelease : UsbEvent → Bool
  | UsbEvent.libusb_release_interface _ _ => true
  | _ => false

/-- An event is a close of a handle. -/
def isClose : UsbEvent → Bool
  | UsbEvent.libusb_close _ => true
  | _ => false

/-- The events a run appended to the log `before`, given the log `after` it. -/
def issued (before after : List UsbEvent) : List UsbEvent :=
  after.drop before.length

/-- The active pages: the first `num_pages` slots of the array `renderers`. -/
def activePages (st : Array (Option Renderer) × Int) : List (Option Renderer) :=
  st.1.toList.take st.2.toNat

/-- The environment with another answer of `libusb_set_auto_detach_kernel_driver`. -/
def withAutoDetach (usb : Libusb) (rc : Int) : Libusb :=
  { usb with set_auto_detach_rc := rc }

/-- The cell (i, j) of a surface: column i, row j. -/
def cell (framebuffer : Framebuffer) (i j : Nat) : Nat :=
  framebuffer.getD (j * LCD_W + i) 0

/-- The state after `k` iterations of the loop body from `st`, whether or not the loop
would have been left before: every state the display loop can reach is one of these. -/
def loop_iterate {σ : Type} (env : LoopEnv σ) (renderers : Array (Option Renderer))
    (num_pages g_interval : Int) : Nat → LoopState σ → LoopState σ
  | 0, st => st
  | k + 1, st =>
    (loop_body env renderers num_pages g_interval
      (loop_iterate env renderers num_pages g_interval k st)).1

/-- An event is the call of a page-render function. -/
def isRender : LoopEvent → Bool
  | LoopEvent.render _ => true
  | _ => false

/-- An event is the call of a slot of the renderer array that was never assigned. -/
def isBadRender : LoopEvent → Bool
  | LoopEvent.render none => true
  | _ => false

/-- The number a run of decimal digit characters denotes, most significant first. -/
def decimalValue (digits : List Nat) : Nat :=
  Nat.ofDigits 10 ((digits.map (fun c => c - 48)).reverse)

/-- A text of the form strtol converts completely in base 10 to a positive number:
white space, then nothing or a plus sign, then one or more decimal digits to the end. -/
def decimalText (ws sign digits : List Nat) : Prop :=
  (∀ c ∈ ws, isspace c = true) ∧ (sign = [] ∨ sign = [43]) ∧ digits ≠ [] ∧
    (∀ c ∈ digits, isdigit c = true)

/-- The text `arg` is white space, then nothing or a plus sign, then decimal digits to
its end, and the digits denote `n`, a number from 1 to INT_MAX = 2147483647. -/
def positiveDecimal (arg : List Nat) (n : Nat) : Prop :=
  ∃ ws sign digits, arg = ws ++ sign ++ digits ∧ decimalText ws sign digits ∧
    decimalValue digits = n ∧ 1 ≤ n ∧ n ≤ 2147483647

/-- A character the spec lets through in a node name: a letter, a digit, `-`, `_` or
`.`. -/
def nodeCharAllowed (c : Nat) : Bool :=
  (97 ≤ c && c ≤ 122) || (65 ≤ c && c ≤ 90) || (48 ≤ c && c ≤ 57) || c == 45 || c == 95
    || c == 46

/-- The characters with a meaning to the shell: blank, tab, newline, and
; & | $ backquote backslash double quote quote ( ) < > * ? [ ] braces ! hash ~. -/
def shellMeta : List Nat :=
  [32, 9, 10, 59, 38, 124, 36, 96, 92, 34, 39, 40, 41, 60, 62, 42, 63, 91, 93, 123, 125,
    33, 35, 126]

/-- The bytes of `needle` stand in `mem` at offset `p`. -/
def occursAt (mem : List Nat) (p : Nat) (needle : List Nat) : Prop :=
  ∀ i, i < needle.length → mem.getD (p + i) 0 = needle.getD i 0

/-- Offset `k` is the first place in `[start, end_)` where `needle` stands completely. -/
def firstOccurrence (mem : List Nat) (start end_ : Nat) (needle : List Nat) (k : Nat) : Prop :=
  start ≤ k ∧ k + needle.length ≤ end_ ∧ occursAt mem k needle ∧
    ∀ j, start ≤ j → j < k → ¬ occursAt mem j needle

/-- Offset `p` is the first place in `[start, end_)` that holds the character `c`. -/
def firstChar (mem : List Nat) (start end_ : Nat) (c : Nat) (p : Nat) : Prop :=
  start ≤ p ∧ p < end_ ∧ mem.getD p 0 = c ∧ ∀ j, start ≤ j → j < p → mem.getD j 0 ≠ c

/-- The split of a text at a number the way the strto family reads it: white space,
an optional sign, the digits and the rest, each part as long as it can be. -/
def numberText (ws sign digits tail : List Nat) : Prop :=
  (∀ c ∈ ws, isspace c = true) ∧
  (sign = [] ∨ sign = [43] ∨ sign = [45]) ∧
  (∀ c ∈ digits, isdigit c = true) ∧
  (tail.head?.all (fun c => !isdigit c) = true) ∧
  ((sign ++ digits ++ tail).head?.all (fun c => !isspace c) = true) ∧
  (sign = [] → (digits ++ tail).head?.all (fun c => c != 43 && c != 45) = true)

/-- The key text `"field"` the JSON field parsers look for: the field name in double
quotes. -/
def jsonKey (field : List Nat) : List Nat := [34] ++ field ++ [34]

/-- In the object `[obj_start, obj_end)` of `mem` the key of `field` is found first at
`k`, the first colon from there is at `colon`, and the text behind the colon splits as
a number into `ws`, `sign`, `digits` and `tail`. -/
def numberField (mem : List Nat) (obj_start obj_end : Nat) (field : List Nat)
    (k colon : Nat) (ws sign digits tail : List Nat) : Prop :=
  firstOccurrence mem obj_start obj_end (jsonKey field) k ∧
  firstChar mem k obj_end 58 colon ∧
  mem.drop (colon + 1) = ws ++ sign ++ digits ++ tail ∧
  numberText ws sign digits tail

instance (mem : List Nat) (p : Nat) (needle : List Nat) : Decidable (occursAt mem p needle) := by
  unfold occursAt
  infer_instance

/-- The number a run of hexadecimal digit characters denotes, most significant first. -/
def hexValue (digits : List Nat) : Nat :=
  Nat.ofDigits 16 ((digits.map (fun c => (hex_digit c).getD 0)).reverse)

/-- Every character of the text is a hexadecimal digit. -/
def allHex (s : List Nat) : Prop := ∀ c ∈ s, (hex_digit c).isSome = true

instance (s : List Nat) : Decidable (allHex s) := by
  unfold allHex
  infer_instance

/-- The lines of a text: the pieces between its newline characters; a newline at the
very end starts no further line. -/
def linesOf : List Nat → List (List Nat)
  | [] => []
  | c :: s =>
    if c = 10 then [] :: linesOf s
    else
      match linesOf s with
      | [] => [[c]]
      | l :: ls => (c :: l) :: ls

/-- The non-empty lines of a text, its first line left out when `first` is set. -/
def countedLines (first : Bool) (s : List Nat) : List (List Nat) :=
  (if first then (linesOf s).drop 1 else linesOf s).filter (fun l => !l.isEmpty)

/-- The lines among the given ones that contain the text "running". -/
def withRunning (ls : List (List Nat)) : List (List Nat) :=
  ls.filter (fun l => decide (text "running" <:+: l))

/-- The non-empty lines of a command output after its first (header) line. -/
def listedLines (output : List Nat) : List (List Nat) := countedLines true output

/-- The lines among the listed ones that contain the text "running". -/
def runningLines (output : List Nat) : List (List Nat) := withRunning (listedLines output)

/-- An event is a command run or a file opened. -/
def isCommand : PveEvent → Bool
  | PveEvent.popen _ => true
  | PveEvent.fopen _ => true
  | _ => false

/-! ## Concrete inputs -/

/-- A transport on which every transfer is delivered. -/
def usbGood : Usb := fun _ => ⟨0, 512⟩

/-- A transport whose sixth transfer is short by one byte (like the short-write mock of
the tests) and which delivers all others. -/
def usbShortAt5 : Usb := fun n => if n = 5 then ⟨0, 511⟩ else ⟨0, 512⟩

/-- A bound link as the tests set it up: a handle and OUT endpoint 0x02. -/
def linkBound : Link := ⟨some 1, 0x02, 0⟩

/-- A surface whose cell `i` holds `i` modulo 65536. -/
def surfaceRamp : Framebuffer := Array.ofFn (n := LCD_W * LCD_H) (fun i => i.val % 65536)

/-- A packet buffer filled with 0xFF, as in the test of `build_header`. -/
def packetFF : Bytes := mkArray PACKET_SIZE 0xFF

/-- The static conversion buffer in its initial, zeroed state. -/
def frameDataZero : Bytes := mkArray FRAME_SIZE 0

/-- The link globals as state.c initialises them: no handle, g_ep_out 0x02,
g_usb_iface -1. -/
def linkInitial : Link := ⟨none, 0x02, -1⟩

/-- A configuration like the one of the tests: interface 3 with the single OUT
endpoint 0x04. -/
def cfgTest : libusb_config_descriptor :=
  ⟨[⟨[⟨3, [⟨0x04⟩]⟩]⟩]⟩

/-- A configuration with IN endpoints before the first OUT endpoint and further OUT
endpoints after it: interface 0 has IN 0x81; interface 1 has IN 0x82, OUT 0x03 and
OUT 0x05 in its first alternate setting and OUT 0x06 in its second. -/
def cfgMixed : libusb_config_descriptor :=
  ⟨[⟨[⟨0, [⟨0x81⟩]⟩]⟩, ⟨[⟨1, [⟨0x82⟩, ⟨0x03⟩, ⟨0x05⟩]⟩, ⟨1, [⟨0x06⟩]⟩]⟩]⟩

/-- A configuration whose only endpoints are IN endpoints. -/
def cfgNoOut : libusb_config_descriptor :=
  ⟨[⟨[⟨0, [⟨0x81⟩, ⟨0x82⟩]⟩]⟩]⟩

/-- A configuration whose first OUT endpoint has address 0x00, followed by OUT 0x02. -/
def cfgEpZero : libusb_config_descriptor :=
  ⟨[⟨[⟨0, [⟨0x00⟩, ⟨0x02⟩]⟩]⟩]⟩

/-- An environment in which every call succeeds, with the given configuration. -/
def usbReady (cfg : libusb_config_descriptor) : Libusb :=
  ⟨0, some 1, 0, some cfg, 0, fun _ => 0⟩

/-- An environment in which the device is not found. -/
def usbNotFound : Libusb :=
  ⟨0, none, 0, some cfgTest, 0, fun _ => 0⟩

/-- An environment in which the interface claim fails (LIBUSB_ERROR_BUSY is -6). -/
def usbClaimFails : Libusb :=
  ⟨0, some 1, 0, some cfgTest, 0, fun _ => -6⟩

/-- The cleared surface (clear_fb of the tests): every cell 0. -/
def surfaceCleared : Framebuffer := mkArray (LCD_W * LCD_H) 0

/-- An environment of the display loop without metrics: the loop keeps running, the
clock advances two seconds per iteration from 100, rendering leaves the surface as it
is, and the transport is the given one. -/
def loopEnvPlain (usb : Usb) : LoopEnv Unit :=
  ⟨fun _ => true, fun k => 100 + 2 * k, fun _ s => s, fun _ s => s, fun _ _ fb => fb, usb,
    fun _ => packetFF⟩

/-- The state at the head of the display loop right after a successful usb_init on the
configuration of the tests. -/
def loopStart : LoopState Unit :=
  ⟨0, 0, 100, (), surfaceCleared, frameDataZero, ⟨some 1, 0x04, 3⟩, [], []⟩

/-- The globals of cli.c as state.c initialises them. -/
def cliInitial : CliState := ⟨0x0416, 0x5302, 7, []⟩

/-- The node name "node?bad" of the tests. -/
def nodeBad : List Nat := text "node?bad"

/-- The object text with a number as the value of "storage" that the storage test
feeds: an opening brace, then "storage":0,"used":1,"total":2, then a closing brace. -/
def jsonNumberObject : List Nat :=
  [123] ++ text "\"storage\":0,\"used\":1,\"total\":2" ++ [125]

/-- The object text of the parser test with a number as value: "storage":123 in braces. -/
def jsonNumberOnly : List Nat := [123] ++ text "\"storage\":123" ++ [125]

/-- A zeroed `g_pve_metrics` with node name "node1", eight zeroed storage slots and no
store beyond them. -/
def pveZero : PveState :=
  ⟨⟨0, 0, 0, 0, [], text "node1", 1, mkArray 8 ⟨List.replicate 32 0, 0, 0, 0⟩, 0⟩, []⟩

/-- An output of `df -B1 /var/lib/vz` with a header line and nine data lines. -/
def dfNineLines : List Nat :=
  text "Filesystem 1B-blocks Used\n" ++ text "a 2 1\nb 2 1\nc 2 1\nd 2 1\ne 2 1\n"
    ++ text "f 2 1\ng 2 1\nh 2 1\ni 2 1\n"

/-- A system on which pvesh cannot be started and df reports nine lines for /var/lib/vz. -/
def popenDfNine : Popen := fun cmd =>
  if cmd = text "df -B1 /var/lib/vz 2>/dev/null" then some (dfNineLines, 0) else none

/-- The object text with a negative number: "used":-5 in braces. -/
def jsonNegative : List Nat := [123] ++ text "\"used\":-5" ++ [125]

/-- The object text of the parser tests: "storage":"local","used":123,"total":456 in
braces. -/
def jsonObject : List Nat :=
  [123] ++ text "\"storage\":\"local\",\"used\":123,\"total\":456" ++ [125]

/-- The output of `qm list` in the tests: a header and two lines, one running. -/
def qmListOutput : List Nat := text "VMID NAME STATUS\n100 a running\n101 b stopped\n"

/-- A system on which `qm list` and `pct list` both print the output of the tests and
every other command fails to start. -/
def popenList : Popen := fun cmd =>
  if cmd = text "qm list 2>/dev/null" ∨ cmd = text "pct list 2>/dev/null" then
    some (qmListOutput, 0)
  else none

/-- The system of the collect test: the four commands answer as the test sets them up,
no other command starts and no file opens. -/
def envCollect : PveEnv :=
  ⟨fun cmd =>
    if cmd = text "qm list 2>/dev/null" then
      some (text "VMID NAME STATUS\n100 a running\n", 0)
    else if cmd = text "pct list 2>/dev/null" then
      some (text "VMID NAME STATUS\n200 c stopped\n", 0)
    else if cmd = text "pvesh get /nodes/node1/storage --output-format json 2>/dev/null" then
      some ([91, 123] ++ text "\"storage\":\"local\",\"used\":100,\"total\":200" ++ [125, 93], 0)
    else if cmd = text "pveversion 2>/dev/null" then some (text "pve-manager/8.2\n", 0)
    else none,
   fun _ => none⟩

/-- The globals of the collect test before the call: Proxmox available, last collect
at time 100, nothing asked of the system so far. -/
def collectStart : CollectState := ⟨pveZero, 100, []⟩

/-- An output of a list command that holds terminator bytes: a header line, a line that
begins with the byte 0 and a line with the byte 0 before the text "running". -/
def listOutputNul : List Nat :=
  text "VMID NAME STATUS\n" ++ [0] ++ text "100 a stopped\n" ++ text "101" ++ [0]
    ++ text " b running\n"

/-- A system on which `qm list` and `pct list` both print the output with terminator
bytes and every other command fails to start. -/
def popenListNul : Popen := fun cmd =>
  if cmd = text "qm list 2>/dev/null" ∨ cmd = text "pct list 2>/dev/null" then
    some (listOutputNul, 0)
  else none

/-! ## Memory lemmas -/

theorem size_store8 (m : Bytes) (i v : Nat) : (store8 m i v).size = m.size := by
  simp [store8]

theorem load8_store8 (m : Bytes) (i v j : Nat) :
    load8 (store8 m i v) j = if j = i ∧ i < m.size then v % 256 else load8 m j := by
  unfold load8 store8 Array.setD
  by_cases h : i < m.size
  · by_cases hji : j = i
    · subst hji
      simp [h, Array.getD]
    · have hne : i ≠ j := fun e => hji e.symm
      simp [h, hji, Array.getD, Array.get_set, hne]
  · simp [h]

theorem foldl_store8_spec (f : Nat → Nat) (n : Nat) (m : Bytes) :
    ((List.range n).foldl (fun m i => store8 m i (f i)) m).size = m.size ∧
    ∀ j, load8 ((List.range n).foldl (fun m i => store8 m i (f i)) m) j
      = if j < n ∧ j < m.size then f j % 256 else load8 m j := by
  induction n with
  | zero => simp
  | succ n ih =>
    rw [List.range_succ, List.foldl_append]
    simp only [List.foldl_cons, List.foldl_nil]
    refine ⟨by rw [size_store8]; exact ih.1, fun j => ?_⟩
    rw [load8_store8, ih.1, ih.2]
    by_cases h1 : j = n
    · subst h1
      by_cases h2 : j < m.size
      · simp [h2]
      · simp [h2]
    · by_cases h2 : j < n
      · have : j < n + 1 := by omega
        simp [h1, h2, this]
      · have : ¬ j < n + 1 := by omega
        simp [h1, h2, this]

theorem size_memset (m : Bytes) (c n : Nat) : (memset m c n).size = m.size :=
  (foldl_store8_spec (fun _ => c) n m).1

theorem load8_memset (m : Bytes) (c n j : Nat) :
    load8 (memset m c n) j = if j < n ∧ j < m.size then c % 256 else load8 m j :=
  (foldl_store8_spec (fun _ => c) n m).2 j

theorem and_0xFF (p : Nat) : p &&& 0xFF = p % 256 :=
  Nat.and_pow_two_sub_one_eq_mod p 8

theorem shr_8 (p : Nat) : p >>> 8 = p / 256 :=
  Nat.shiftRight_eq_div_pow p 8

theorem convert_cell_spec (fb : Framebuffer) (y x : Nat) (m : Bytes) :
    (convert_cell fb y m x).size = m.size ∧
    ∀ j, load8 (convert_cell fb y m x) j
      = if (y * LCD_W + x) * 2 ≤ j ∧ j < (y * LCD_W + x + 1) * 2 ∧ j < m.size
        then encByte fb j else load8 m j := by
  simp only [convert_cell, size_store8, load8_store8, and_0xFF, shr_8, encByte, true_and]
  intro j
  by_cases h1 : j = (y * LCD_W + x) * 2 + 1
  · have e1 : j / 2 = y * LCD_W + x := by omega
    have e2 : ¬ j % 2 = 0 := by omega
    by_cases h2 : j < m.size
    · have : (y * LCD_W + x) * 2 ≤ j ∧ j < (y * LCD_W + x + 1) * 2 ∧ j < m.size := by omega
      rw [if_pos this, if_neg e2, e1, if_pos ⟨h1, h1 ▸ h2⟩]
    · have : ¬ ((y * LCD_W + x) * 2 ≤ j ∧ j < (y * LCD_W + x + 1) * 2 ∧ j < m.size) := by omega
      rw [if_neg this, if_neg (by omega), if_neg (by omega)]
  · by_cases h3 : j = (y * LCD_W + x) * 2
    · have e1 : j / 2 = y * LCD_W + x := by omega
      have e2 : j % 2 = 0 := by omega
      by_cases h2 : j < m.size
      · have : (y * LCD_W + x) * 2 ≤ j ∧ j < (y * LCD_W + x + 1) * 2 ∧ j < m.size := by omega
        rw [if_pos this, if_pos e2, e1, if_neg (by omega), if_pos ⟨h3, h3 ▸ h2⟩, Nat.mod_mod]
      · have : ¬ ((y * LCD_W + x) * 2 ≤ j ∧ j < (y * LCD_W + x + 1) * 2 ∧ j < m.size) := by omega
        rw [if_neg this, if_neg (by omega), if_neg (by omega)]
    · have : ¬ ((y * LCD_W + x) * 2 ≤ j ∧ j < (y * LCD_W + x + 1) * 2 ∧ j < m.size) := by omega
      rw [if_neg this, if_neg (by omega), if_neg (by omega)]

theorem convert_row_loop_spec (fb : Framebuffer) (y n : Nat) (m : Bytes) :
    ((List.range n).foldl (convert_cell fb y) m).size = m.size ∧
    ∀ j, load8 ((List.range n).foldl (convert_cell fb y) m) j
      = if (y * LCD_W) * 2 ≤ j ∧ j < (y * LCD_W + n) * 2 ∧ j < m.size
        then encByte fb j else load8 m j := by
  induction n with
  | zero =>
    refine ⟨rfl, fun j => ?_⟩
    rw [if_neg (by omega)]
    rfl
  | succ n ih =>
    rw [List.range_succ, List.foldl_append]
    simp only [List.foldl_cons, List.foldl_nil]
    have hc := convert_cell_spec fb y n ((List.range n).foldl (convert_cell fb y) m)
    refine ⟨hc.1.trans ih.1, fun j => ?_⟩
    rw [hc.2, ih.1, ih.2]
    by_cases h1 : (y * LCD_W + n) * 2 ≤ j ∧ j < (y * LCD_W + n + 1) * 2 ∧ j < m.size
    · rw [if_pos h1, if_pos (by omega)]
    · rw [if_neg h1]
      by_cases h2 : (y * LCD_W) * 2 ≤ j ∧ j < (y * LCD_W + n) * 2 ∧ j < m.size
      · rw [if_pos h2, if_pos (by omega)]
      · rw [if_neg h2, if_neg (by omega)]

theorem convert_rows_spec (fb : Framebuffer) (n : Nat) (m : Bytes) :
    ((List.range n).foldl (convert_row fb) m).size = m.size ∧
    ∀ j, load8 ((List.range n).foldl (convert_row fb) m) j
      = if j < (n * LCD_W) * 2 ∧ j < m.size then encByte fb j else load8 m j := by
  induction n with
  | zero =>
    refine ⟨rfl, fun j => ?_⟩
    rw [if_neg (by omega)]
    rfl
  | succ n ih =>
    rw [List.range_succ, List.foldl_append]
    simp only [List.foldl_cons, List.foldl_nil]
    have hc := convert_row_loop_spec fb n LCD_W ((List.range n).foldl (convert_row fb) m)
    refine ⟨hc.1.trans ih.1, fun j => ?_⟩
    show load8 ((List.range LCD_W).foldl (convert_cell fb n) _) j = _
    rw [hc.2, ih.1, ih.2]
    have e : (n + 1) * LCD_W = n * LCD_W + LCD_W := by ring
    rw [e]
    by_cases h1 : (n * LCD_W) * 2 ≤ j ∧ j < (n * LCD_W + LCD_W) * 2 ∧ j < m.size
    · rw [if_pos h1, if_pos (by omega)]
    · rw [if_neg h1]
      by_cases h2 : j < (n * LCD_W) * 2 ∧ j < m.size
      · rw [if_pos h2, if_pos (by omega)]
      · rw [if_neg h2, if_neg (by omega)]

theorem convert_framebuffer_spec (fb : Framebuffer) (m : Bytes) :
    (convert_framebuffer fb m).size = m.size ∧
    ∀ j, load8 (convert_framebuffer fb m) j
      = if j < FRAME_SIZE ∧ j < m.size then encByte fb j else load8 m j := by
  have h := convert_rows_spec fb LCD_H m
  have e : LCD_H * LCD_W * 2 = FRAME_SIZE := by decide
  rw [e] at h
  exact h

theorem load8_eq_getElem (m : Bytes) (i : Nat) (h : i < m.size) : load8 m i = m[i] := by
  simp [load8, Array.getD, h]

theorem size_memcpy (dst src : Bytes) (offset n : Nat) : (memcpy dst src offset n).size = dst.size :=
  (foldl_store8_spec (fun i => load8 src (offset + i)) n dst).1

theorem load8_memcpy (dst src : Bytes) (offset n j : Nat) :
    load8 (memcpy dst src offset n) j
      = if j < n ∧ j < dst.size then load8 src (offset + j) % 256 else load8 dst j :=
  (foldl_store8_spec (fun i => load8 src (offset + i)) n dst).2 j

theorem bytesOf_getElem (m : Bytes) (n i : Nat) (h : i < (bytesOf m n).length) :
    (bytesOf m n)[i] = load8 m i := by
  have h1 : i < n ∧ i < m.size := by
    simpa [bytesOf, List.length_take] using h
  simp [bytesOf, load8_eq_getElem m i h1.2]

theorem bytesOf_data_packet (packet fd : Bytes) (offset : Nat)
    (hp : packet.size = PACKET_SIZE) (ho : offset + PACKET_SIZE ≤ fd.size)
    (hb : ∀ j, j < fd.size → load8 fd j < 256) :
    bytesOf (memcpy (memset packet 0 PACKET_SIZE) fd offset PACKET_SIZE) PACKET_SIZE
      = (fd.toList.drop offset).take PACKET_SIZE := by
  apply List.ext_getElem
  · simp [bytesOf, List.length_take, List.length_drop, size_memcpy, size_memset, hp]
    omega
  · intro i h1 h2
    rw [bytesOf_getElem, load8_memcpy, size_memset, hp]
    have hi : i < PACKET_SIZE := by
      have := h2
      simp [List.length_take] at this
      omega
    rw [if_pos ⟨hi, hi⟩, Nat.mod_eq_of_lt (hb _ (by omega)), load8_eq_getElem fd _ (by omega)]
    simp

theorem failed_iff (r : BulkResult) :
    (r.rc < 0 ∨ r.transferred ≠ (PACKET_SIZE : Int)) ↔ ¬ Delivered r := by
  unfold Delivered
  constructor
  · rintro (h | h) ⟨h1, h2⟩
    · omega
    · exact h h2
  · intro h
    by_cases h1 : r.rc < 0
    · exact Or.inl h1
    · exact Or.inr fun h2 => h ⟨by omega, h2⟩

theorem FRAME_SIZE_eq : FRAME_SIZE = 153600 := by decide

theorem send_data_eq_issue (usb : Usb) (link : Link) (fd : Bytes) (hfd : fd.size = FRAME_SIZE)
    (hb : ∀ j, j < fd.size → load8 fd j < 256) :
    ∀ (n k : Nat) (packet : Bytes) (log : List BulkCall), k + n = 300 →
      packet.size = PACKET_SIZE →
      send_data usb link fd (PACKET_SIZE * k) packet log
        = issue usb ((List.range' k n).map (dataCall link fd)) log := by
  intro n
  induction n with
  | zero =>
    intro k packet log hk _
    rw [send_data, if_neg (by rw [FRAME_SIZE_eq]; simp only [PACKET_SIZE]; omega)]
    rfl
  | succ n ih =>
    intro k packet log hk hp
    have hlt : PACKET_SIZE * k < FRAME_SIZE := by
      rw [FRAME_SIZE_eq]; simp only [PACKET_SIZE]; omega
    have hchunk : (if FRAME_SIZE - PACKET_SIZE * k > PACKET_SIZE then PACKET_SIZE
        else FRAME_SIZE - PACKET_SIZE * k) = PACKET_SIZE := by
      rw [FRAME_SIZE_eq]; simp only [PACKET_SIZE]; split <;> omega
    have hbytes := bytesOf_data_packet packet fd (PACKET_SIZE * k) hp
      (by rw [hfd, FRAME_SIZE_eq]; simp only [PACKET_SIZE]; omega) hb
    rw [send_data, if_pos hlt]
    simp only [hchunk, libusb_bulk_transfer, hbytes]
    rw [List.range'_succ, List.map_cons, issue]
    have hnext : PACKET_SIZE * k + PACKET_SIZE = PACKET_SIZE * (k + 1) := by ring
    by_cases hd : Delivered (usb log.length)
    · rw [if_neg (fun h => (failed_iff _).1 h hd), if_pos hd, hnext]
      exact ih (k + 1) _ _ (by omega) (by rw [size_memcpy, size_memset, hp])
    · rw [if_pos ((failed_iff _).2 hd), if_neg hd]
      rfl

theorem issue_spec (usb : Usb) : ∀ (cs log : List BulkCall),
    ((issue usb cs log).1 = 0 ∧ (issue usb cs log).2 = log ++ cs ∧
        ∀ j, j < cs.length → Delivered (usb (log.length + j))) ∨
    ((issue usb cs log).1 = -1 ∧ ∃ k, k < cs.length ∧
        (issue usb cs log).2 = log ++ cs.take (k + 1) ∧
        (∀ j, j < k → Delivered (usb (log.length + j))) ∧
        ¬ Delivered (usb (log.length + k))) := by
  intro cs
  induction cs with
  | nil =>
    intro log
    left
    simp [issue]
  | cons c cs ih =>
    intro log
    by_cases hd : Delivered (usb log.length)
    · rw [issue, if_pos hd]
      rcases ih (log ++ [c]) with ⟨h1, h2, h3⟩ | ⟨h1, k, hk, h2, h3, h4⟩
      · left
        refine ⟨h1, by simpa using h2, fun j hj => ?_⟩
        cases j with
        | zero => simpa using hd
        | succ j =>
          have := h3 j (by simpa using hj)
          simpa [Nat.add_comm j 1, Nat.add_assoc] using this
      · right
        refine ⟨h1, k + 1, by simpa using hk, by simpa using h2, fun j hj => ?_, ?_⟩
        · cases j with
          | zero => simpa using hd
          | succ j =>
            have := h3 j (by omega)
            simpa [Nat.add_comm j 1, Nat.add_assoc] using this
        · simpa [Nat.add_comm k 1, Nat.add_assoc] using h4
    · rw [issue, if_neg hd]
      right
      exact ⟨rfl, 0, by simp, by simp, fun j hj => absurd hj (Nat.not_lt_zero j), by simpa using hd⟩

theorem size_build_header (hdr : Bytes) : (build_header hdr).size = hdr.size := by
  simp only [build_header, size_store8, size_memset]

theorem encByte_lt (fb : Framebuffer) (j : Nat) : encByte fb j < 256 := by
  unfold encByte
  split <;> exact Nat.mod_lt _ (by decide)

theorem send_frame_eq_issue (usb : Usb) (link : Link) (fb : Framebuffer) (packet fd : Bytes)
    (log : List BulkCall) (hp : packet.size = PACKET_SIZE) (hfd : fd.size = FRAME_SIZE) :
    (send_frame usb link fb packet fd log).ret = (issue usb (frameCalls link fb packet fd) log).1 ∧
    (send_frame usb link fb packet fd log).log = (issue usb (frameCalls link fb packet fd) log).2 ∧
    (send_frame usb link fb packet fd log).frame_data
      = if Delivered (usb log.length) then convert_framebuffer fb fd else fd := by
  have hc := convert_framebuffer_spec fb fd
  have hdata := send_data_eq_issue usb link (convert_framebuffer fb fd) (hc.1.trans hfd)
    (fun j hj => by
      rw [hc.2, if_pos ⟨by rw [← hfd, ← hc.1]; exact hj, by rw [← hc.1]; exact hj⟩]
      exact encByte_lt fb j)
    300 0 (build_header packet) (log ++ [headerCall link packet]) rfl
    ((size_build_header packet).trans hp)
  have h300 : FRAME_SIZE / PACKET_SIZE = 300 := by decide
  have hz : PACKET_SIZE * 0 = 0 := rfl
  rw [hz] at hdata
  unfold send_frame frameCalls
  rw [issue, h300, List.range_eq_range']
  simp only [libusb_bulk_transfer]
  by_cases hd : Delivered (usb log.length)
  · simp only [if_neg (fun h => (failed_iff _).1 h hd), if_pos hd]
    exact ⟨congrArg Prod.fst hdata, congrArg Prod.snd hdata, trivial⟩
  · simp only [if_pos ((failed_iff _).2 hd), if_neg hd]
    exact ⟨trivial, rfl, trivial⟩

theorem getElem?_eq_load8 (m : Bytes) (i : Nat) (h : i < m.size) : m[i]? = some (load8 m i) := by
  rw [load8_eq_getElem m i h]
  exact Array.getElem?_lt m h

theorem load8_build_header (hdr : Bytes) (hs : hdr.size = PACKET_SIZE) (j : Nat) :
    load8 (build_header hdr) j =
      if j = 29 then 0x08 else if j = 28 then 0x00 else if j = 27 then 0x00
      else if j = 26 then 0x00 else if j = 25 then 0x00 else if j = 24 then 0x02
      else if j = 23 then 0x58 else if j = 22 then 0x00 else if j = 13 then 0x00
      else if j = 12 then 0x02 else if j = 11 then 0x01 else if j = 10 then 0x40
      else if j = 9 then 0x00 else if j = 8 then 0xF0 else if j = 7 then 0x00
      else if j = 6 then 0x01 else if j = 5 then 0x00 else if j = 4 then 0x02
      else if j = 3 then 0xDD else if j = 2 then 0xDC else if j = 1 then 0xDB
      else if j = 0 then 0xDA else if j < 512 then 0 else load8 hdr j := by
  have hsz : ∀ (m : Bytes) (i v : Nat), m.size = 512 → (store8 m i v).size = 512 :=
    fun m i v h => (size_store8 m i v).trans h
  have hld : ∀ (m : Bytes) (i v j : Nat), m.size = 512 → i < 512 →
      load8 (store8 m i v) j = if j = i then v % 256 else load8 m j := by
    intro m i v j h hi
    rw [load8_store8, h]
    simp [hi]
  have h0 : (memset hdr 0 PACKET_SIZE).size = 512 := (size_memset _ _ _).trans hs
  have l0 : load8 (memset hdr 0 PACKET_SIZE) j = if j < 512 then 0 else load8 hdr j := by
    rw [load8_memset, hs]
    simp [PACKET_SIZE]
  unfold build_header
  generalize memset hdr 0 PACKET_SIZE = m0 at h0 l0
  simp only []
  repeat rw [hld _ _ _ _ (by repeat (first | apply hsz | exact h0)) (by decide)]
  rw [l0]

theorem load8_build_header_indep (h1 h2 : Bytes) (hs1 : h1.size = PACKET_SIZE)
    (hs2 : h2.size = PACKET_SIZE) (j : Nat) (hj : j < 512) :
    load8 (build_header h1) j = load8 (build_header h2) j := by
  rw [load8_build_header h1 hs1, load8_build_header h2 hs2]
  simp only [hj, if_true]

theorem size_packetFF : packetFF.size = PACKET_SIZE :=
  Array.size_mkArray _ _

theorem le16_build_header_8 (hdr : Bytes) (hs : hdr.size = PACKET_SIZE) :
    le16 (build_header hdr) 8 = 240 := by
  simp [le16, load8_build_header hdr hs]

theorem le16_build_header_10 (hdr : Bytes) (hs : hdr.size = PACKET_SIZE) :
    le16 (build_header hdr) 10 = 320 := by
  simp [le16, load8_build_header hdr hs]

theorem le32_build_header_22 (hdr : Bytes) (hs : hdr.size = PACKET_SIZE) :
    le32 (build_header hdr) 22 = 153600 := by
  simp [le32, load8_build_header hdr hs]

theorem frameCalls_length (link : Link) (fb : Framebuffer) (packet fd : Bytes) :
    (frameCalls link fb packet fd).length = 301 := by
  have h300 : FRAME_SIZE / PACKET_SIZE = 300 := by decide
  simp [frameCalls, h300]

theorem length_bytesOf (m : Bytes) (n : Nat) (h : n ≤ m.size) : (bytesOf m n).length = n := by
  simp [bytesOf, List.length_take]
  exact h

theorem length_chunkOf (m : Bytes) (k : Nat) (h : PACKET_SIZE * k + PACKET_SIZE ≤ m.size) :
    (chunkOf m k).length = PACKET_SIZE := by
  simp [chunkOf, List.length_take, List.length_drop]
  omega

theorem frameCalls_fields (link : Link) (fb : Framebuffer) (packet fd : Bytes)
    (hp : packet.size = PACKET_SIZE) (hfd : fd.size = FRAME_SIZE) :
    ∀ c, c ∈ frameCalls link fb packet fd →
      c.dev_handle = link.dev_handle ∧ c.endpoint = link.g_ep_out ∧ c.length = 512 ∧
      c.data.length = 512 ∧ c.timeout = 1000 := by
  intro c hc
  have h300 : FRAME_SIZE / PACKET_SIZE = 300 := by decide
  rw [frameCalls, h300, List.mem_cons, List.mem_map] at hc
  rcases hc with rfl | ⟨k, hk, rfl⟩
  · refine ⟨rfl, rfl, rfl, ?_, rfl⟩
    simp only [headerCall]
    rw [length_bytesOf _ _ (Nat.le_of_eq ((size_build_header packet).trans hp).symm)]
    rfl
  · refine ⟨rfl, rfl, rfl, ?_, rfl⟩
    have hk300 : k < 300 := List.mem_range.1 hk
    have hsz : PACKET_SIZE * k + PACKET_SIZE ≤ (convert_framebuffer fb fd).size := by
      rw [(convert_framebuffer_spec fb fd).1, hfd, FRAME_SIZE_eq]
      simp only [PACKET_SIZE]
      omega
    simp only [dataCall]
    rw [length_chunkOf _ _ hsz]
    rfl

theorem send_frame_cases (usb : Usb) (link : Link) (fb : Framebuffer) (packet fd : Bytes)
    (log : List BulkCall) (hp : packet.size = PACKET_SIZE) (hfd : fd.size = FRAME_SIZE) :
    ((send_frame usb link fb packet fd log).ret = 0 ∧
      (send_frame usb link fb packet fd log).log = log ++ frameCalls link fb packet fd ∧
      (send_frame usb link fb packet fd log).frame_data = convert_framebuffer fb fd ∧
      ∀ j, j < 301 → Delivered (usb (log.length + j))) ∨
    ((send_frame usb link fb packet fd log).ret = -1 ∧ ∃ k, k < 301 ∧
      (send_frame usb link fb packet fd log).log
        = log ++ (frameCalls link fb packet fd).take (k + 1) ∧
      (∀ j, j < k → Delivered (usb (log.length + j))) ∧
      ¬ Delivered (usb (log.length + k))) := by
  obtain ⟨h1, h2, h3⟩ := send_frame_eq_issue usb link fb packet fd log hp hfd
  rw [h1, h2]
  have hlen := frameCalls_length link fb packet fd
  rcases issue_spec usb (frameCalls link fb packet fd) log with ⟨a, b, c⟩ | ⟨a, k, hk, b, c, d⟩
  · left
    refine ⟨a, b, ?_, fun j hj => c j (by omega)⟩
    rw [h3, if_pos (by simpa using c 0 (by omega))]
  · right
    exact ⟨a, k, by omega, b, c, d⟩

theorem delivered_iff (r : BulkResult) : Delivered r ↔ 0 ≤ r.rc ∧ r.transferred = 512 := by
  simp [Delivered, PACKET_SIZE]

theorem send_frame_ok (usb : Usb) (link : Link) (fb : Framebuffer) (packet fd : Bytes)
    (log : List BulkCall) (hp : packet.size = PACKET_SIZE) (hfd : fd.size = FRAME_SIZE)
    (hok : ∀ j, j < 301 → 0 ≤ (usb (log.length + j)).rc ∧ (usb (log.length + j)).transferred = 512) :
    (send_frame usb link fb packet fd log).ret = 0 ∧
    (send_frame usb link fb packet fd log).log = log ++ frameCalls link fb packet fd ∧
    (send_frame usb link fb packet fd log).frame_data = convert_framebuffer fb fd := by
  rcases send_frame_cases usb link fb packet fd log hp hfd with ⟨a, b, c, _⟩ | ⟨_, k, hk, _, _, d⟩
  · exact ⟨a, b, c⟩
  · exact absurd ((delivered_iff _).2 (hok k hk)) d

theorem send_frame_of_ret_zero (usb : Usb) (link : Link) (fb : Framebuffer) (packet fd : Bytes)
    (log : List BulkCall) (hp : packet.size = PACKET_SIZE) (hfd : fd.size = FRAME_SIZE)
    (hret : (send_frame usb link fb packet fd log).ret = 0) :
    (send_frame usb link fb packet fd log).log = log ++ frameCalls link fb packet fd ∧
    (send_frame usb link fb packet fd log).frame_data = convert_framebuffer fb fd := by
  rcases send_frame_cases usb link fb packet fd log hp hfd with ⟨_, b, c, _⟩ | ⟨a, _⟩
  · exact ⟨b, c⟩
  · rw [a] at hret
    exact absurd hret (by decide)

theorem usbGood_delivered (n : Nat) :
    ∀ j, j < 301 → 0 ≤ (usbGood (n + j)).rc ∧ (usbGood (n + j)).transferred = 512 :=
  fun _ _ => ⟨Int.le_refl 0, rfl⟩

theorem size_frameDataZero : frameDataZero.size = FRAME_SIZE :=
  Array.size_mkArray _ _

theorem send_frame_usbGood_ret :
    (send_frame usbGood linkBound surfaceRamp packetFF frameDataZero []).ret = 0 :=
  (send_frame_ok usbGood linkBound surfaceRamp packetFF frameDataZero [] size_packetFF
    size_frameDataZero (usbGood_delivered _)).1

theorem flatten_chunks_from (l : List Nat) : ∀ (n k : Nat), l.length = PACKET_SIZE * (k + n) →
    ((List.range' k n).map (fun i => (l.drop (PACKET_SIZE * i)).take PACKET_SIZE)).flatten
      = l.drop (PACKET_SIZE * k) := by
  intro n
  induction n with
  | zero =>
    intro k h
    simp only [List.range'_zero, List.map_nil, List.flatten_nil]
    exact (List.drop_eq_nil_of_le (by rw [h]; rfl)).symm
  | succ n ih =>
    intro k h
    rw [List.range'_succ, List.map_cons, List.flatten_cons, ih (k + 1) (by rw [h]; ring_nf)]
    have e : PACKET_SIZE * (k + 1) = PACKET_SIZE * k + PACKET_SIZE := by ring
    rw [e, ← List.drop_drop, List.take_append_drop]

theorem flatten_chunks (m : Bytes) (n : Nat) (h : m.size = PACKET_SIZE * n) :
    ((List.range n).map (chunkOf m)).flatten = m.toList := by
  have := flatten_chunks_from m.toList n 0 (by simpa using h)
  rw [List.range_eq_range']
  simpa [chunkOf] using this

/-! ## Claims about frame transmission -/

/-- C1: for every surface content, when every bulk transfer succeeds in full, send_frame
returns 0 after issuing exactly 301 bulk transfers, the header packet followed by the
300 data packets, each of length exactly 512 bytes, to the recorded OUT endpoint with a
timeout of 1000 ms. -/
theorem C1_send_frame_success (usb : Usb) (link : Link) (fb : Framebuffer) (packet fd : Bytes)
    (log : List BulkCall) (hp : packet.size = PACKET_SIZE) (hfd : fd.size = FRAME_SIZE)
    (hok : ∀ j, j < 301 →
      0 ≤ (usb (log.length + j)).rc ∧ (usb (log.length + j)).transferred = 512) :
    (send_frame usb link fb packet fd log).ret = 0 ∧
    ∃ calls : List BulkCall,
      (send_frame usb link fb packet fd log).log = log ++ calls ∧
      calls.length = 301 ∧
      calls = headerCall link packet ::
        (List.range 300).map (dataCall link (convert_framebuffer fb fd)) ∧
      ∀ c, c ∈ calls →
        c.dev_handle = link.dev_handle ∧ c.endpoint = link.g_ep_out ∧ c.length = 512 ∧
        c.data.length = 512 ∧ c.timeout = 1000 := by
  obtain ⟨h1, h2, -⟩ := send_frame_ok usb link fb packet fd log hp hfd hok
  exact ⟨h1, frameCalls link fb packet fd, h2, frameCalls_length link fb packet fd, rfl,
    frameCalls_fields link fb packet fd hp hfd⟩

/-- Witness of C1: the ramp surface on a transport that delivers every transfer. -/
theorem C1_send_frame_success_witness :
    (send_frame usbGood linkBound surfaceRamp packetFF frameDataZero []).ret = 0 ∧
    ∃ calls : List BulkCall,
      (send_frame usbGood linkBound surfaceRamp packetFF frameDataZero []).log = [] ++ calls ∧
      calls.length = 301 ∧
      calls = headerCall linkBound packetFF ::
        (List.range 300).map (dataCall linkBound (convert_framebuffer surfaceRamp frameDataZero)) ∧
      ∀ c, c ∈ calls →
        c.dev_handle = linkBound.dev_handle ∧ c.endpoint = linkBound.g_ep_out ∧ c.length = 512 ∧
        c.data.length = 512 ∧ c.timeout = 1000 :=
  C1_send_frame_success usbGood linkBound surfaceRamp packetFF frameDataZero [] size_packetFF
    size_frameDataZero (usbGood_delivered _)

/-- C2: send_frame returns 0 or -1, and it returns 0 if and only if every one of the bulk
transfers it issues reports a status that is not negative and exactly 512 transferred
bytes (equivalently, if and only if the 301 transfers of the frame would all do so).  An
issued transfer that reports no error but fewer than 512 bytes makes send_frame return
-1, exactly as an issued transfer with a negative status does. -/
theorem C2_send_frame_success_iff (usb : Usb) (link : Link) (fb : Framebuffer)
    (packet fd : Bytes) (log : List BulkCall) (hp : packet.size = PACKET_SIZE)
    (hfd : fd.size = FRAME_SIZE) :
    ((send_frame usb link fb packet fd log).ret = 0 ∨
      (send_frame usb link fb packet fd log).ret = -1) ∧
    ((send_frame usb link fb packet fd log).ret = 0 ↔
      ∀ j, log.length ≤ j → j < (send_frame usb link fb packet fd log).log.length →
        0 ≤ (usb j).rc ∧ (usb j).transferred = 512) ∧
    ((send_frame usb link fb packet fd log).ret = 0 ↔
      ∀ j, j < 301 → 0 ≤ (usb (log.length + j)).rc ∧ (usb (log.length + j)).transferred = 512) ∧
    (∀ j, log.length ≤ j → j < (send_frame usb link fb packet fd log).log.length →
      0 ≤ (usb j).rc → (usb j).transferred < 512 →
      (send_frame usb link fb packet fd log).ret = -1) ∧
    (∀ j, log.length ≤ j → j < (send_frame usb link fb packet fd log).log.length →
      (usb j).rc < 0 → (send_frame usb link fb packet fd log).ret = -1) := by
  have hlen := frameCalls_length link fb packet fd
  rcases send_frame_cases usb link fb packet fd log hp hfd with
    ⟨a, b, _, c⟩ | ⟨a, k, hk, b, c, d⟩
  · have hall : ∀ j, log.length ≤ j → j < (send_frame usb link fb packet fd log).log.length →
        0 ≤ (usb j).rc ∧ (usb j).transferred = 512 := by
      intro j h1 h2
      rw [b, List.length_append, hlen] at h2
      have := (delivered_iff _).1 (c (j - log.length) (by omega))
      rwa [show log.length + (j - log.length) = j by omega] at this
    refine ⟨Or.inl a, ⟨fun _ => hall, fun _ => a⟩,
      ⟨fun _ j hj => (delivered_iff _).1 (c j hj), fun _ => a⟩, ?_, ?_⟩
    · intro j h1 h2 _ h4
      have := (hall j h1 h2).2
      omega
    · intro j h1 h2 h3
      have := (hall j h1 h2).1
      omega
  · have hklen : (send_frame usb link fb packet fd log).log.length = log.length + (k + 1) := by
      rw [b, List.length_append, List.length_take, hlen]
      omega
    have hneg : (-1 : Int) ≠ 0 := by decide
    refine ⟨Or.inr a, ⟨fun h => absurd (a ▸ h) hneg, fun h => ?_⟩,
      ⟨fun h => absurd (a ▸ h) hneg, fun h => ?_⟩, fun _ _ _ _ _ => a, fun _ _ _ _ => a⟩
    · exact absurd ((delivered_iff _).2 (h (log.length + k) (by omega) (by omega))) d
    · exact absurd ((delivered_iff _).2 (h k hk)) d

/-- Witness of C2: a frame whose sixth transfer is short by one byte. -/
theorem C2_send_frame_success_iff_witness :
    ((send_frame usbShortAt5 linkBound surfaceRamp packetFF frameDataZero []).ret = 0 ∨
      (send_frame usbShortAt5 linkBound surfaceRamp packetFF frameDataZero []).ret = -1) ∧
    ((send_frame usbShortAt5 linkBound surfaceRamp packetFF frameDataZero []).ret = 0 ↔
      ∀ j, ([] : List BulkCall).length ≤ j →
        j < (send_frame usbShortAt5 linkBound surfaceRamp packetFF frameDataZero []).log.length →
        0 ≤ (usbShortAt5 j).rc ∧ (usbShortAt5 j).transferred = 512) ∧
    ((send_frame usbShortAt5 linkBound surfaceRamp packetFF frameDataZero []).ret = 0 ↔
      ∀ j, j < 301 → 0 ≤ (usbShortAt5 (([] : List BulkCall).length + j)).rc ∧
        (usbShortAt5 (([] : List BulkCall).length + j)).transferred = 512) ∧
    (∀ j, ([] : List BulkCall).length ≤ j →
      j < (send_frame usbShortAt5 linkBound surfaceRamp packetFF frameDataZero []).log.length →
      0 ≤ (usbShortAt5 j).rc → (usbShortAt5 j).transferred < 512 →
      (send_frame usbShortAt5 linkBound surfaceRamp packetFF frameDataZero []).ret = -1) ∧
    (∀ j, ([] : List BulkCall).length ≤ j →
      j < (send_frame usbShortAt5 linkBound surfaceRamp packetFF frameDataZero []).log.length →
      (usbShortAt5 j).rc < 0 →
      (send_frame usbShortAt5 linkBound surfaceRamp packetFF frameDataZero []).ret = -1) :=
  C2_send_frame_success_iff usbShortAt5 linkBound surfaceRamp packetFF frameDataZero []
    size_packetFF size_frameDataZero

/-- C3: if the k-th bulk transfer of a frame (k = 1 is the header, k = 2..301 the data
packets) is the first one to fail, by a negative status or by a transferred count other
than 512, send_frame returns -1 having issued exactly the first k transfers of the
frame, each once: the failed packet is not retried and no later packet is sent. -/
theorem C3_send_frame_first_failure (usb : Usb) (link : Link) (fb : Framebuffer)
    (packet fd : Bytes) (log : List BulkCall) (hp : packet.size = PACKET_SIZE)
    (hfd : fd.size = FRAME_SIZE) (k : Nat) (hk1 : 1 ≤ k) (hk2 : k ≤ 301)
    (hprev : ∀ j, j + 1 < k →
      0 ≤ (usb (log.length + j)).rc ∧ (usb (log.length + j)).transferred = 512)
    (hfail : (usb (log.length + (k - 1))).rc < 0 ∨
      (usb (log.length + (k - 1))).transferred ≠ 512) :
    (send_frame usb link fb packet fd log).ret = -1 ∧
    (send_frame usb link fb packet fd log).log
      = log ++ (headerCall link packet ::
          (List.range 300).map (dataCall link (convert_framebuffer fb fd))).take k ∧
    (send_frame usb link fb packet fd log).log.length = log.length + k := by
  have hlen := frameCalls_length link fb packet fd
  have hnot : ¬ Delivered (usb (log.length + (k - 1))) := by
    rw [delivered_iff]
    rintro ⟨h1, h2⟩
    rcases hfail with h | h
    · omega
    · exact h h2
  rcases send_frame_cases usb link fb packet fd log hp hfd with
    ⟨_, _, _, c⟩ | ⟨a, k1, hk, b, c, d⟩
  · exact absurd (c (k - 1) (by omega)) hnot
  · have hkk : k1 + 1 = k := by
      rcases Nat.lt_trichotomy (k1 + 1) k with h | h | h
      · exact absurd ((delivered_iff _).2 (hprev k1 h)) d
      · exact h
      · exact absurd (c (k - 1) (by omega)) hnot
    rw [hkk] at b
    refine ⟨a, b, ?_⟩
    rw [b, List.length_append, List.length_take, hlen]
    omega

/-- Witness of C3: the sixth transfer (the fifth data packet) is short by one byte. -/
theorem C3_send_frame_first_failure_witness :
    (send_frame usbShortAt5 linkBound surfaceRamp packetFF frameDataZero []).ret = -1 ∧
    (send_frame usbShortAt5 linkBound surfaceRamp packetFF frameDataZero []).log
      = [] ++ (headerCall linkBound packetFF ::
          (List.range 300).map
            (dataCall linkBound (convert_framebuffer surfaceRamp frameDataZero))).take 6 ∧
    (send_frame usbShortAt5 linkBound surfaceRamp packetFF frameDataZero []).log.length
      = ([] : List BulkCall).length + 6 :=
  C3_send_frame_first_failure usbShortAt5 linkBound surfaceRamp packetFF frameDataZero []
    size_packetFF size_frameDataZero 6 (by decide) (by decide)
    (fun j hj => by
      have hne : ¬ j = 5 := by omega
      simp [usbShortAt5, hne])
    (Or.inr (by simp [usbShortAt5]))

theorem load8_convert_framebuffer (fb : Framebuffer) (fd : Bytes) (hfd : fd.size = FRAME_SIZE)
    (j : Nat) (hj : j < FRAME_SIZE) : load8 (convert_framebuffer fb fd) j = encByte fb j := by
  rw [(convert_framebuffer_spec fb fd).2, if_pos ⟨hj, hfd ▸ hj⟩]

theorem size_surfaceRamp : surfaceRamp.size = LCD_W * LCD_H :=
  Array.size_ofFn _

theorem surfaceRamp_cells : ∀ i, i < surfaceRamp.size → surfaceRamp.getD i 0 < 65536 := by
  intro i hi
  have h : i < LCD_W * LCD_H := size_surfaceRamp ▸ hi
  simp only [surfaceRamp, Array.getD, Array.size_ofFn, h, dite_true, Array.get_eq_getElem,
    Array.getElem_ofFn]
  exact Nat.mod_lt _ (by decide)

/-- C4: for every surface content and every cell (x, y) with 0 <= x < 240 and
0 <= y < 320, the pixel byte buffer built by send_frame holds at index 2*(y*240+x) the
low 8 bits of that cell and at index 2*(y*240+x)+1 its high 8 bits (row-major,
little-endian); the buffer is exactly 240*320*2 = 153600 bytes long and decoding it
little-endian gives back the surface. -/
theorem C4_pixel_encoding (fb : Framebuffer) (fd : Bytes) (hfb : fb.size = LCD_W * LCD_H)
    (hcell : ∀ i, i < fb.size → fb.getD i 0 < 65536) (hfd : fd.size = FRAME_SIZE) :
    (convert_framebuffer fb fd).size = 240 * 320 * 2 ∧
    (convert_framebuffer fb fd).size = 153600 ∧
    (∀ x y, x < 240 → y < 320 →
      (convert_framebuffer fb fd)[2 * (y * 240 + x)]? = some (fb.getD (y * 240 + x) 0 % 256) ∧
      (convert_framebuffer fb fd)[2 * (y * 240 + x) + 1]?
        = some (fb.getD (y * 240 + x) 0 / 256)) ∧
    decode16 (convert_framebuffer fb fd) = fb := by
  have hsz : (convert_framebuffer fb fd).size = 153600 :=
    ((convert_framebuffer_spec fb fd).1.trans hfd).trans FRAME_SIZE_eq
  have hfbsz : fb.size = 76800 := hfb
  have hlow : ∀ i, i < 76800 →
      load8 (convert_framebuffer fb fd) (2 * i) = fb.getD i 0 % 256 := by
    intro i hi
    rw [load8_convert_framebuffer fb fd hfd _ (by rw [FRAME_SIZE_eq]; omega), encByte,
      if_pos (by omega), show 2 * i / 2 = i by omega]
  have hhigh : ∀ i, i < 76800 →
      load8 (convert_framebuffer fb fd) (2 * i + 1) = fb.getD i 0 / 256 := by
    intro i hi
    rw [load8_convert_framebuffer fb fd hfd _ (by rw [FRAME_SIZE_eq]; omega), encByte,
      if_neg (by omega), show (2 * i + 1) / 2 = i by omega]
    have := hcell i (by omega)
    omega
  refine ⟨hsz, hsz, fun x y hx hy => ?_, ?_⟩
  · have hi : y * 240 + x < 76800 := by omega
    rw [getElem?_eq_load8 _ _ (by omega), getElem?_eq_load8 _ _ (by omega), hlow _ hi,
      hhigh _ hi]
    exact ⟨rfl, rfl⟩
  · apply Array.ext
    · simp only [decode16, Array.size_ofFn, hsz, hfbsz]
    · intro i hi1 hi2
      have hi : i < 76800 := by omega
      simp only [decode16, Array.getElem_ofFn, le16]
      rw [hlow i hi, hhigh i hi]
      have e : fb.getD i 0 = fb[i] := by simp [Array.getD, hi2]
      rw [← e]
      omega

/-- Witness of C4: the ramp surface, converted into the zeroed static buffer. -/
theorem C4_pixel_encoding_witness :
    (convert_framebuffer surfaceRamp frameDataZero).size = 240 * 320 * 2 ∧
    (convert_framebuffer surfaceRamp frameDataZero).size = 153600 ∧
    (∀ x y, x < 240 → y < 320 →
      (convert_framebuffer surfaceRamp frameDataZero)[2 * (y * 240 + x)]?
        = some (surfaceRamp.getD (y * 240 + x) 0 % 256) ∧
      (convert_framebuffer surfaceRamp frameDataZero)[2 * (y * 240 + x) + 1]?
        = some (surfaceRamp.getD (y * 240 + x) 0 / 256)) ∧
    decode16 (convert_framebuffer surfaceRamp frameDataZero) = surfaceRamp :=
  C4_pixel_encoding surfaceRamp frameDataZero size_surfaceRamp surfaceRamp_cells
    size_frameDataZero

/-- C5: on a successful send the first packet transmitted is the header and the data
packets follow in ascending offset order: for every k in 0..299 the (k+1)-th data packet
equals bytes 512k .. 512k+511 of the encoded pixel buffer, so the data packets
concatenated in send order equal the encoded surface, and every transmitted packet is
exactly 512 bytes. -/
theorem C5_packet_order (usb : Usb) (link : Link) (fb : Framebuffer) (packet fd : Bytes)
    (log : List BulkCall) (hp : packet.size = PACKET_SIZE) (hfd : fd.size = FRAME_SIZE)
    (hret : (send_frame usb link fb packet fd log).ret = 0) :
    (send_frame usb link fb packet fd log).frame_data = convert_framebuffer fb fd ∧
    ∃ calls : List BulkCall,
      (send_frame usb link fb packet fd log).log = log ++ calls ∧
      calls.length = 301 ∧
      (calls.map BulkCall.data)[0]? = some ((build_header packet).toList.take 512) ∧
      (∀ k, k < 300 → (calls.map BulkCall.data)[k + 1]?
        = some (((convert_framebuffer fb fd).toList.drop (512 * k)).take 512)) ∧
      ((calls.drop 1).map BulkCall.data).flatten = (convert_framebuffer fb fd).toList ∧
      ∀ c, c ∈ calls → c.data.length = 512 := by
  obtain ⟨h1, h2⟩ := send_frame_of_ret_zero usb link fb packet fd log hp hfd hret
  have h300 : FRAME_SIZE / PACKET_SIZE = 300 := by decide
  refine ⟨h2, frameCalls link fb packet fd, h1, frameCalls_length link fb packet fd, ?_, ?_, ?_,
    fun c hc => (frameCalls_fields link fb packet fd hp hfd c hc).2.2.2.1⟩
  · simp only [frameCalls, headerCall, bytesOf, PACKET_SIZE, List.map_cons,
      List.getElem?_cons_zero]
  · intro k hk
    rw [frameCalls, h300]
    simp only [List.map_cons, List.getElem?_cons_succ, List.map_map,
      List.getElem?_map, List.getElem?_range hk, Option.map_some', Function.comp, dataCall,
      chunkOf, PACKET_SIZE]
  · have hsz : (convert_framebuffer fb fd).size = PACKET_SIZE * 300 :=
      (convert_framebuffer_spec fb fd).1.trans hfd
    have := flatten_chunks (convert_framebuffer fb fd) 300 hsz
    simpa only [frameCalls, h300, List.drop_succ_cons, List.drop_zero, List.map_map] using this

/-- Witness of C5: the ramp surface on a transport that delivers every transfer. -/
theorem C5_packet_order_witness :
    (send_frame usbGood linkBound surfaceRamp packetFF frameDataZero []).frame_data
      = convert_framebuffer surfaceRamp frameDataZero ∧
    ∃ calls : List BulkCall,
      (send_frame usbGood linkBound surfaceRamp packetFF frameDataZero []).log = [] ++ calls ∧
      calls.length = 301 ∧
      (calls.map BulkCall.data)[0]? = some ((build_header packetFF).toList.take 512) ∧
      (∀ k, k < 300 → (calls.map BulkCall.data)[k + 1]?
        = some (((convert_framebuffer surfaceRamp frameDataZero).toList.drop (512 * k)).take 512)) ∧
      ((calls.drop 1).map BulkCall.data).flatten
        = (convert_framebuffer surfaceRamp frameDataZero).toList ∧
      ∀ c, c ∈ calls → c.data.length = 512 :=
  C5_packet_order usbGood linkBound surfaceRamp packetFF frameDataZero [] size_packetFF
    size_frameDataZero send_frame_usbGood_ret

/-! ## Claims about the header -/

/-- C6: build_header is deterministic and bit-exact.  Whatever the packet buffer held
before the call, the resulting 512-byte packet is the same, and its bytes 0..3 are
0xDA, 0xDB, 0xDC, 0xDD. -/
theorem C6_build_header_deterministic (h1 h2 : Bytes) (hs1 : h1.size = PACKET_SIZE)
    (hs2 : h2.size = PACKET_SIZE) :
    build_header h1 = build_header h2 ∧ (build_header h1).size = 512 ∧
    (build_header h1)[0]? = some 0xDA ∧ (build_header h1)[1]? = some 0xDB ∧
    (build_header h1)[2]? = some 0xDC ∧ (build_header h1)[3]? = some 0xDD := by
  have hz1 : (build_header h1).size = 512 := (size_build_header h1).trans hs1
  have hz2 : (build_header h2).size = 512 := (size_build_header h2).trans hs2
  refine ⟨?_, hz1, ?_, ?_, ?_, ?_⟩
  · apply Array.ext
    · rw [hz1, hz2]
    · intro i hi1 hi2
      rw [← load8_eq_getElem _ i hi1, ← load8_eq_getElem _ i hi2]
      exact load8_build_header_indep h1 h2 hs1 hs2 i (hz1 ▸ hi1)
  · rw [getElem?_eq_load8 _ _ (by omega), load8_build_header h1 hs1]
    rfl
  · rw [getElem?_eq_load8 _ _ (by omega), load8_build_header h1 hs1]
    rfl
  · rw [getElem?_eq_load8 _ _ (by omega), load8_build_header h1 hs1]
    rfl
  · rw [getElem?_eq_load8 _ _ (by omega), load8_build_header h1 hs1]
    rfl

/-- Witness of C6: a buffer full of 0xFF and a zeroed buffer give the same header. -/
theorem C6_build_header_deterministic_witness :
    build_header packetFF = build_header (mkArray PACKET_SIZE 0) ∧
    (build_header packetFF).size = 512 ∧
    (build_header packetFF)[0]? = some 0xDA ∧ (build_header packetFF)[1]? = some 0xDB ∧
    (build_header packetFF)[2]? = some 0xDC ∧ (build_header packetFF)[3]? = some 0xDD :=
  C6_build_header_deterministic packetFF (mkArray PACKET_SIZE 0) size_packetFF
    (Array.size_mkArray _ _)

/-- C7 as stated fails: the height field (bytes 8..9) does not decode to LCD_H = 320 and
the width field (bytes 10..11) does not decode to LCD_W = 240. -/
theorem C7_header_dims_counterexample :
    ¬ (le16 (build_header packetFF) 8 = LCD_H ∧ le16 (build_header packetFF) 10 = LCD_W) := by
  rintro ⟨h, -⟩
  rw [le16_build_header_8 packetFF size_packetFF] at h
  exact absurd h (by decide)

/-- C7, amended: the header declares the dimensions of the surface transposed, as the
comments of build_header say (H=240, W=320).  The height field (bytes 8..9) decodes to
240 = LCD_W and the width field (bytes 10..11) decodes to 320 = LCD_H. -/
theorem C7_header_dims_transposed (hdr : Bytes) (hs : hdr.size = PACKET_SIZE) :
    le16 (build_header hdr) 8 = 240 ∧ le16 (build_header hdr) 8 = LCD_W ∧
    le16 (build_header hdr) 10 = 320 ∧ le16 (build_header hdr) 10 = LCD_H := by
  have h8 := le16_build_header_8 hdr hs
  have h10 := le16_build_header_10 hdr hs
  exact ⟨h8, h8, h10, h10⟩

/-- Witness of the amended C7, on a buffer full of 0xFF. -/
theorem C7_header_dims_transposed_witness :
    le16 (build_header packetFF) 8 = 240 ∧ le16 (build_header packetFF) 8 = LCD_W ∧
    le16 (build_header packetFF) 10 = 320 ∧ le16 (build_header packetFF) 10 = LCD_H :=
  C7_header_dims_transposed packetFF size_packetFF

/-- C8: the 4-byte little-endian payload-length field of the header (bytes 22..25)
decodes to W*H*2 = 153600 = 0x00025800 = FRAME_SIZE, which is the size of the encoded
pixel buffer. -/
theorem C8_header_payload_length (hdr : Bytes) (hs : hdr.size = PACKET_SIZE) :
    le32 (build_header hdr) 22 = 153600 ∧ le32 (build_header hdr) 22 = 0x00025800 ∧
    le32 (build_header hdr) 22 = LCD_W * LCD_H * 2 ∧ le32 (build_header hdr) 22 = FRAME_SIZE ∧
    ∀ (fb : Framebuffer) (fd : Bytes), fd.size = FRAME_SIZE →
      le32 (build_header hdr) 22 = (convert_framebuffer fb fd).size := by
  have h := le32_build_header_22 hdr hs
  refine ⟨h, h, h, h, fun fb fd hfd => ?_⟩
  rw [(convert_framebuffer_spec fb fd).1, hfd]
  exact h

/-- Witness of C8, on a buffer full of 0xFF. -/
theorem C8_header_payload_length_witness :
    le32 (build_header packetFF) 22 = 153600 ∧ le32 (build_header packetFF) 22 = 0x00025800 ∧
    le32 (build_header packetFF) 22 = LCD_W * LCD_H * 2 ∧
    le32 (build_header packetFF) 22 = FRAME_SIZE ∧
    ∀ (fb : Framebuffer) (fd : Bytes), fd.size = FRAME_SIZE →
      le32 (build_header packetFF) 22 = (convert_framebuffer fb fd).size :=
  C8_header_payload_length packetFF size_packetFF

/-- C9: every header byte outside the defined fields is zero.  For every index i in
14..21 and in 30..511, byte i of the packet written by build_header is 0, whatever the
buffer held before. -/
theorem C9_header_padding_zero (hdr : Bytes) (hs : hdr.size = PACKET_SIZE) (i : Nat)
    (hi : (14 ≤ i ∧ i ≤ 21) ∨ (30 ≤ i ∧ i ≤ 511)) :
    (build_header hdr)[i]? = some 0 := by
  have hz : (build_header hdr).size = 512 := (size_build_header hdr).trans hs
  rw [getElem?_eq_load8 _ _ (by omega), load8_build_header hdr hs]
  repeat rw [if_neg (by omega)]
  rw [if_pos (by omega)]

/-- Witness of C9: byte 511 of a buffer that was full of 0xFF is 0 after build_header. -/
theorem C9_header_padding_zero_witness :
    packetFF[511]? = some 0xFF ∧ (build_header packetFF)[511]? = some 0 :=
  ⟨by simp [packetFF, PACKET_SIZE, Array.getElem?_mkArray],
   C9_header_padding_zero packetFF size_packetFF 511 (Or.inr ⟨by decide, by decide⟩)⟩

/-! ## Consistency of the header with the transmitted data -/

/-- C10: the header and the transmitted data are mutually consistent.  The header's
declared width (bytes 10..11) times its declared height (bytes 8..9) times 2 bytes per
cell equals the header's declared payload length (bytes 22..25), and that length equals
512 times the number of data packets send_frame transmits after the header on a
successful frame, which is 300. -/
theorem C10_header_data_consistent (usb : Usb) (link : Link) (fb : Framebuffer)
    (packet fd : Bytes) (log : List BulkCall) (hp : packet.size = PACKET_SIZE)
    (hfd : fd.size = FRAME_SIZE)
    (hret : (send_frame usb link fb packet fd log).ret = 0) :
    le16 (build_header packet) 10 * le16 (build_header packet) 8 * 2
      = le32 (build_header packet) 22 ∧
    ∃ dataCalls : List BulkCall,
      (send_frame usb link fb packet fd log).log = log ++ headerCall link packet :: dataCalls ∧
      dataCalls.length = 300 ∧
      le32 (build_header packet) 22 = 512 * dataCalls.length := by
  obtain ⟨h1, -⟩ := send_frame_of_ret_zero usb link fb packet fd log hp hfd hret
  have h300 : FRAME_SIZE / PACKET_SIZE = 300 := by decide
  rw [le16_build_header_8 packet hp, le16_build_header_10 packet hp,
    le32_build_header_22 packet hp]
  refine ⟨rfl, (List.range 300).map (dataCall link (convert_framebuffer fb fd)), ?_, ?_, ?_⟩
  · rw [h1, frameCalls, h300]
  · rw [List.length_map, List.length_range]
  · rw [List.length_map, List.length_range]

/-- Witness of C10: the ramp surface on a transport that delivers every transfer. -/
theorem C10_header_data_consistent_witness :
    le16 (build_header packetFF) 10 * le16 (build_header packetFF) 8 * 2
      = le32 (build_header packetFF) 22 ∧
    ∃ dataCalls : List BulkCall,
      (send_frame usbGood linkBound surfaceRamp packetFF frameDataZero []).log
        = [] ++ headerCall linkBound packetFF :: dataCalls ∧
      dataCalls.length = 300 ∧
      le32 (build_header packetFF) 22 = 512 * dataCalls.length :=
  C10_header_data_consistent usbGood linkBound surfaceRamp packetFF frameDataZero []
    size_packetFF size_frameDataZero send_frame_usbGood_ret

/-! ## Endpoint discovery -/

theorem scan_endpoints_spec (alt : libusb_interface_descriptor) (link : Link) :
    ∀ eps : List libusb_endpoint_descriptor,
      scan_endpoints alt link eps
        = recordEndpoint link
            ((eps.map (fun ep => (ep.bEndpointAddress, alt.bInterfaceNumber))).find?
              (fun p => isOut p.1)) := by
  intro eps
  induction eps with
  | nil => rfl
  | cons ep rest ih =>
    by_cases h : ep.bEndpointAddress &&& 0x80 = 0
    · simp [scan_endpoints, h, isOut, recordEndpoint]
    · simp [scan_endpoints, h, isOut, ih]

theorem scan_altsettings_spec (link : Link) :
    ∀ alts : List libusb_interface_descriptor,
      scan_altsettings link alts
        = recordEndpoint link ((altEndpoints alts).find? (fun p => isOut p.1)) := by
  intro alts
  induction alts with
  | nil => rfl
  | cons alt rest ih =>
    simp only [scan_altsettings, scan_endpoints_spec, altEndpoints, List.flatMap_cons,
      List.find?_append]
    cases h : (alt.endpoint.map (fun ep => (ep.bEndpointAddress, alt.bInterfaceNumber))).find?
      (fun p => isOut p.1) with
    | none =>
      simp only [recordEndpoint, Option.or]
      simpa [altEndpoints] using ih
    | some p => simp [recordEndpoint, Option.or]

theorem scan_interfaces_spec (link : Link) :
    ∀ ifaces : List libusb_interface,
      scan_interfaces link ifaces
        = recordEndpoint link ((ifaceEndpoints ifaces).find? (fun p => isOut p.1)) := by
  intro ifaces
  induction ifaces with
  | nil => rfl
  | cons iface rest ih =>
    simp only [scan_interfaces, scan_altsettings_spec, ifaceEndpoints, List.flatMap_cons,
      List.find?_append]
    cases h : (altEndpoints iface.altsetting).find? (fun p => isOut p.1) with
    | none =>
      simp only [recordEndpoint, Option.or]
      simpa [ifaceEndpoints] using ih
    | some p => simp [recordEndpoint, Option.or]

theorem usb_init_init_failed (usb : Libusb) (link : Link) (log : List UsbEvent)
    (h0 : usb.init_rc < 0) :
    usb_init usb link log
      = ⟨-1, link, log ++ [UsbEvent.libusb_init, UsbEvent.fprintf_stderr Diag.init_failed]⟩ := by
  simp [usb_init, h0]

theorem usb_init_not_found (usb : Libusb) (link : Link) (log : List UsbEvent)
    (h0 : 0 ≤ usb.init_rc) (h1 : usb.open_device = none) :
    usb_init usb link log
      = ⟨-1, { link with dev_handle := none },
          log ++ [UsbEvent.libusb_init, UsbEvent.libusb_open_device_with_vid_pid,
            UsbEvent.fprintf_stderr Diag.device_not_found, UsbEvent.libusb_exit]⟩ := by
  simp [usb_init, Int.not_lt.2 h0, h1]

theorem usb_init_config_unreadable (usb : Libusb) (link : Link) (log : List UsbEvent)
    (dev : Nat) (h0 : 0 ≤ usb.init_rc) (h1 : usb.open_device = some dev)
    (h2 : usb.get_active_config_rc < 0 ∨ usb.active_config = none) :
    usb_init usb link log
      = ⟨-1, ⟨none, 0, -1⟩,
          log ++ openingEvents (some dev) ++ [UsbEvent.fprintf_stderr Diag.config_unreadable] ++
            (if usb.active_config.isSome then [UsbEvent.libusb_free_config_descriptor] else []) ++
            [UsbEvent.libusb_close (some dev), UsbEvent.libusb_exit]⟩ := by
  cases h3 : usb.active_config with
  | none => simp [usb_init, usb_init_fail, openingEvents, Int.not_lt.2 h0, h1, h3]
  | some c =>
    have h2' : usb.get_active_config_rc < 0 := by
      rcases h2 with h | h
      · exact h
      · rw [h3] at h
        exact absurd h (by simp)
    simp [usb_init, usb_init_fail, openingEvents, Int.not_lt.2 h0, h1, h3, h2']

theorem usb_init_scanned (usb : Libusb) (link : Link) (log : List UsbEvent)
    (dev : Nat) (c : libusb_config_descriptor) (h0 : 0 ≤ usb.init_rc)
    (h1 : usb.open_device = some dev) (h2 : 0 ≤ usb.get_active_config_rc)
    (h3 : usb.active_config = some c) :
    usb_init usb link log
      = (let found := (recordEndpoint ⟨some dev, 0, -1⟩ (firstOut c)).1
         let log := log ++ openingEvents (some dev) ++ [UsbEvent.libusb_free_config_descriptor]
         if found.g_ep_out = 0 ∨ found.g_usb_iface < 0 then
           ⟨-1, ⟨none, 0, -1⟩, log ++ [UsbEvent.fprintf_stderr Diag.no_usable_endpoint,
             UsbEvent.libusb_close (some dev), UsbEvent.libusb_exit]⟩
         else if usb.claim_interface_rc found.g_usb_iface < 0 then
           ⟨-1, ⟨none, 0, -1⟩, log ++ detachEvents (some dev) usb.set_auto_detach_rc ++
             [UsbEvent.libusb_claim_interface (some dev) found.g_usb_iface
                (usb.claim_interface_rc found.g_usb_iface),
              UsbEvent.fprintf_stderr Diag.claim_failed,
              UsbEvent.libusb_close (some dev), UsbEvent.libusb_exit]⟩
         else
           ⟨0, found, log ++ detachEvents (some dev) usb.set_auto_detach_rc ++
             [UsbEvent.libusb_claim_interface (some dev) found.g_usb_iface
                (usb.claim_interface_rc found.g_usb_iface),
              UsbEvent.printf (Diag.found_out_endpoint found.g_ep_out found.g_usb_iface),
              UsbEvent.printf Diag.device_opened]⟩) := by
  have hdev : ∀ o : Option (Nat × Int),
      (recordEndpoint ⟨some dev, 0, -1⟩ o).1.dev_handle = some dev := by
    intro o
    cases o <;> rfl
  simp only [usb_init, Int.not_lt.2 h0, h1, h3, Int.not_lt.2 h2, if_false, Option.isNone_some,
    scan_interfaces_spec, firstOut, allEndpoints, Bool.false_eq_true]
  split
  · simp [usb_init_fail, openingEvents, hdev]
  · split
    · simp [usb_init_fail, openingEvents, detachEvents, hdev]
      split <;> simp
    · simp [openingEvents, detachEvents, hdev]
      split <;> simp

theorem usb_init_usable (usb : Libusb) (link : Link) (log : List UsbEvent)
    (dev : Nat) (c : libusb_config_descriptor) (a : Nat) (n : Int) (h0 : 0 ≤ usb.init_rc)
    (h1 : usb.open_device = some dev) (h2 : 0 ≤ usb.get_active_config_rc)
    (h3 : usb.active_config = some c) (h4 : firstOut c = some (a, n)) (h5 : a ≠ 0)
    (h6 : 0 ≤ n) (h7 : 0 ≤ usb.claim_interface_rc n) :
    usb_init usb link log
      = ⟨0, ⟨some dev, a, n⟩,
          log ++ openingEvents (some dev) ++ [UsbEvent.libusb_free_config_descriptor] ++
            detachEvents (some dev) usb.set_auto_detach_rc ++
            [UsbEvent.libusb_claim_interface (some dev) n (usb.claim_interface_rc n),
             UsbEvent.printf (Diag.found_out_endpoint a n),
             UsbEvent.printf Diag.device_opened]⟩ := by
  rw [usb_init_scanned usb link log dev c h0 h1 h2 h3, h4]
  simp only [recordEndpoint]
  rw [if_neg (by
    rintro (h | h)
    · exact h5 h
    · exact absurd h (Int.not_lt.2 h6)), if_neg (Int.not_lt.2 h7)]

theorem usb_init_ret (usb : Libusb) (link : Link) (log : List UsbEvent) :
    (usb_init usb link log).ret = 0 ∨ (usb_init usb link log).ret = -1 := by
  by_cases h0 : usb.init_rc < 0
  · right
    rw [usb_init_init_failed usb link log h0]
  · have h0' := Int.not_lt.1 h0
    cases h1 : usb.open_device with
    | none =>
      right
      rw [usb_init_not_found usb link log h0' h1]
    | some dev =>
      by_cases h2 : usb.get_active_config_rc < 0
      · right
        rw [usb_init_config_unreadable usb link log dev h0' h1 (Or.inl h2)]
      · cases h3 : usb.active_config with
        | none =>
          right
          rw [usb_init_config_unreadable usb link log dev h0' h1 (Or.inr h3)]
        | some c =>
          rw [usb_init_scanned usb link log dev c h0' h1 (Int.not_lt.1 h2) h3]
          simp only []
          split
          · right; rfl
          · split
            · right; rfl
            · left; rfl

theorem usb_init_ret_zero (usb : Libusb) (link : Link) (log : List UsbEvent)
    (hret : (usb_init usb link log).ret = 0) :
    ∃ dev c a n, 0 ≤ usb.init_rc ∧ usb.open_device = some dev ∧
      0 ≤ usb.get_active_config_rc ∧ usb.active_config = some c ∧
      firstOut c = some (a, n) ∧ a ≠ 0 ∧ 0 ≤ n ∧ 0 ≤ usb.claim_interface_rc n := by
  have hne : (-1 : Int) ≠ 0 := by decide
  by_cases h0 : usb.init_rc < 0
  · rw [usb_init_init_failed usb link log h0] at hret
    exact absurd hret hne
  · have h0' := Int.not_lt.1 h0
    cases h1 : usb.open_device with
    | none =>
      rw [usb_init_not_found usb link log h0' h1] at hret
      exact absurd hret hne
    | some dev =>
      by_cases h2 : usb.get_active_config_rc < 0
      · rw [usb_init_config_unreadable usb link log dev h0' h1 (Or.inl h2)] at hret
        exact absurd hret hne
      · cases h3 : usb.active_config with
        | none =>
          rw [usb_init_config_unreadable usb link log dev h0' h1 (Or.inr h3)] at hret
          exact absurd hret hne
        | some c =>
          rw [usb_init_scanned usb link log dev c h0' h1 (Int.not_lt.1 h2) h3] at hret
          cases h4 : firstOut c with
          | none =>
            rw [h4] at hret
            simp [recordEndpoint] at hret
          | some p =>
            obtain ⟨a, n⟩ := p
            rw [h4] at hret
            simp only [recordEndpoint] at hret
            by_cases h5 : a = 0 ∨ n < 0
            · rw [if_pos h5] at hret
              exact absurd hret hne
            · rw [if_neg h5] at hret
              by_cases h7 : usb.claim_interface_rc n < 0
              · rw [if_pos h7] at hret
                exact absurd hret hne
              · exact ⟨dev, c, a, n, h0', rfl, Int.not_lt.1 h2, rfl, h4,
                  fun h => h5 (Or.inl h), Int.not_lt.1 (fun h => h5 (Or.inr h)),
                  Int.not_lt.1 h7⟩

theorem firstOut_eq_some (c : libusb_config_descriptor) (a : Nat) (n : Int) :
    firstOut c = some (a, n) ↔
      a &&& 0x80 = 0 ∧ ∃ pre post, allEndpoints c = pre ++ (a, n) :: post ∧
        ∀ p, p ∈ pre → p.1 &&& 0x80 ≠ 0 := by
  simp [firstOut, List.find?_eq_some, isOut]

theorem firstOut_eq_none (c : libusb_config_descriptor) :
    firstOut c = none ↔ ∀ p, p ∈ allEndpoints c → p.1 &&& 0x80 ≠ 0 := by
  simp [firstOut, List.find?_eq_none, isOut]

theorem issued_append (log evs : List UsbEvent) : issued log (log ++ evs) = evs := by
  simp [issued]

/-- What a failing run of usb_init leaves behind. -/
theorem usb_init_failure (usb : Libusb) (link : Link) (log : List UsbEvent)
    (hret : (usb_init usb link log).ret ≠ 0) :
    (link.dev_handle = none → (usb_init usb link log).link.dev_handle = none) ∧
    (link.g_usb_iface = -1 → (usb_init usb link log).link.g_usb_iface = -1) ∧
    ∃ evs, (usb_init usb link log).log = log ++ evs ∧
      evs.filter isSuccessfulClaim = [] ∧
      ((∀ c, usb.active_config = some c → firstOut c = none) → evs.filter isClaim = []) ∧
      ((∀ c, usb.active_config = some c → firstOut c = none) →
        0 ≤ usb.init_rc → usb.open_device ≠ none → 0 ≤ usb.get_active_config_rc →
        usb.active_config ≠ none →
        UsbEvent.fprintf_stderr Diag.no_usable_endpoint ∈ evs) := by
  by_cases h0 : usb.init_rc < 0
  · rw [usb_init_init_failed usb link log h0]
    exact ⟨id, id, _, rfl, by simp [isSuccessfulClaim], fun _ => by simp [isClaim],
      fun _ h => absurd h (Int.not_le.2 h0)⟩
  · have h0' := Int.not_lt.1 h0
    cases h1 : usb.open_device with
    | none =>
      rw [usb_init_not_found usb link log h0' h1]
      exact ⟨fun _ => rfl, id, _, rfl, by simp [isSuccessfulClaim], fun _ => by simp [isClaim],
        fun _ _ h => absurd rfl h⟩
    | some dev =>
      by_cases h2 : usb.get_active_config_rc < 0 ∨ usb.active_config = none
      · rw [usb_init_config_unreadable usb link log dev h0' h1 h2]
        refine ⟨fun _ => rfl, fun _ => rfl, _, by simp only [List.append_assoc]; rfl, ?_,
          fun _ => ?_, fun _ _ _ h3 h4 => ?_⟩
        · simp only [openingEvents]
          split <;> simp [isSuccessfulClaim]
        · simp only [openingEvents]
          split <;> simp [isClaim]
        · rcases h2 with h | h
          · exact absurd h3 (Int.not_le.2 h)
          · exact absurd h h4
      · have h2' : 0 ≤ usb.get_active_config_rc := Int.not_lt.1 (fun h => h2 (Or.inl h))
        cases h3 : usb.active_config with
        | none => exact absurd (Or.inr h3) h2
        | some c =>
          rw [usb_init_scanned usb link log dev c h0' h1 h2' h3] at hret ⊢
          cases h4 : firstOut c with
          | none =>
            simp only [recordEndpoint, true_or, if_true]
            refine ⟨fun _ => trivial, fun _ => trivial, _, by simp only [List.append_assoc]; rfl, ?_, fun _ => ?_,
              fun _ _ _ _ _ => ?_⟩
            · simp [openingEvents, isSuccessfulClaim]
            · simp [openingEvents, isClaim]
            · simp
          | some p =>
            have hno : ¬ (∀ c1, some c = some c1 → firstOut c1 = none) := by
              intro h
              rw [h c rfl] at h4
              exact absurd h4 (by simp)
            rw [h4] at hret
            simp only [recordEndpoint] at hret ⊢
            by_cases h5 : p.1 = 0 ∨ p.2 < 0
            · simp only [h5, if_true]
              refine ⟨fun _ => trivial, fun _ => trivial, _, by simp only [List.append_assoc]; rfl, ?_,
                fun h => absurd h hno, fun h => absurd h hno⟩
              simp [openingEvents, isSuccessfulClaim]
            · simp only [h5, if_false] at hret ⊢
              by_cases h7 : usb.claim_interface_rc p.2 < 0
              · simp only [h7, if_true]
                refine ⟨fun _ => trivial, fun _ => trivial, _, by simp only [List.append_assoc]; rfl, ?_,
                  fun h => absurd h hno, fun h => absurd h hno⟩
                simp only [openingEvents, detachEvents]
                split <;> simp [isSuccessfulClaim, h7]
              · simp only [h7, if_false] at hret
                exact absurd rfl hret

theorem usb_init_claim_failed (usb : Libusb) (link : Link) (log : List UsbEvent)
    (dev : Nat) (c : libusb_config_descriptor) (a : Nat) (n : Int) (h0 : 0 ≤ usb.init_rc)
    (h1 : usb.open_device = some dev) (h2 : 0 ≤ usb.get_active_config_rc)
    (h3 : usb.active_config = some c) (h4 : firstOut c = some (a, n)) (h5 : a ≠ 0)
    (h6 : 0 ≤ n) (h7 : usb.claim_interface_rc n < 0) :
    usb_init usb link log
      = ⟨-1, ⟨none, 0, -1⟩,
          log ++ openingEvents (some dev) ++ [UsbEvent.libusb_free_config_descriptor] ++
            detachEvents (some dev) usb.set_auto_detach_rc ++
            [UsbEvent.libusb_claim_interface (some dev) n (usb.claim_interface_rc n),
             UsbEvent.fprintf_stderr Diag.claim_failed,
             UsbEvent.libusb_close (some dev), UsbEvent.libusb_exit]⟩ := by
  rw [usb_init_scanned usb link log dev c h0 h1 h2 h3, h4]
  simp only [recordEndpoint]
  rw [if_neg (by
    rintro (h | h)
    · exact h5 h
    · exact absurd h (Int.not_lt.2 h6)), if_pos h7]

theorem usb_init_no_endpoint (usb : Libusb) (link : Link) (log : List UsbEvent)
    (dev : Nat) (c : libusb_config_descriptor) (h0 : 0 ≤ usb.init_rc)
    (h1 : usb.open_device = some dev) (h2 : 0 ≤ usb.get_active_config_rc)
    (h3 : usb.active_config = some c) (h4 : firstOut c = none) :
    usb_init usb link log
      = ⟨-1, ⟨none, 0, -1⟩,
          log ++ openingEvents (some dev) ++ [UsbEvent.libusb_free_config_descriptor] ++
            [UsbEvent.fprintf_stderr Diag.no_usable_endpoint,
             UsbEvent.libusb_close (some dev), UsbEvent.libusb_exit]⟩ := by
  rw [usb_init_scanned usb link log dev c h0 h1 h2 h3, h4]
  simp [recordEndpoint]

/-! ## Claims about binding the device link -/

/-- C11: when usb_init succeeds, the endpoint address it records (g_ep_out) and the
interface number it records and claims (g_usb_iface) are those of the first endpoint
whose direction bit (0x80) is clear, in the enumeration order interface index, then
alt-setting index, then endpoint index: every endpoint before it has the direction bit
set, and the one claim usb_init issues is for that interface. -/
theorem C11_first_out_endpoint (usb : Libusb) (link : Link) (log : List UsbEvent)
    (hret : (usb_init usb link log).ret = 0) :
    ∃ cfg pre a n post,
      usb.active_config = some cfg ∧
      allEndpoints cfg = pre ++ (a, n) :: post ∧
      (∀ p, p ∈ pre → p.1 &&& 0x80 ≠ 0) ∧
      a &&& 0x80 = 0 ∧
      (usb_init usb link log).link.g_ep_out = a ∧
      (usb_init usb link log).link.g_usb_iface = n ∧
      (issued log (usb_init usb link log).log).filter isClaim
        = [UsbEvent.libusb_claim_interface (usb_init usb link log).link.dev_handle n
            (usb.claim_interface_rc n)] := by
  obtain ⟨dev, c, a, n, h0, h1, h2, h3, h4, h5, h6, h7⟩ := usb_init_ret_zero usb link log hret
  obtain ⟨hbit, pre, post, hdec, hpre⟩ := (firstOut_eq_some c a n).1 h4
  refine ⟨c, pre, a, n, post, h3, hdec, hpre, hbit, ?_⟩
  rw [usb_init_usable usb link log dev c a n h0 h1 h2 h3 h4 h5 h6 h7]
  refine ⟨rfl, rfl, ?_⟩
  simp only [List.append_assoc, issued_append]
  simp only [openingEvents, detachEvents]
  split <;> simp [isClaim]

/-- Witness of C11: IN endpoints 0x81 and 0x82 come first, OUT 0x03 on interface 1 is
recorded, the later OUT endpoints 0x05 and 0x06 are not. -/
theorem C11_first_out_endpoint_witness :
    ∃ cfg pre a n post,
      (usbReady cfgMixed).active_config = some cfg ∧
      allEndpoints cfg = pre ++ (a, n) :: post ∧
      (∀ p, p ∈ pre → p.1 &&& 0x80 ≠ 0) ∧
      a &&& 0x80 = 0 ∧
      (usb_init (usbReady cfgMixed) linkInitial []).link.g_ep_out = a ∧
      (usb_init (usbReady cfgMixed) linkInitial []).link.g_usb_iface = n ∧
      (issued [] (usb_init (usbReady cfgMixed) linkInitial []).log).filter isClaim
        = [UsbEvent.libusb_claim_interface
            (usb_init (usbReady cfgMixed) linkInitial []).link.dev_handle n
            ((usbReady cfgMixed).claim_interface_rc n)] :=
  C11_first_out_endpoint (usbReady cfgMixed) linkInitial [] (by decide)

/-- C12 as stated fails: the configuration cfgEpZero has OUT endpoints (0x00 and 0x02,
on interface 0), the device opens, the configuration is readable and every claim would
succeed, yet usb_init returns -1, because the first OUT endpoint has address 0. -/
theorem C12_out_endpoint_counterexample :
    (∃ p, p ∈ allEndpoints cfgEpZero ∧ p.1 &&& 0x80 = 0) ∧
    (∀ p, p ∈ allEndpoints cfgEpZero → 0 ≤ p.2 ∧ p.2 ≤ 255) ∧
    0 ≤ (usbReady cfgEpZero).init_rc ∧
    (usbReady cfgEpZero).open_device = some 1 ∧
    0 ≤ (usbReady cfgEpZero).get_active_config_rc ∧
    (usbReady cfgEpZero).active_config = some cfgEpZero ∧
    (∀ n, 0 ≤ (usbReady cfgEpZero).claim_interface_rc n) ∧
    (usb_init (usbReady cfgEpZero) linkInitial []).ret = -1 := by
  refine ⟨⟨(0, 0), by decide, by decide⟩, by decide, by decide, rfl, by decide, rfl,
    fun _ => Int.le_refl 0, by decide⟩

/-- C12, amended: with libusb initialised, the device opened, the configuration
readable, interface numbers in 0..255 and every interface claim succeeding, usb_init
succeeds if and only if the configuration has an endpoint with the direction bit clear
and the first such endpoint in enumeration order has a non-zero address; with no OUT
endpoint anywhere in the configuration it returns -1. -/
theorem C12_usable_endpoint_iff (usb : Libusb) (link : Link) (log : List UsbEvent)
    (dev : Nat) (cfg : libusb_config_descriptor) (h0 : 0 ≤ usb.init_rc)
    (h1 : usb.open_device = some dev) (h2 : 0 ≤ usb.get_active_config_rc)
    (h3 : usb.active_config = some cfg)
    (hnum : ∀ p, p ∈ allEndpoints cfg → 0 ≤ p.2 ∧ p.2 ≤ 255)
    (hclaim : ∀ n, 0 ≤ usb.claim_interface_rc n) :
    ((usb_init usb link log).ret = 0 ↔
      ∃ pre a n post, allEndpoints cfg = pre ++ (a, n) :: post ∧
        (∀ p, p ∈ pre → p.1 &&& 0x80 ≠ 0) ∧ a &&& 0x80 = 0 ∧ a ≠ 0) ∧
    ((∀ p, p ∈ allEndpoints cfg → p.1 &&& 0x80 ≠ 0) → (usb_init usb link log).ret = -1) := by
  have hiff : (usb_init usb link log).ret = 0 ↔
      ∃ pre a n post, allEndpoints cfg = pre ++ (a, n) :: post ∧
        (∀ p, p ∈ pre → p.1 &&& 0x80 ≠ 0) ∧ a &&& 0x80 = 0 ∧ a ≠ 0 := by
    constructor
    · intro hret
      obtain ⟨dev1, c, a, n, -, -, -, h3c, h4, h5, -, -⟩ := usb_init_ret_zero usb link log hret
      have hc : c = cfg := Option.some.inj (h3c.symm.trans h3)
      subst hc
      obtain ⟨hbit, pre, post, hdec, hpre⟩ := (firstOut_eq_some c a n).1 h4
      exact ⟨pre, a, n, post, hdec, hpre, hbit, h5⟩
    · rintro ⟨pre, a, n, post, hdec, hpre, hbit, ha⟩
      have h4 : firstOut cfg = some (a, n) := (firstOut_eq_some cfg a n).2 ⟨hbit, pre, post, hdec, hpre⟩
      have hn : 0 ≤ n := (hnum (a, n) (by rw [hdec]; simp)).1
      rw [usb_init_usable usb link log dev cfg a n h0 h1 h2 h3 h4 ha hn (hclaim n)]
  refine ⟨hiff, fun hno => ?_⟩
  rcases usb_init_ret usb link log with h | h
  · obtain ⟨pre, a, n, post, hdec, -, hbit, -⟩ := hiff.1 h
    exact absurd hbit (hno (a, n) (by rw [hdec]; simp))
  · exact h

/-- Witness of the amended C12: on cfgMixed, whose first OUT endpoint is 0x03. -/
theorem C12_usable_endpoint_iff_witness :
    ((usb_init (usbReady cfgMixed) linkInitial []).ret = 0 ↔
      ∃ pre a n post, allEndpoints cfgMixed = pre ++ (a, n) :: post ∧
        (∀ p, p ∈ pre → p.1 &&& 0x80 ≠ 0) ∧ a &&& 0x80 = 0 ∧ a ≠ 0) ∧
    ((∀ p, p ∈ allEndpoints cfgMixed → p.1 &&& 0x80 ≠ 0) →
      (usb_init (usbReady cfgMixed) linkInitial []).ret = -1) :=
  C12_usable_endpoint_iff (usbReady cfgMixed) linkInitial [] 1 cfgMixed (by decide) rfl
    (by decide) rfl (by decide) (fun _ => Int.le_refl 0)

/-- C13: whenever usb_init, called on an unbound link, returns failure, it returns -1
and leaves the link unbound: dev_handle is NULL, g_usb_iface is -1 and the call has
issued no interface claim that succeeded; when the configuration has no OUT endpoint,
it has issued no interface claim at all.  Each of the listed causes (libusb
initialisation, device not found, configuration unreadable, no OUT endpoint, interface
claim failure) makes usb_init return -1. -/
theorem C13_failure_leaves_unbound (usb : Libusb) (link : Link) (log : List UsbEvent)
    (hd : link.dev_handle = none) (hi : link.g_usb_iface = -1) :
    (usb.init_rc < 0 → (usb_init usb link log).ret = -1) ∧
    (usb.open_device = none → (usb_init usb link log).ret = -1) ∧
    (usb.get_active_config_rc < 0 ∨ usb.active_config = none →
      (usb_init usb link log).ret = -1) ∧
    ((∀ c, usb.active_config = some c → ∀ p, p ∈ allEndpoints c → p.1 &&& 0x80 ≠ 0) →
      (usb_init usb link log).ret = -1) ∧
    ((∀ n, usb.claim_interface_rc n < 0) → (usb_init usb link log).ret = -1) ∧
    ((usb_init usb link log).ret ≠ 0 →
      (usb_init usb link log).ret = -1 ∧
      (usb_init usb link log).link.dev_handle = none ∧
      (usb_init usb link log).link.g_usb_iface = -1 ∧
      (issued log (usb_init usb link log).log).filter isSuccessfulClaim = [] ∧
      ((∀ c, usb.active_config = some c → ∀ p, p ∈ allEndpoints c → p.1 &&& 0x80 ≠ 0) →
        (issued log (usb_init usb link log).log).filter isClaim = [])) := by
  have hcause : ∀ P : Prop,
      (∀ dev c a n, 0 ≤ usb.init_rc → usb.open_device = some dev →
        0 ≤ usb.get_active_config_rc → usb.active_config = some c →
        firstOut c = some (a, n) → 0 ≤ usb.claim_interface_rc n → ¬ P) →
      P → (usb_init usb link log).ret = -1 := by
    intro P hP hp
    rcases usb_init_ret usb link log with h | h
    · obtain ⟨dev, c, a, n, h0, h1, h2, h3, h4, -, -, h7⟩ := usb_init_ret_zero usb link log h
      exact absurd hp (hP dev c a n h0 h1 h2 h3 h4 h7)
    · exact h
  refine ⟨?_, ?_, ?_, ?_, ?_, ?_⟩
  · exact hcause _ (fun _ _ _ _ h0 _ _ _ _ _ h => absurd h0 (Int.not_le.2 h))
  · exact hcause _ (fun _ _ _ _ _ h1 _ _ _ _ h => by rw [h] at h1; exact absurd h1 (by simp))
  · refine hcause _ (fun _ _ _ _ _ _ h2 h3 _ _ h => ?_)
    rcases h with h | h
    · exact absurd h2 (Int.not_le.2 h)
    · rw [h] at h3
      exact absurd h3 (by simp)
  · refine hcause _ (fun _ c a n _ _ _ h3 h4 _ h => ?_)
    have := (firstOut_eq_none c).2 (h c h3)
    rw [this] at h4
    exact absurd h4 (by simp)
  · exact hcause _ (fun _ _ _ n _ _ _ _ _ h7 h => absurd h7 (Int.not_le.2 (h n)))
  · intro hret
    obtain ⟨a, b, evs, hlog, hs, hc, -⟩ := usb_init_failure usb link log hret
    refine ⟨(usb_init_ret usb link log).resolve_left hret, a hd, b hi, ?_, fun hno => ?_⟩
    · rw [hlog, issued_append]
      exact hs
    · rw [hlog, issued_append]
      exact hc (fun c h3 => (firstOut_eq_none c).2 (hno c h3))

/-- Witness of C13: the initial link and a configuration with IN endpoints only. -/
theorem C13_failure_leaves_unbound_witness :
    (usb_init (usbReady cfgNoOut) linkInitial []).ret = -1 ∧
    (usb_init (usbReady cfgNoOut) linkInitial []).link.dev_handle = none ∧
    (usb_init (usbReady cfgNoOut) linkInitial []).link.g_usb_iface = -1 ∧
    (issued [] (usb_init (usbReady cfgNoOut) linkInitial []).log).filter isSuccessfulClaim = [] ∧
    ((∀ c, (usbReady cfgNoOut).active_config = some c →
        ∀ p, p ∈ allEndpoints c → p.1 &&& 0x80 ≠ 0) →
      (issued [] (usb_init (usbReady cfgNoOut) linkInitial []).log).filter isClaim = []) :=
  (C13_failure_leaves_unbound (usbReady cfgNoOut) linkInitial [] rfl rfl).2.2.2.2.2 (by decide)

/-- C14 as stated fails: usb_init returns the same value when the configuration has no
OUT endpoint (cfgNoOut), when the device is not found and when the interface claim
fails. -/
theorem C14_return_value_counterexample :
    (usb_init (usbReady cfgNoOut) linkInitial []).ret = (usb_init usbNotFound linkInitial []).ret ∧
    (usb_init (usbReady cfgNoOut) linkInitial []).ret
      = (usb_init usbClaimFails linkInitial []).ret := by
  decide

/-- C14, amended: usb_init returns the same value, -1, when the configuration has no
OUT endpoint, when the device is not found and when the interface claim fails, so the
caller cannot tell these failures apart by the return value.  They differ only in the
line written to stderr: the no-endpoint line is written in the first case and in
neither of the other two, which write the device-not-found line and the claim-failed
line. -/
theorem C14_same_return_value (usbA usbB usbC : Libusb) (link : Link) (log : List UsbEvent)
    (devA devC : Nat) (cA cC : libusb_config_descriptor) (a : Nat) (n : Int)
    (hA0 : 0 ≤ usbA.init_rc) (hA1 : usbA.open_device = some devA)
    (hA2 : 0 ≤ usbA.get_active_config_rc) (hA3 : usbA.active_config = some cA)
    (hA4 : ∀ p, p ∈ allEndpoints cA → p.1 &&& 0x80 ≠ 0)
    (hB0 : 0 ≤ usbB.init_rc) (hB1 : usbB.open_device = none)
    (hC0 : 0 ≤ usbC.init_rc) (hC1 : usbC.open_device = some devC)
    (hC2 : 0 ≤ usbC.get_active_config_rc) (hC3 : usbC.active_config = some cC)
    (hC4 : firstOut cC = some (a, n)) (hC5 : a ≠ 0) (hC6 : 0 ≤ n)
    (hC7 : usbC.claim_interface_rc n < 0) :
    (usb_init usbA link log).ret = -1 ∧
    (usb_init usbB link log).ret = -1 ∧
    (usb_init usbC link log).ret = -1 ∧
    (usb_init usbA link log).ret = (usb_init usbB link log).ret ∧
    (usb_init usbA link log).ret = (usb_init usbC link log).ret ∧
    UsbEvent.fprintf_stderr Diag.no_usable_endpoint ∈ issued log (usb_init usbA link log).log ∧
    UsbEvent.fprintf_stderr Diag.device_not_found ∈ issued log (usb_init usbB link log).log ∧
    UsbEvent.fprintf_stderr Diag.claim_failed ∈ issued log (usb_init usbC link log).log ∧
    UsbEvent.fprintf_stderr Diag.no_usable_endpoint ∉ issued log (usb_init usbB link log).log ∧
    UsbEvent.fprintf_stderr Diag.no_usable_endpoint ∉ issued log (usb_init usbC link log).log := by
  rw [usb_init_no_endpoint usbA link log devA cA hA0 hA1 hA2 hA3 ((firstOut_eq_none cA).2 hA4),
    usb_init_not_found usbB link log hB0 hB1,
    usb_init_claim_failed usbC link log devC cC a n hC0 hC1 hC2 hC3 hC4 hC5 hC6 hC7]
  simp only [List.append_assoc, issued_append]
  refine ⟨trivial, trivial, trivial, trivial, trivial, ?_, ?_, ?_, ?_, ?_⟩
  · simp [openingEvents]
  · simp
  · simp [openingEvents, detachEvents]
  · simp
  · simp only [openingEvents, detachEvents]
    split <;> simp

/-- Witness of the amended C14: IN endpoints only, device not found, claim refused. -/
theorem C14_same_return_value_witness :
    (usb_init (usbReady cfgNoOut) linkInitial []).ret = -1 ∧
    (usb_init usbNotFound linkInitial []).ret = -1 ∧
    (usb_init usbClaimFails linkInitial []).ret = -1 ∧
    (usb_init (usbReady cfgNoOut) linkInitial []).ret = (usb_init usbNotFound linkInitial []).ret ∧
    (usb_init (usbReady cfgNoOut) linkInitial []).ret
      = (usb_init usbClaimFails linkInitial []).ret ∧
    UsbEvent.fprintf_stderr Diag.no_usable_endpoint
      ∈ issued [] (usb_init (usbReady cfgNoOut) linkInitial []).log ∧
    UsbEvent.fprintf_stderr Diag.device_not_found
      ∈ issued [] (usb_init usbNotFound linkInitial []).log ∧
    UsbEvent.fprintf_stderr Diag.claim_failed
      ∈ issued [] (usb_init usbClaimFails linkInitial []).log ∧
    UsbEvent.fprintf_stderr Diag.no_usable_endpoint
      ∉ issued [] (usb_init usbNotFound linkInitial []).log ∧
    UsbEvent.fprintf_stderr Diag.no_usable_endpoint
      ∉ issued [] (usb_init usbClaimFails linkInitial []).log :=
  C14_same_return_value (usbReady cfgNoOut) usbNotFound usbClaimFails linkInitial [] 1 1
    cfgNoOut cfgTest 4 3 (by decide) rfl (by decide) rfl (by decide) (by decide) rfl
    (by decide) rfl (by decide) rfl (by decide) (by decide) (by decide) (by decide)

/-- C15: a failure of automatic kernel-driver detachment is only a warning.  The value
usb_init returns and the link it records do not depend on the answer of
libusb_set_auto_detach_kernel_driver; and when, for one answer d0, the device opens, an
OUT endpoint is found and the interface claim is issued and succeeds, then for every
answer d, negative or not, usb_init returns 0 and records the same endpoint and
interface, those of the first OUT endpoint. -/
theorem C15_auto_detach_only_warning (usb : Libusb) (link : Link) (log : List UsbEvent)
    (d0 d : Int)
    (hclaim : ∃ e, e ∈ issued log (usb_init (withAutoDetach usb d0) link log).log ∧
      isSuccessfulClaim e = true) :
    (usb_init (withAutoDetach usb d) link log).ret = 0 ∧
    (usb_init (withAutoDetach usb d0) link log).ret = 0 ∧
    (usb_init (withAutoDetach usb d) link log).link
      = (usb_init (withAutoDetach usb d0) link log).link ∧
    ∃ dev c a n, usb.open_device = some dev ∧ usb.active_config = some c ∧
      firstOut c = some (a, n) ∧
      (usb_init (withAutoDetach usb d) link log).link = ⟨some dev, a, n⟩ := by
  have hret0 : (usb_init (withAutoDetach usb d0) link log).ret = 0 := by
    by_contra hne
    obtain ⟨-, -, evs, hlog, hs, -, -⟩ := usb_init_failure (withAutoDetach usb d0) link log hne
    obtain ⟨e, he, hsucc⟩ := hclaim
    rw [hlog, issued_append] at he
    have : e ∈ evs.filter isSuccessfulClaim := List.mem_filter.2 ⟨he, hsucc⟩
    rw [hs] at this
    exact absurd this (List.not_mem_nil e)
  obtain ⟨dev, c, a, n, h0, h1, h2, h3, h4, h5, h6, h7⟩ :=
    usb_init_ret_zero (withAutoDetach usb d0) link log hret0
  have e0 := usb_init_usable (withAutoDetach usb d0) link log dev c a n h0 h1 h2 h3 h4 h5 h6 h7
  have e1 := usb_init_usable (withAutoDetach usb d) link log dev c a n h0 h1 h2 h3 h4 h5 h6 h7
  rw [e0, e1]
  exact ⟨rfl, rfl, rfl, dev, c, a, n, h1, h3, h4, rfl⟩

/-- Witness of C15: the configuration of the tests, with the detachment answering 0 and
then -1 as in test_usb_init_success_and_cleanup. -/
theorem C15_auto_detach_only_warning_witness :
    (usb_init (withAutoDetach (usbReady cfgTest) (-1)) linkInitial []).ret = 0 ∧
    (usb_init (withAutoDetach (usbReady cfgTest) 0) linkInitial []).ret = 0 ∧
    (usb_init (withAutoDetach (usbReady cfgTest) (-1)) linkInitial []).link
      = (usb_init (withAutoDetach (usbReady cfgTest) 0) linkInitial []).link ∧
    ∃ dev c a n, (usbReady cfgTest).open_device = some dev ∧
      (usbReady cfgTest).active_config = some c ∧ firstOut c = some (a, n) ∧
      (usb_init (withAutoDetach (usbReady cfgTest) (-1)) linkInitial []).link
        = ⟨some dev, a, n⟩ :=
  C15_auto_detach_only_warning (usbReady cfgTest) linkInitial [] 0 (-1)
    ⟨UsbEvent.libusb_claim_interface (some 1) 3 0, by decide, rfl⟩

/-! ## Claims about link teardown -/

theorem usb_cleanup_unbound (link : Link) (log : List UsbEvent) (hd : link.dev_handle = none) :
    usb_cleanup link log = (⟨none, 0, -1⟩, log ++ [UsbEvent.libusb_exit]) := by
  simp [usb_cleanup, hd]

theorem usb_cleanup_link (link : Link) (log : List UsbEvent) :
    (usb_cleanup link log).1 = ⟨none, 0, -1⟩ := by
  cases h : link.dev_handle <;> simp [usb_cleanup, h]

theorem usb_cleanup_claimed (dev : Nat) (ep : Nat) (n : Int) (log : List UsbEvent)
    (hn : 0 ≤ n) :
    usb_cleanup ⟨some dev, ep, n⟩ log
      = (⟨none, 0, -1⟩, log ++ [UsbEvent.libusb_release_interface (some dev) n,
          UsbEvent.libusb_close (some dev), UsbEvent.libusb_exit]) := by
  simp [usb_cleanup, hn]

theorem usb_cleanup_unclaimed (dev : Nat) (ep : Nat) (n : Int) (log : List UsbEvent)
    (hn : n < 0) :
    usb_cleanup ⟨some dev, ep, n⟩ log
      = (⟨none, 0, -1⟩, log ++ [UsbEvent.libusb_close (some dev), UsbEvent.libusb_exit]) := by
  simp [usb_cleanup, Int.not_le.2 hn]

/-- C16: usb_cleanup is idempotent.  For every link state one call leaves dev_handle
NULL, g_ep_out 0 and g_usb_iface -1; a second call leaves exactly that state and issues
nothing but libusb_exit: no interface release and no handle close. -/
theorem C16_cleanup_idempotent (link : Link) (log : List UsbEvent) :
    (usb_cleanup link log).1 = ⟨none, 0, -1⟩ ∧
    (usb_cleanup (usb_cleanup link log).1 (usb_cleanup link log).2).1
      = (usb_cleanup link log).1 ∧
    (usb_cleanup (usb_cleanup link log).1 (usb_cleanup link log).2).2
      = (usb_cleanup link log).2 ++ [UsbEvent.libusb_exit] ∧
    (issued (usb_cleanup link log).2
      (usb_cleanup (usb_cleanup link log).1 (usb_cleanup link log).2).2).filter isRelease = [] ∧
    (issued (usb_cleanup link log).2
      (usb_cleanup (usb_cleanup link log).1 (usb_cleanup link log).2).2).filter isClose = [] := by
  have h1 := usb_cleanup_link link log
  have h2 := usb_cleanup_unbound (usb_cleanup link log).1 (usb_cleanup link log).2
    (by rw [h1])
  rw [h2, issued_append]
  exact ⟨h1, h1.symm, rfl, rfl, rfl⟩

/-- C17 as stated fails: on the initial link state of state.c (dev_handle NULL, g_ep_out
0x02, g_usb_iface -1) usb_cleanup does not leave g_ep_out as it was; it sets it to 0. -/
theorem C17_never_bound_counterexample :
    (usb_cleanup linkInitial []).1.g_ep_out = 0 ∧ linkInitial.g_ep_out = 2 ∧
    (usb_cleanup linkInitial []).1 ≠ linkInitial := by
  decide

/-- C17, amended: on a never-bound link (dev_handle NULL, g_usb_iface -1) usb_cleanup
issues no interface release and no handle close, only libusb_exit, and leaves dev_handle
and g_usb_iface as they were; it sets g_ep_out to 0, so the link state is exactly as
before the call when g_ep_out was 0 already, and on the initial state of the process
g_ep_out goes from 0x02 to 0. -/
theorem C17_never_bound_cleanup (link : Link) (log : List UsbEvent)
    (hd : link.dev_handle = none) (hi : link.g_usb_iface = -1) :
    (usb_cleanup link log).2 = log ++ [UsbEvent.libusb_exit] ∧
    (issued log (usb_cleanup link log).2).filter isRelease = [] ∧
    (issued log (usb_cleanup link log).2).filter isClose = [] ∧
    (usb_cleanup link log).1.dev_handle = link.dev_handle ∧
    (usb_cleanup link log).1.g_usb_iface = link.g_usb_iface ∧
    (usb_cleanup link log).1.g_ep_out = 0 ∧
    (link.g_ep_out = 0 → (usb_cleanup link log).1 = link) := by
  rw [usb_cleanup_unbound link log hd, issued_append, hd, hi]
  refine ⟨rfl, rfl, rfl, rfl, rfl, rfl, fun h0 => ?_⟩
  cases link with
  | mk dh ep n =>
    simp only at hd hi h0
    rw [hd, hi, h0]

/-- Witness of the amended C17: the initial link state of state.c. -/
theorem C17_never_bound_cleanup_witness :
    (usb_cleanup linkInitial []).2 = [] ++ [UsbEvent.libusb_exit] ∧
    (issued [] (usb_cleanup linkInitial []).2).filter isRelease = [] ∧
    (issued [] (usb_cleanup linkInitial []).2).filter isClose = [] ∧
    (usb_cleanup linkInitial []).1.dev_handle = linkInitial.dev_handle ∧
    (usb_cleanup linkInitial []).1.g_usb_iface = linkInitial.g_usb_iface ∧
    (usb_cleanup linkInitial []).1.g_ep_out = 0 ∧
    (linkInitial.g_ep_out = 0 → (usb_cleanup linkInitial []).1 = linkInitial) :=
  C17_never_bound_cleanup linkInitial [] rfl rfl

/-- C18: after a successful usb_init, usb_cleanup releases exactly the interface number
that usb_init claimed (one release, for that interface and on the same handle), then
closes the handle, and leaves the link unbound with g_usb_iface = -1 and g_ep_out = 0;
a handle with no claimed interface (g_usb_iface < 0) is closed without any release. -/
theorem C18_cleanup_releases_claimed (usb : Libusb) (link : Link) (log : List UsbEvent)
    (hret : (usb_init usb link log).ret = 0) :
    (∃ dev n, (usb_init usb link log).link.dev_handle = some dev ∧
      (usb_init usb link log).link.g_usb_iface = n ∧ 0 ≤ n ∧
      (issued log (usb_init usb link log).log).filter isClaim
        = [UsbEvent.libusb_claim_interface (some dev) n (usb.claim_interface_rc n)] ∧
      (usb_cleanup (usb_init usb link log).link (usb_init usb link log).log).2
        = (usb_init usb link log).log ++ [UsbEvent.libusb_release_interface (some dev) n,
            UsbEvent.libusb_close (some dev), UsbEvent.libusb_exit] ∧
      (usb_cleanup (usb_init usb link log).link (usb_init usb link log).log).1
        = ⟨none, 0, -1⟩) ∧
    (∀ (dev ep : Nat) (n : Int) (lg : List UsbEvent), n < 0 →
      usb_cleanup ⟨some dev, ep, n⟩ lg
        = (⟨none, 0, -1⟩, lg ++ [UsbEvent.libusb_close (some dev), UsbEvent.libusb_exit])) := by
  obtain ⟨dev, c, a, n, h0, h1, h2, h3, h4, h5, h6, h7⟩ := usb_init_ret_zero usb link log hret
  refine ⟨⟨dev, n, ?_⟩, fun dev ep n lg hn => usb_cleanup_unclaimed dev ep n lg hn⟩
  rw [usb_init_usable usb link log dev c a n h0 h1 h2 h3 h4 h5 h6 h7]
  refine ⟨rfl, rfl, h6, ?_, ?_, ?_⟩
  · simp only [List.append_assoc, issued_append]
    simp only [openingEvents, detachEvents]
    split <;> simp [isClaim]
  · rw [usb_cleanup_claimed dev a n _ h6]
  · rw [usb_cleanup_claimed dev a n _ h6]

/-- Witness of C18: the configuration of the tests, interface 3 claimed and released. -/
theorem C18_cleanup_releases_claimed_witness :
    (∃ dev n, (usb_init (usbReady cfgTest) linkInitial []).link.dev_handle = some dev ∧
      (usb_init (usbReady cfgTest) linkInitial []).link.g_usb_iface = n ∧ 0 ≤ n ∧
      (issued [] (usb_init (usbReady cfgTest) linkInitial []).log).filter isClaim
        = [UsbEvent.libusb_claim_interface (some dev) n
            ((usbReady cfgTest).claim_interface_rc n)] ∧
      (usb_cleanup (usb_init (usbReady cfgTest) linkInitial []).link
          (usb_init (usbReady cfgTest) linkInitial []).log).2
        = (usb_init (usbReady cfgTest) linkInitial []).log ++
            [UsbEvent.libusb_release_interface (some dev) n,
            UsbEvent.libusb_close (some dev), UsbEvent.libusb_exit] ∧
      (usb_cleanup (usb_init (usbReady cfgTest) linkInitial []).link
          (usb_init (usbReady cfgTest) linkInitial []).log).1
        = ⟨none, 0, -1⟩) ∧
    (∀ (dev ep : Nat) (n : Int) (lg : List UsbEvent), n < 0 →
      usb_cleanup ⟨some dev, ep, n⟩ lg
        = (⟨none, 0, -1⟩, lg ++ [UsbEvent.libusb_close (some dev), UsbEvent.libusb_exit])) :=
  C18_cleanup_releases_claimed (usbReady cfgTest) linkInitial [] (by decide)

/-! ## Claims about the page list and the page rotation -/

theorem page_switch_due (g_interval num_pages current_page last_page_switch now : Int)
    (h : now - last_page_switch ≥ g_interval) :
    page_switch g_interval num_pages current_page last_page_switch now
      = (Int.tmod (current_page + 1) num_pages, now) := by
  simp [page_switch, h]

theorem page_switch_not_due (g_interval num_pages current_page last_page_switch now : Int)
    (h : now - last_page_switch < g_interval) :
    page_switch g_interval num_pages current_page last_page_switch now
      = (current_page, last_page_switch) := by
  simp [page_switch, Int.not_le.2 h]

theorem succ_emod_ne (n cp : Int) (h0 : 0 ≤ cp) (h1 : cp < n) (h2 : 2 ≤ n) :
    (cp + 1) % n ≠ (cp + 2) % n := by
  by_cases ha : cp + 2 < n
  · rw [Int.emod_eq_of_lt (by omega) (by omega), Int.emod_eq_of_lt (by omega) ha]
    omega
  · by_cases hb : cp + 1 < n
    · have e : cp + 2 = n := by omega
      rw [Int.emod_eq_of_lt (by omega) hb, e, Int.emod_self]
      omega
    · have e : cp + 1 = n := by omega
      have e2 : cp + 2 = n + 1 := by omega
      rw [e, e2, Int.emod_self, Int.add_emod_self_left, Int.emod_eq_of_lt (by omega) (by omega)]
      omega

/-- C19: one tick of the page rotation with state (current_page, last_switch), page
count n and interval, from a state with 0 <= current_page and n > 0: if
now - last_switch >= interval the new state is ((current_page + 1) mod n, now), otherwise
the state is unchanged.  Hence a single tick advances the page index by exactly one
(wrapping to 0 at n) however large the gap is: with interval 1 and timestamps t then
t+2 the index advances once, not twice. -/
theorem C19_page_rotation (g_interval num_pages current_page last_page_switch now : Int)
    (hcp : 0 ≤ current_page) (hn : 0 < num_pages) :
    (now - last_page_switch ≥ g_interval →
      page_switch g_interval num_pages current_page last_page_switch now
        = ((current_page + 1) % num_pages, now)) ∧
    (now - last_page_switch < g_interval →
      page_switch g_interval num_pages current_page last_page_switch now
        = (current_page, last_page_switch)) ∧
    (current_page < num_pages → now - last_page_switch ≥ g_interval →
      (page_switch g_interval num_pages current_page last_page_switch now).1
        = if current_page + 1 = num_pages then 0 else current_page + 1) ∧
    (∀ t : Int, page_switch 1 num_pages current_page t (t + 2)
      = ((current_page + 1) % num_pages, t + 2)) ∧
    (current_page < num_pages → 2 ≤ num_pages →
      ∀ t : Int, (page_switch 1 num_pages current_page t (t + 2)).1
        ≠ (current_page + 2) % num_pages) := by
  have hmod : Int.tmod (current_page + 1) num_pages = (current_page + 1) % num_pages :=
    Int.tmod_eq_emod (by omega) (by omega)
  have hdue : ∀ t : Int, page_switch 1 num_pages current_page t (t + 2)
      = ((current_page + 1) % num_pages, t + 2) := by
    intro t
    rw [page_switch_due 1 num_pages current_page t (t + 2) (by omega), hmod]
  refine ⟨fun h => ?_, fun h => page_switch_not_due _ _ _ _ _ h, fun hlt h => ?_, hdue,
    fun hlt h2 t => ?_⟩
  · rw [page_switch_due _ _ _ _ _ h, hmod]
  · rw [page_switch_due _ _ _ _ _ h, hmod]
    show (current_page + 1) % num_pages = _
    by_cases e : current_page + 1 = num_pages
    · rw [if_pos e, e, Int.emod_self]
    · rw [if_neg e, Int.emod_eq_of_lt (by omega) (by omega)]
  · rw [hdue t]
    exact succ_emod_ne num_pages current_page hcp hlt h2

/-- Witness of C19: interval 1, five pages, page 4 showing since time 100, tick at 102
(the times of test_main_success_single_loop_with_page_switch). -/
theorem C19_page_rotation_witness :
    ((102 : Int) - 100 ≥ 1 → page_switch 1 5 4 100 102 = ((4 + 1) % 5, 102)) ∧
    ((102 : Int) - 100 < 1 → page_switch 1 5 4 100 102 = (4, 100)) ∧
    ((4 : Int) < 5 → (102 : Int) - 100 ≥ 1 →
      (page_switch 1 5 4 100 102).1 = if (4 : Int) + 1 = 5 then 0 else 4 + 1) ∧
    (∀ t : Int, page_switch 1 5 4 t (t + 2) = ((4 + 1) % 5, t + 2)) ∧
    ((4 : Int) < 5 → (2 : Int) ≤ 5 →
      ∀ t : Int, (page_switch 1 5 4 t (t + 2)).1 ≠ (4 + 2) % 5) :=
  C19_page_rotation 1 5 4 100 102 (by decide) (by decide)

/-- C20: the active page list is Overview, CPU, Memory, Network, System, in that order,
when the Proxmox source is not available (page count 5), and those five followed by
Proxmox then Storage when it is available (page count 7); no other page count is
possible, and the slots of the array beyond the page count are never assigned. -/
theorem C20_page_list (pve_available : Int) :
    activePages (build_renderers pve_available)
      = (if pve_available ≠ 0 then
          [some Renderer.render_page_overview, some Renderer.render_page_cpu,
           some Renderer.render_page_memory, some Renderer.render_page_network,
           some Renderer.render_page_system, some Renderer.render_page_proxmox,
           some Renderer.render_page_storage]
        else
          [some Renderer.render_page_overview, some Renderer.render_page_cpu,
           some Renderer.render_page_memory, some Renderer.render_page_network,
           some Renderer.render_page_system]) ∧
    (build_renderers pve_available).2 = (if pve_available ≠ 0 then 7 else 5) ∧
    ((build_renderers pve_available).2 = 5 ∨ (build_renderers pve_available).2 = 7) ∧
    (build_renderers pve_available).1.size = 8 ∧
    (build_renderers pve_available).1.toList.drop (build_renderers pve_available).2.toNat
      = List.replicate (8 - (build_renderers pve_available).2.toNat) none := by
  by_cases h : pve_available ≠ 0
  · have e : build_renderers pve_available = build_renderers 1 := by
      simp [build_renderers, h]
    rw [e, if_pos h, if_pos h]
    decide
  · have e : build_renderers pve_available = build_renderers 0 := by
      simp [build_renderers, h]
    rw [e, if_neg h, if_neg h]
    decide

/-! ## Drawing primitives -/

theorem size_set_pixel (fb : Framebuffer) (x y : Int) (c : Nat) :
    (set_pixel fb x y c).size = fb.size := by
  unfold set_pixel
  split <;> simp

theorem getD_setD (fb : Array Nat) (k v n : Nat) :
    (fb.setD k v).getD n 0 = if n = k ∧ k < fb.size then v else fb.getD n 0 := by
  have h := load8_store8 fb k v n
  unfold Array.setD
  by_cases hk : k < fb.size
  · by_cases hn : n = k
    · subst hn
      simp [hk, Array.getD]
    · have hne : k ≠ n := fun e => hn e.symm
      simp [hk, hn, Array.getD, Array.get_set, hne]
  · simp [hk]

theorem cell_set_pixel (fb : Framebuffer) (hs : fb.size = LCD_W * LCD_H) (x y : Int) (c : Nat)
    (i j : Nat) (hi : i < LCD_W) (hj : j < LCD_H) :
    cell (set_pixel fb x y c) i j = if x = i ∧ y = j then c % 65536 else cell fb i j := by
  unfold set_pixel cell
  simp only [LCD_W, LCD_H] at hs hi hj ⊢
  by_cases hb : 0 ≤ x ∧ x < (240 : Nat) ∧ 0 ≤ y ∧ y < (320 : Nat)
  · rw [if_pos hb, getD_setD, hs]
    by_cases he : x = i ∧ y = j
    · rw [if_pos he, if_pos]
      omega
    · rw [if_neg he, if_neg]
      omega
  · rw [if_neg hb, if_neg]
    omega

theorem fill_row_spec (x y : Int) (c : Nat) (n : Nat) (fb : Framebuffer)
    (hs : fb.size = LCD_W * LCD_H) :
    ((List.range n).foldl (fun fb (i : Nat) => set_pixel fb (x + i) y c) fb).size = LCD_W * LCD_H ∧
    ∀ i j, i < LCD_W → j < LCD_H →
      cell ((List.range n).foldl (fun fb (i : Nat) => set_pixel fb (x + i) y c) fb) i j
        = if y = j ∧ x ≤ i ∧ (i : Int) < x + n then c % 65536 else cell fb i j := by
  induction n with
  | zero =>
    refine ⟨hs, fun i j _ _ => ?_⟩
    rw [if_neg (by push_cast; omega)]
    rfl
  | succ n ih =>
    rw [List.range_succ, List.foldl_append]
    simp only [List.foldl_cons, List.foldl_nil]
    refine ⟨by rw [size_set_pixel]; exact ih.1, fun i j hi hj => ?_⟩
    rw [cell_set_pixel _ ih.1 _ _ _ i j hi hj, ih.2 i j hi hj]
    by_cases h1 : x + (n : Int) = i ∧ y = j
    · rw [if_pos h1, if_pos]
      push_cast
      omega
    · rw [if_neg h1]
      by_cases h2 : y = j ∧ x ≤ i ∧ (i : Int) < x + n
      · rw [if_pos h2, if_pos]
        push_cast
        omega
      · rw [if_neg h2, if_neg]
        push_cast
        omega

theorem fill_rows_spec (x y : Int) (c : Nat) (n m : Nat) (fb : Framebuffer)
    (hs : fb.size = LCD_W * LCD_H) :
    ((List.range m).foldl
      (fun fb (j : Nat) =>
        (List.range n).foldl (fun fb (i : Nat) => set_pixel fb (x + i) (y + j) c) fb)
      fb).size = LCD_W * LCD_H ∧
    ∀ i j, i < LCD_W → j < LCD_H →
      cell ((List.range m).foldl
        (fun fb (j : Nat) =>
        (List.range n).foldl (fun fb (i : Nat) => set_pixel fb (x + i) (y + j) c) fb)
        fb) i j
        = if x ≤ i ∧ (i : Int) < x + n ∧ y ≤ j ∧ (j : Int) < y + m then c % 65536
          else cell fb i j := by
  induction m with
  | zero =>
    refine ⟨hs, fun i j _ _ => ?_⟩
    rw [if_neg (by push_cast; omega)]
    rfl
  | succ m ih =>
    rw [List.range_succ, List.foldl_append]
    simp only [List.foldl_cons, List.foldl_nil]
    have hrow := fill_row_spec x (y + m) c n _ ih.1
    refine ⟨hrow.1, fun i j hi hj => ?_⟩
    rw [hrow.2 i j hi hj, ih.2 i j hi hj]
    by_cases h1 : y + (m : Int) = j ∧ x ≤ i ∧ (i : Int) < x + n
    · rw [if_pos h1, if_pos]
      push_cast
      omega
    · rw [if_neg h1]
      by_cases h2 : x ≤ i ∧ (i : Int) < x + n ∧ y ≤ j ∧ (j : Int) < y + m
      · rw [if_pos h2, if_pos]
        push_cast
        omega
      · rw [if_neg h2, if_neg]
        push_cast
        omega

theorem fill_rect_spec (fb : Framebuffer) (hs : fb.size = LCD_W * LCD_H) (x y w h : Int)
    (c : Nat) :
    (fill_rect fb x y w h c).size = LCD_W * LCD_H ∧
    ∀ i j, i < LCD_W → j < LCD_H →
      cell (fill_rect fb x y w h c) i j
        = if x ≤ i ∧ (i : Int) < x + w ∧ y ≤ j ∧ (j : Int) < y + h then c % 65536
          else cell fb i j := by
  have hsp := fill_rows_spec x y c w.toNat h.toNat fb hs
  refine ⟨hsp.1, fun i j hi hj => ?_⟩
  have := hsp.2 i j hi hj
  unfold fill_rect
  rw [this]
  by_cases h1 : x ≤ i ∧ (i : Int) < x + w ∧ y ≤ j ∧ (j : Int) < y + h
  · rw [if_pos h1, if_pos]
    omega
  · rw [if_neg h1, if_neg]
    omega

theorem size_surfaceCleared : surfaceCleared.size = LCD_W * LCD_H :=
  Array.size_mkArray _ _

theorem cell_surfaceCleared (i j : Nat) : cell surfaceCleared i j = 0 := by
  simp [cell, surfaceCleared, Array.getD]

/-! ## Claims about the drawing primitives -/

/-- C23 (on set_pixel as modelled from the spec): for every surface, colour and
coordinate pair (x, y), if 0 <= x < 240 and 0 <= y < 320 then set_pixel writes the colour
to cell y*240+x and changes no other cell; otherwise set_pixel leaves the whole surface
unchanged. -/
theorem C23_set_pixel (fb : Framebuffer) (hs : fb.size = LCD_W * LCD_H) (x y : Int)
    (color : Nat) (hc : color < 65536) :
    (0 ≤ x ∧ x < 240 ∧ 0 ≤ y ∧ y < 320 →
      (set_pixel fb x y color).size = fb.size ∧
      (set_pixel fb x y color).getD (y * 240 + x).toNat 0 = color ∧
      ∀ k, k ≠ (y * 240 + x).toNat → (set_pixel fb x y color).getD k 0 = fb.getD k 0) ∧
    (¬ (0 ≤ x ∧ x < 240 ∧ 0 ≤ y ∧ y < 320) → set_pixel fb x y color = fb) := by
  have hs' : fb.size = 76800 := hs
  have e : (y * (LCD_W : Int) + x).toNat = (y * 240 + x).toNat := by simp [LCD_W]
  have hbound : (0 ≤ x ∧ x < (LCD_W : Int) ∧ 0 ≤ y ∧ y < (LCD_H : Int)) ↔
      (0 ≤ x ∧ x < 240 ∧ 0 ≤ y ∧ y < 320) := by
    simp [LCD_W, LCD_H]
  refine ⟨fun hb => ⟨size_set_pixel fb x y color, ?_, fun k hk => ?_⟩, fun hb => ?_⟩
  · unfold set_pixel
    rw [if_pos (hbound.2 hb), getD_setD, e, if_pos ⟨rfl, by omega⟩]
    exact Nat.mod_eq_of_lt hc
  · unfold set_pixel
    rw [if_pos (hbound.2 hb), getD_setD, e, if_neg (fun h => hk h.1)]
  · unfold set_pixel
    rw [if_neg (fun h => hb (hbound.1 h))]

/-- Witness of C23: the cleared surface, cell (100, 50) as in test_set_pixel_valid. -/
theorem C23_set_pixel_witness :
    ((0 : Int) ≤ 100 ∧ (100 : Int) < 240 ∧ (0 : Int) ≤ 50 ∧ (50 : Int) < 320 →
      (set_pixel surfaceCleared 100 50 0xABCD).size = surfaceCleared.size ∧
      (set_pixel surfaceCleared 100 50 0xABCD).getD ((50 : Int) * 240 + 100).toNat 0 = 0xABCD ∧
      ∀ k, k ≠ ((50 : Int) * 240 + 100).toNat →
        (set_pixel surfaceCleared 100 50 0xABCD).getD k 0 = surfaceCleared.getD k 0) ∧
    (¬ ((0 : Int) ≤ 100 ∧ (100 : Int) < 240 ∧ (0 : Int) ≤ 50 ∧ (50 : Int) < 320) →
      set_pixel surfaceCleared 100 50 0xABCD = surfaceCleared) :=
  C23_set_pixel surfaceCleared size_surfaceCleared 100 50 0xABCD (by decide)

/-- C24 (on fill_rect as modelled from the spec): fill_rect(x, y, w, h, C) colours
exactly the cells (i, j) with x <= i < x+w, y <= j < y+h, 0 <= i < 240 and 0 <= j < 320,
and leaves every other cell unchanged, for negative origins and oversized rectangles as
well, and the surface keeps its size; fill_rect(-3,-3,5,5,C) on the cleared surface
colours cell (0,0) and does not colour cell (2,0). -/
theorem C24_fill_rect (fb : Framebuffer) (hs : fb.size = LCD_W * LCD_H) (x y w h : Int)
    (color : Nat) (hc : color < 65536) :
    (fill_rect fb x y w h color).size = fb.size ∧
    (∀ i j : Nat, i < 240 → j < 320 →
      cell (fill_rect fb x y w h color) i j
        = if x ≤ i ∧ (i : Int) < x + w ∧ y ≤ j ∧ (j : Int) < y + h then color
          else cell fb i j) ∧
    cell (fill_rect surfaceCleared (-3) (-3) 5 5 color) 0 0 = color ∧
    cell (fill_rect surfaceCleared (-3) (-3) 5 5 color) 2 0 = 0 := by
  have hmod : color % 65536 = color := Nat.mod_eq_of_lt hc
  have h1 := fill_rect_spec fb hs x y w h color
  have h2 := fill_rect_spec surfaceCleared size_surfaceCleared (-3) (-3) 5 5 color
  rw [hmod] at h1 h2
  refine ⟨h1.1.trans hs.symm, fun i j hi hj => h1.2 i j hi hj, ?_, ?_⟩
  · rw [h2.2 0 0 (by decide) (by decide), if_pos (by decide)]
  · rw [h2.2 2 0 (by decide) (by decide), if_neg (by decide)]
    exact cell_surfaceCleared 2 0

/-- Witness of C24: the rectangle of test_fill_rect_clipping at the lower right corner. -/
theorem C24_fill_rect_witness :
    (fill_rect surfaceCleared 238 318 10 10 0x2222).size = surfaceCleared.size ∧
    (∀ i j : Nat, i < 240 → j < 320 →
      cell (fill_rect surfaceCleared 238 318 10 10 0x2222) i j
        = if (238 : Int) ≤ i ∧ (i : Int) < 238 + 10 ∧ (318 : Int) ≤ j ∧ (j : Int) < 318 + 10
          then 0x2222 else cell surfaceCleared i j) ∧
    cell (fill_rect surfaceCleared (-3) (-3) 5 5 0x2222) 0 0 = 0x2222 ∧
    cell (fill_rect surfaceCleared (-3) (-3) 5 5 0x2222) 2 0 = 0 :=
  C24_fill_rect surfaceCleared size_surfaceCleared 238 318 10 10 0x2222 (by decide)

theorem loop_body_fields {σ : Type} (env : LoopEnv σ) (rs : Array (Option Renderer))
    (n g : Int) (st : LoopState σ) :
    (loop_body env rs n g st).1.iteration = st.iteration + 1 ∧
    (loop_body env rs n g st).1.current_page
      = (page_switch g n st.current_page st.last_page_switch (env.time st.iteration)).1 ∧
    (loop_body env rs n g st).1.last_page_switch
      = (page_switch g n st.current_page st.last_page_switch (env.time st.iteration)).2 ∧
    (loop_body env rs n g st).1.link = st.link ∧
    (loop_body env rs n g st).1.bulk_log = (iteration_frame env rs n g st).log ∧
    (loop_body env rs n g st).2 = decide ((iteration_frame env rs n g st).ret < 0) := by
  unfold loop_body
  by_cases h : (iteration_frame env rs n g st).ret < 0
  · simp only [h, if_true, decide_True, and_self]
  · simp only [h, if_false, decide_False, and_self]

theorem loop_body_trace {σ : Type} (env : LoopEnv σ) (rs : Array (Option Renderer))
    (n g : Int) (st : LoopState σ) :
    ∃ evs tail, evs.filter isRender = [] ∧ tail.filter isRender = [] ∧
      tail = [LoopEvent.send_frame (iteration_frame env rs n g st).ret,
           if (iteration_frame env rs n g st).ret < 0 then LoopEvent.fprintf_send_failed
           else LoopEvent.nanosleep] ∧
      (loop_body env rs n g st).1.trace
        = st.trace ++ evs ++
          [LoopEvent.render (renderer_slot rs
              (page_switch g n st.current_page st.last_page_switch (env.time st.iteration)).1)]
          ++ tail := by
  have htail : ([LoopEvent.send_frame (iteration_frame env rs n g st).ret,
      if (iteration_frame env rs n g st).ret < 0 then LoopEvent.fprintf_send_failed
      else LoopEvent.nanosleep]).filter isRender = [] := by
    split <;> rfl
  unfold loop_body
  by_cases hd : env.time st.iteration - st.last_page_switch ≥ g
  · refine ⟨[LoopEvent.collect_metrics, LoopEvent.collect_proxmox_metrics,
      LoopEvent.printf_page ((page_switch g n st.current_page st.last_page_switch
        (env.time st.iteration)).1 + 1) n], _, rfl, htail, rfl, ?_⟩
    by_cases h : (iteration_frame env rs n g st).ret < 0
    · simp only [h, hd, if_true, List.append_assoc, List.cons_append, List.nil_append]
    · simp only [h, hd, if_true, if_false, List.append_assoc, List.cons_append,
        List.nil_append]
  · refine ⟨[LoopEvent.collect_metrics, LoopEvent.collect_proxmox_metrics], _, rfl, htail,
      rfl, ?_⟩
    by_cases h : (iteration_frame env rs n g st).ret < 0
    · simp only [h, hd, if_true, if_false, List.append_assoc, List.cons_append,
        List.nil_append]
    · simp only [h, hd, if_false, List.append_assoc, List.cons_append, List.nil_append]

theorem loop_iterate_succ_body {σ : Type} (env : LoopEnv σ) (rs : Array (Option Renderer))
    (n g : Int) (k : Nat) (st : LoopState σ) :
    loop_iterate env rs n g (k + 1) st
      = loop_iterate env rs n g k (loop_body env rs n g st).1 := by
  induction k with
  | zero => rfl
  | succ k ih =>
    show (loop_body env rs n g (loop_iterate env rs n g (k + 1) st)).1 = _
    rw [ih]
    rfl

theorem loop_iterate_fields {σ : Type} (env : LoopEnv σ) (rs : Array (Option Renderer))
    (n g : Int) (k : Nat) (st : LoopState σ) :
    (loop_iterate env rs n g k st).iteration = st.iteration + k ∧
    (loop_iterate env rs n g k st).link = st.link := by
  induction k with
  | zero => exact ⟨rfl, rfl⟩
  | succ k ih =>
    have h := loop_body_fields env rs n g (loop_iterate env rs n g k st)
    show (loop_body env rs n g (loop_iterate env rs n g k st)).1.iteration = _ ∧
      (loop_body env rs n g (loop_iterate env rs n g k st)).1.link = _
    rw [h.1, h.2.2.2.1, ih.1, ih.2]
    exact ⟨by omega, rfl⟩

/-- The display loop leaves only states that are iterates of its body. -/
theorem display_loop_iterate {σ : Type} (env : LoopEnv σ) (rs : Array (Option Renderer))
    (n g : Int) (fuel : Nat) :
    ∀ (st st1 : LoopState σ), display_loop env rs n g fuel st = some st1 →
      ∃ k, k ≤ fuel ∧ st1 = loop_iterate env rs n g k st := by
  induction fuel with
  | zero => intro st st1 h; exact absurd h (by simp [display_loop])
  | succ fuel ih =>
    intro st st1 h
    unfold display_loop at h
    by_cases hr : env.g_running st.iteration = true
    · rw [if_pos hr] at h
      by_cases hb : (loop_body env rs n g st).2 = true
      · simp only [hb, if_true, Option.some.injEq] at h
        exact ⟨1, by omega, h.symm⟩
      · simp only [hb] at h
        obtain ⟨k, hk, e⟩ := ih _ _ h
        exact ⟨k + 1, by omega, by rw [loop_iterate_succ_body]; exact e⟩
    · rw [if_neg hr] at h
      exact ⟨0, by omega, (Option.some.inj h).symm⟩

/-- The display loop is left in the first iteration whose send_frame fails. -/
theorem display_loop_first_break {σ : Type} (env : LoopEnv σ) (rs : Array (Option Renderer))
    (n g : Int) (fuel : Nat) :
    ∀ (k : Nat) (st : LoopState σ),
      (∀ i, i ≤ k → env.g_running (st.iteration + i) = true) →
      (∀ i, i < k → 0 ≤ (iteration_frame env rs n g (loop_iterate env rs n g i st)).ret) →
      (iteration_frame env rs n g (loop_iterate env rs n g k st)).ret < 0 →
      display_loop env rs n g (k + 1 + fuel) st
        = some (loop_body env rs n g (loop_iterate env rs n g k st)).1 := by
  intro k
  induction k with
  | zero =>
    intro st hrun _ hfail
    have hb := (loop_body_fields env rs n g st).2.2.2.2.2
    have hr : env.g_running st.iteration = true := hrun 0 (Nat.le_refl 0)
    rw [show 0 + 1 + fuel = fuel + 1 by omega]
    unfold display_loop
    rw [if_pos hr]
    have hb2 : (loop_body env rs n g st).2 = true := by
      rw [hb]; exact decide_eq_true hfail
    simp only [hb2, if_true]
    rfl
  | succ k ih =>
    intro st hrun hok hfail
    have hf := loop_body_fields env rs n g st
    have hr : env.g_running st.iteration = true := hrun 0 (Nat.zero_le _)
    have h0 : 0 ≤ (iteration_frame env rs n g st).ret := hok 0 (Nat.succ_pos k)
    have hb2 : (loop_body env rs n g st).2 = false := by
      rw [hf.2.2.2.2.2]; exact decide_eq_false (by omega)
    rw [show k + 1 + 1 + fuel = (k + 1 + fuel) + 1 by omega]
    unfold display_loop
    rw [if_pos hr]
    simp only [hb2, Bool.false_eq_true, if_false]
    rw [loop_iterate_succ_body]
    apply ih
    · intro i hi
      rw [hf.1, show st.iteration + 1 + i = st.iteration + (i + 1) by omega]
      exact hrun (i + 1) (by omega)
    · intro i hi
      rw [← loop_iterate_succ_body]
      exact hok (i + 1) (by omega)
    · rw [← loop_iterate_succ_body]
      exact hfail

theorem page_switch_range (g n cp last now : Int) (h0 : 0 ≤ cp) (h1 : cp < n) :
    0 ≤ (page_switch g n cp last now).1 ∧ (page_switch g n cp last now).1 < n := by
  unfold page_switch
  split
  · show 0 ≤ Int.tmod (cp + 1) n ∧ Int.tmod (cp + 1) n < n
    rw [Int.tmod_eq_emod (by omega) (by omega)]
    exact ⟨Int.emod_nonneg _ (by omega), Int.emod_lt_of_pos _ (by omega)⟩
  · exact ⟨h0, h1⟩

theorem renderer_slot_filled (pve_available : Int) (cp : Int) (h0 : 0 ≤ cp)
    (h1 : cp < (build_renderers pve_available).2) :
    ∃ r, renderer_slot (build_renderers pve_available).1 cp = some r := by
  have key : ∀ p : Int, (p = 0 ∨ p = 1) → ∀ c : Nat, (c : Int) < (build_renderers p).2 →
      ∃ r, renderer_slot (build_renderers p).1 (c : Int) = some r := by
    intro p hp c hc
    rcases hp with rfl | rfl
    · have h5 : c < 5 := by
        have : (build_renderers 0).2 = 5 := by decide
        omega
      interval_cases c <;> exact Option.isSome_iff_exists.1 (by decide)
    · have h7 : c < 7 := by
        have : (build_renderers 1).2 = 7 := by decide
        omega
      interval_cases c <;> exact Option.isSome_iff_exists.1 (by decide)
  obtain ⟨c, rfl⟩ := Int.eq_ofNat_of_zero_le h0
  by_cases h : pve_available ≠ 0
  · have e : build_renderers pve_available = build_renderers 1 := by
      simp [build_renderers, h]
    rw [e] at h1 ⊢
    exact key 1 (Or.inr rfl) c h1
  · have e : build_renderers pve_available = build_renderers 0 := by
      simp [build_renderers, h]
    rw [e] at h1 ⊢
    exact key 0 (Or.inl rfl) c h1

theorem build_renderers_count (pve_available : Int) :
    (build_renderers pve_available).2 = 5 ∨ (build_renderers pve_available).2 = 7 := by
  by_cases h : pve_available ≠ 0
  · have e : build_renderers pve_available = build_renderers 1 := by
      simp [build_renderers, h]
    rw [e]; exact Or.inr (by decide)
  · have e : build_renderers pve_available = build_renderers 0 := by
      simp [build_renderers, h]
    rw [e]; exact Or.inl (by decide)

theorem usbShortAt5_frame_fails (link : Link) (fb : Framebuffer) :
    (send_frame usbShortAt5 link fb packetFF frameDataZero []).ret < 0 := by
  rcases send_frame_cases usbShortAt5 link fb packetFF frameDataZero [] size_packetFF
    size_frameDataZero with ⟨_, _, _, c⟩ | ⟨a, _⟩
  · have h := (delivered_iff _).1 (c 5 (by decide))
    exact absurd h.2 (by simp [usbShortAt5])
  · rw [a]; decide

/-! ## Claims about the display loop -/

/-- C21: a frame send failure is terminal for the display loop.  If the loop runs from
the start of main, the first `k` iterations send their frame successfully and the
send_frame of the next iteration returns a negative value, then main returns (with
enough iterations allowed, it returns 0), the loop having stopped in that very
iteration: after the failing send_frame only the failure message is recorded, so no
further page is rendered and no further collect or send takes place, the log of bulk
transfers is the one the failing send_frame left, and usb_cleanup has run, ending with
libusb_exit and leaving the link unbound (no handle, g_ep_out 0, g_usb_iface -1). -/
theorem C21_send_failure_terminal {σ : Type} (env : LoopEnv σ)
    (pve_available g_interval now : Int) (st : LoopState σ) (usb_log : List UsbEvent)
    (k fuel : Nat)
    (hrun : ∀ i, i ≤ k → env.g_running (st.iteration + i) = true)
    (hok : ∀ i, i < k →
      0 ≤ (iteration_frame env (build_renderers pve_available).1
        (build_renderers pve_available).2 g_interval
        (loop_iterate env (build_renderers pve_available).1
          (build_renderers pve_available).2 g_interval i
          { st with current_page := 0, last_page_switch := now })).ret)
    (hfail : (iteration_frame env (build_renderers pve_available).1
        (build_renderers pve_available).2 g_interval
        (loop_iterate env (build_renderers pve_available).1
          (build_renderers pve_available).2 g_interval k
          { st with current_page := 0, last_page_switch := now })).ret < 0) :
    ∃ r, main_display env pve_available g_interval now st usb_log (k + 1 + fuel) = some r ∧
      r.ret = 0 ∧
      r.state.iteration = st.iteration + k + 1 ∧
      (∃ evs slot, evs.filter isRender = [] ∧
        r.state.trace
          = (loop_iterate env (build_renderers pve_available).1
              (build_renderers pve_available).2 g_interval k
              { st with current_page := 0, last_page_switch := now }).trace ++ evs ++
            [LoopEvent.render slot,
             LoopEvent.send_frame (iteration_frame env (build_renderers pve_available).1
              (build_renderers pve_available).2 g_interval
              (loop_iterate env (build_renderers pve_available).1
                (build_renderers pve_available).2 g_interval k
                { st with current_page := 0, last_page_switch := now })).ret,
             LoopEvent.fprintf_send_failed]) ∧
      r.state.bulk_log
        = (iteration_frame env (build_renderers pve_available).1
            (build_renderers pve_available).2 g_interval
            (loop_iterate env (build_renderers pve_available).1
              (build_renderers pve_available).2 g_interval k
              { st with current_page := 0, last_page_switch := now })).log ∧
      r.link = ⟨none, 0, -1⟩ ∧
      (r.usb_log, r.link) = ((usb_cleanup st.link usb_log).2, (usb_cleanup st.link usb_log).1) ∧
      r.usb_log.getLast? = some UsbEvent.libusb_exit := by
  have hloop := display_loop_first_break env (build_renderers pve_available).1
    (build_renderers pve_available).2 g_interval fuel k
    { st with current_page := 0, last_page_switch := now } hrun hok hfail
  have hf := loop_body_fields env (build_renderers pve_available).1
    (build_renderers pve_available).2 g_interval
    (loop_iterate env (build_renderers pve_available).1
      (build_renderers pve_available).2 g_interval k
      { st with current_page := 0, last_page_switch := now })
  have hi := loop_iterate_fields env (build_renderers pve_available).1
    (build_renderers pve_available).2 g_interval k
    { st with current_page := 0, last_page_switch := now }
  obtain ⟨evs, tail, hevs, _, htail, htr⟩ := loop_body_trace env
    (build_renderers pve_available).1 (build_renderers pve_available).2 g_interval
    (loop_iterate env (build_renderers pve_available).1
      (build_renderers pve_available).2 g_interval k
      { st with current_page := 0, last_page_switch := now })
  rw [htail, if_pos hfail, List.append_assoc _ [_] _, List.singleton_append] at htr
  have hlink : (loop_body env (build_renderers pve_available).1
      (build_renderers pve_available).2 g_interval
      (loop_iterate env (build_renderers pve_available).1
        (build_renderers pve_available).2 g_interval k
        { st with current_page := 0, last_page_switch := now })).1.link = st.link := by
    rw [hf.2.2.2.1, hi.2]
  obtain ⟨S, hS⟩ : ∃ S, S = (loop_body env (build_renderers pve_available).1
      (build_renderers pve_available).2 g_interval
      (loop_iterate env (build_renderers pve_available).1
        (build_renderers pve_available).2 g_interval k
        { st with current_page := 0, last_page_switch := now })).1 := ⟨_, rfl⟩
  rw [← hS] at hloop hf htr hlink
  refine ⟨⟨0, S, (usb_cleanup S.link usb_log).1, (usb_cleanup S.link usb_log).2⟩, ?_, rfl,
    ?_, ⟨evs, _, hevs, htr⟩, hf.2.2.2.2.1, usb_cleanup_link S.link usb_log, ?_, ?_⟩
  · unfold main_display
    simp only [hloop]
  · show S.iteration = _
    rw [hf.1, hi.1]
  · show ((usb_cleanup S.link usb_log).2, (usb_cleanup S.link usb_log).1) = _
    rw [hlink]
  · show (usb_cleanup S.link usb_log).2.getLast? = _
    simp [usb_cleanup]

/-- Witness of C21: on a transport whose sixth transfer is short, the first frame of
the display loop fails. -/
theorem C21_send_failure_terminal_witness :
    ∃ r, main_display (loopEnvPlain usbShortAt5) 0 1 100 loopStart [] (0 + 1 + 0) = some r ∧
      r.ret = 0 ∧
      r.state.iteration = loopStart.iteration + 0 + 1 ∧
      (∃ evs slot, evs.filter isRender = [] ∧
        r.state.trace
          = (loop_iterate (loopEnvPlain usbShortAt5) (build_renderers 0).1
              (build_renderers 0).2 1 0
              { loopStart with current_page := 0, last_page_switch := 100 }).trace ++ evs ++
            [LoopEvent.render slot,
             LoopEvent.send_frame (iteration_frame (loopEnvPlain usbShortAt5)
              (build_renderers 0).1 (build_renderers 0).2 1
              (loop_iterate (loopEnvPlain usbShortAt5) (build_renderers 0).1
                (build_renderers 0).2 1 0
                { loopStart with current_page := 0, last_page_switch := 100 })).ret,
             LoopEvent.fprintf_send_failed]) ∧
      r.state.bulk_log
        = (iteration_frame (loopEnvPlain usbShortAt5) (build_renderers 0).1
            (build_renderers 0).2 1
            (loop_iterate (loopEnvPlain usbShortAt5) (build_renderers 0).1
              (build_renderers 0).2 1 0
              { loopStart with current_page := 0, last_page_switch := 100 })).log ∧
      r.link = ⟨none, 0, -1⟩ ∧
      (r.usb_log, r.link)
        = ((usb_cleanup loopStart.link []).2, (usb_cleanup loopStart.link []).1) ∧
      r.usb_log.getLast? = some UsbEvent.libusb_exit :=
  C21_send_failure_terminal (loopEnvPlain usbShortAt5) 0 1 100 loopStart [] 0 0
    (fun _ _ => rfl) (fun i hi => absurd hi (Nat.not_lt_zero i))
    (usbShortAt5_frame_fails _ _)

/-- C29: the page index stays inside the page list.  In every state the display loop
reaches from the start of main (each is an iterate of the loop body, whatever the
clock, the interval, the metrics and the transport do), `num_pages` is 5 or 7 and so
not zero as a modulus, `0 <= current_page < num_pages`, the page index used by the
dispatch of the next iteration is again in that range, the slot `renderers[current_page]`
it reads was assigned a page-render function, and no call through an unassigned slot
has been made. -/
theorem C29_page_index {σ : Type} (env : LoopEnv σ) (pve_available g_interval now : Int)
    (st : LoopState σ) (k : Nat) :
    ((build_renderers pve_available).2 = 5 ∨ (build_renderers pve_available).2 = 7) ∧
    (build_renderers pve_available).2 ≠ 0 ∧
    0 ≤ (loop_iterate env (build_renderers pve_available).1
      (build_renderers pve_available).2 g_interval k
      { st with current_page := 0, last_page_switch := now }).current_page ∧
    (loop_iterate env (build_renderers pve_available).1
      (build_renderers pve_available).2 g_interval k
      { st with current_page := 0, last_page_switch := now }).current_page
      < (build_renderers pve_available).2 ∧
    (∃ r, renderer_slot (build_renderers pve_available).1
      (loop_iterate env (build_renderers pve_available).1
        (build_renderers pve_available).2 g_interval k
        { st with current_page := 0, last_page_switch := now }).current_page = some r) ∧
    (∃ p r,
      p = (page_switch g_interval (build_renderers pve_available).2
        (loop_iterate env (build_renderers pve_available).1
          (build_renderers pve_available).2 g_interval k
          { st with current_page := 0, last_page_switch := now }).current_page
        (loop_iterate env (build_renderers pve_available).1
          (build_renderers pve_available).2 g_interval k
          { st with current_page := 0, last_page_switch := now }).last_page_switch
        (env.time (loop_iterate env (build_renderers pve_available).1
          (build_renderers pve_available).2 g_interval k
          { st with current_page := 0, last_page_switch := now }).iteration)).1 ∧
      0 ≤ p ∧ p < (build_renderers pve_available).2 ∧
      renderer_slot (build_renderers pve_available).1 p = some r) ∧
    (∃ evs, (loop_iterate env (build_renderers pve_available).1
        (build_renderers pve_available).2 g_interval k
        { st with current_page := 0, last_page_switch := now }).trace = st.trace ++ evs ∧
      evs.all (fun e => !isBadRender e) = true ∧
      (evs.filter isRender).length = k) := by
  have hn := build_renderers_count pve_available
  have hn0 : (build_renderers pve_available).2 ≠ 0 := by omega
  have inv : ∀ k,
      0 ≤ (loop_iterate env (build_renderers pve_available).1
        (build_renderers pve_available).2 g_interval k
        { st with current_page := 0, last_page_switch := now }).current_page ∧
      (loop_iterate env (build_renderers pve_available).1
        (build_renderers pve_available).2 g_interval k
        { st with current_page := 0, last_page_switch := now }).current_page
        < (build_renderers pve_available).2 ∧
      (∃ evs, (loop_iterate env (build_renderers pve_available).1
          (build_renderers pve_available).2 g_interval k
          { st with current_page := 0, last_page_switch := now }).trace = st.trace ++ evs ∧
        evs.all (fun e => !isBadRender e) = true ∧
        (evs.filter isRender).length = k) := by
    intro k
    induction k with
    | zero =>
      refine ⟨Int.le_refl 0, ?_, [], ?_, rfl, rfl⟩
      · show (0 : Int) < _
        omega
      · show st.trace = st.trace ++ []
        rw [List.append_nil]
    | succ k ih =>
      obtain ⟨h0, h1, evs, he, hall, hlen⟩ := ih
      have hf := loop_body_fields env (build_renderers pve_available).1
        (build_renderers pve_available).2 g_interval
        (loop_iterate env (build_renderers pve_available).1
          (build_renderers pve_available).2 g_interval k
          { st with current_page := 0, last_page_switch := now })
      obtain ⟨evs1, tail, hevs1, htail, _, htr⟩ := loop_body_trace env
        (build_renderers pve_available).1 (build_renderers pve_available).2 g_interval
        (loop_iterate env (build_renderers pve_available).1
          (build_renderers pve_available).2 g_interval k
          { st with current_page := 0, last_page_switch := now })
      have hr := page_switch_range g_interval (build_renderers pve_available).2 _
        (loop_iterate env (build_renderers pve_available).1
          (build_renderers pve_available).2 g_interval k
          { st with current_page := 0, last_page_switch := now }).last_page_switch
        (env.time (loop_iterate env (build_renderers pve_available).1
          (build_renderers pve_available).2 g_interval k
          { st with current_page := 0, last_page_switch := now }).iteration) h0 h1
      obtain ⟨r, hslot⟩ := renderer_slot_filled pve_available _ hr.1 hr.2
      rw [hslot, he] at htr
      have hnb : ∀ l : List LoopEvent, l.filter isRender = [] →
          l.all (fun e => !isBadRender e) = true := by
        intro l hl
        rw [List.all_eq_true]
        intro e hmem
        have hnr : isRender e = false := by
          by_contra hc
          have hm : e ∈ l.filter isRender :=
            List.mem_filter.2 ⟨hmem, by simpa using hc⟩
          rw [hl] at hm
          exact absurd hm (List.not_mem_nil e)
        cases e <;> first | rfl | exact absurd hnr (by simp [isRender])
      refine ⟨?_, ?_, evs ++ evs1 ++ [LoopEvent.render (some r)] ++ tail, ?_, ?_, ?_⟩
      · show 0 ≤ (loop_body _ _ _ _ _).1.current_page
        rw [hf.2.1]; exact hr.1
      · show (loop_body _ _ _ _ _).1.current_page < _
        rw [hf.2.1]; exact hr.2
      · show (loop_body _ _ _ _ _).1.trace = _
        rw [htr]
        simp only [List.append_assoc]
      · rw [List.all_append, List.all_append, List.all_append, hall, hnb evs1 hevs1,
          hnb tail htail]
        rfl
      · rw [List.filter_append, List.filter_append, List.filter_append, hevs1, htail,
          List.length_append, List.length_append, List.length_append, hlen]
        rfl
  obtain ⟨h0, h1, htrace⟩ := inv k
  have hr := page_switch_range g_interval (build_renderers pve_available).2 _
    (loop_iterate env (build_renderers pve_available).1
      (build_renderers pve_available).2 g_interval k
      { st with current_page := 0, last_page_switch := now }).last_page_switch
    (env.time (loop_iterate env (build_renderers pve_available).1
      (build_renderers pve_available).2 g_interval k
      { st with current_page := 0, last_page_switch := now }).iteration) h0 h1
  obtain ⟨r, hslot⟩ := renderer_slot_filled pve_available _ hr.1 hr.2
  exact ⟨hn, hn0, h0, h1, renderer_slot_filled pve_available _ h0 h1,
    ⟨_, r, rfl, hr.1, hr.2, hslot⟩, htrace⟩


/-! ## The numeric helpers of cli.c -/

theorem decimalValue_cons (c : Nat) (t : List Nat) :
    decimalValue (c :: t) = (c - 48) * 10 ^ t.length + decimalValue t := by
  simp only [decimalValue, List.map_cons, List.reverse_cons, Nat.ofDigits_append,
    Nat.ofDigits_singleton, List.length_reverse, List.length_map]
  ring

theorem foldl_decimal (l : List Nat) : ∀ a : Nat,
    l.foldl (fun a c => 10 * a + (c - 48)) a = a * 10 ^ l.length + decimalValue l := by
  induction l with
  | nil => intro a; simp [decimalValue]
  | cons c t ih =>
    intro a
    rw [List.foldl_cons, ih, decimalValue_cons, List.length_cons]
    ring

/-- The text of strtol in base 10 splits into white space, a sign, digits and a rest
that does not start with a digit; the result is read off the parts. -/
theorem strtol_base10_spec (nptr : List Nat) :
    ∃ ws sign digits tail, nptr = ws ++ sign ++ digits ++ tail ∧
      (∀ c ∈ ws, isspace c = true) ∧ (sign = [] ∨ sign = [43] ∨ sign = [45]) ∧
      (∀ c ∈ digits, isdigit c = true) ∧ (tail.head?.all (fun c => !isdigit c) = true) ∧
      strtol_base10 nptr
        = if digits = [] then ⟨0, 0, 0⟩
          else if sign = [45] then
            (if -(decimalValue digits : Int) < LONG_MIN then
              ⟨LONG_MIN, ws.length + sign.length + digits.length, ERANGE⟩
            else ⟨-(decimalValue digits : Int), ws.length + sign.length + digits.length, 0⟩)
          else
            (if (decimalValue digits : Int) > LONG_MAX then
              ⟨LONG_MAX, ws.length + sign.length + digits.length, ERANGE⟩
            else ⟨(decimalValue digits : Int), ws.length + sign.length + digits.length, 0⟩) := by
  have hsplit : ∀ rest : List Nat, ∃ sign rest1, rest = sign ++ rest1 ∧
      (sign = [] ∨ sign = [43] ∨ sign = [45]) ∧
      (rest.head? == some 45) = decide (sign = [45]) ∧
      (rest.head? == some 45 || rest.head? == some 43) = decide (sign ≠ []) ∧
      (if (rest.head? == some 45 || rest.head? == some 43) = true then rest.drop 1 else rest)
        = rest1 ∧
      (if (rest.head? == some 45 || rest.head? == some 43) = true then 1 else 0) = sign.length := by
    intro rest
    rcases rest with _ | ⟨c, t⟩
    · exact ⟨[], [], rfl, Or.inl rfl, rfl, rfl, rfl, rfl⟩
    · by_cases h45 : c = 45
      · subst h45
        exact ⟨[45], t, rfl, Or.inr (Or.inr rfl), rfl, rfl, rfl, rfl⟩
      · by_cases h43 : c = 43
        · subst h43
          exact ⟨[43], t, rfl, Or.inr (Or.inl rfl), rfl, rfl, rfl, rfl⟩
        · refine ⟨[], c :: t, rfl, Or.inl rfl, ?_, ?_, ?_, ?_⟩ <;>
            simp [h45, h43]
  obtain ⟨sign, rest1, hrest, hsign, hneg, hsigned, hdrop, hlen⟩ :=
    hsplit (nptr.dropWhile isspace)
  refine ⟨nptr.takeWhile isspace, sign, rest1.takeWhile isdigit, rest1.dropWhile isdigit,
    ?_, ?_, hsign, ?_, ?_, ?_⟩
  · rw [List.append_assoc, List.append_assoc, List.takeWhile_append_dropWhile, ← hrest,
      List.takeWhile_append_dropWhile]
  · intro c hc
    exact (List.mem_takeWhile_imp hc)
  · intro c hc
    exact (List.mem_takeWhile_imp hc)
  · rcases hd : rest1.dropWhile isdigit with _ | ⟨c, t⟩
    · rfl
    · have := List.head_dropWhile_not isdigit rest1 (by rw [hd]; exact List.cons_ne_nil _ _)
      simp only [hd, List.head_cons] at this
      simp [this]
  · unfold strtol_base10
    simp only [hdrop, hlen]
    simp only [hneg]
    by_cases hdig : rest1.takeWhile isdigit = []
    · simp only [hdig, if_true]
    · simp only [hdig, if_false, foldl_decimal, Nat.zero_mul, Nat.zero_add]
      rcases hsign with rfl | rfl | rfl
      · have e : decide (([] : List Nat) = [45]) = false := by decide
        have e2 : ¬ (([] : List Nat) = [45]) := by decide
        have : ¬ ((decimalValue (rest1.takeWhile isdigit) : Int) < LONG_MIN) := by
          simp only [LONG_MIN]; omega
        simp only [e, e2, decide_False, Bool.false_eq_true, this, if_false]
      · have e : decide (([43] : List Nat) = [45]) = false := by decide
        have e2 : ¬ (([43] : List Nat) = [45]) := by decide
        have : ¬ ((decimalValue (rest1.takeWhile isdigit) : Int) < LONG_MIN) := by
          simp only [LONG_MIN]; omega
        simp only [e, e2, decide_False, Bool.false_eq_true, this, if_false]
      · have : ¬ (-(decimalValue (rest1.takeWhile isdigit) : Int) > LONG_MAX) := by
          simp only [LONG_MAX]; omega
        simp only [decide_True, if_true, this, if_false]

theorem isdigit_not_isspace (c : Nat) (h : isdigit c = true) : isspace c = false := by
  simp only [isdigit, Bool.and_eq_true, decide_eq_true_eq] at h
  simp only [isspace, Bool.or_eq_false_iff, beq_eq_false_iff_ne, Bool.and_eq_false_iff,
    decide_eq_false_iff_not]
  omega

theorem takeWhile_all (p : Nat → Bool) (l : List Nat) (h : ∀ c ∈ l, p c = true) :
    l.takeWhile p = l := by
  induction l with
  | nil => rfl
  | cons c t ih =>
    rw [List.takeWhile_cons_of_pos (h c (List.mem_cons_self c t)),
      ih (fun x hx => h x (List.mem_cons_of_mem c hx))]

/-- The conversion of a text that is white space, an optional plus sign and digits. -/
theorem strtol_base10_text (ws sign digits : List Nat) (h : decimalText ws sign digits) :
    strtol_base10 (ws ++ sign ++ digits)
      = if (decimalValue digits : Int) > LONG_MAX then
          ⟨LONG_MAX, ws.length + sign.length + digits.length, ERANGE⟩
        else ⟨(decimalValue digits : Int), ws.length + sign.length + digits.length, 0⟩ := by
  obtain ⟨hws, hsign, hne, hdig⟩ := h
  obtain ⟨d, t, rfl⟩ := List.exists_cons_of_ne_nil hne
  have hd : isdigit d = true := hdig d (List.mem_cons_self d t)
  have hdr : d ≠ 45 ∧ d ≠ 43 := by
    simp only [isdigit, Bool.and_eq_true, decide_eq_true_eq] at hd
    omega
  have hmin : ¬ ((decimalValue (d :: t) : Int) < LONG_MIN) := by
    simp only [LONG_MIN]; omega
  have htw : (d :: t).takeWhile isdigit = d :: t := takeWhile_all isdigit _ hdig
  rcases hsign with rfl | rfl
  · have h1 : (ws ++ [] ++ d :: t).takeWhile isspace = ws := by
      rw [List.append_nil, List.takeWhile_append_of_pos hws,
        List.takeWhile_cons_of_neg (by rw [isdigit_not_isspace d hd]; decide),
        List.append_nil]
    have h2 : (ws ++ [] ++ d :: t).dropWhile isspace = d :: t := by
      rw [List.append_nil, List.dropWhile_append_of_pos hws,
        List.dropWhile_cons_of_neg (by rw [isdigit_not_isspace d hd]; decide)]
    have hb45 : (some d == some 45) = false := by simp [hdr.1]
    have hb43 : (some d == some 43) = false := by simp [hdr.2]
    unfold strtol_base10
    simp only [h1, h2, List.head?_cons, hb45, hb43, Bool.or_self, Bool.false_eq_true,
      if_false, htw, foldl_decimal, Nat.zero_mul, Nat.zero_add, hne, hmin, List.length_nil,
      Nat.add_zero]
  · have h1 : (ws ++ [43] ++ d :: t).takeWhile isspace = ws := by
      rw [List.append_assoc, List.takeWhile_append_of_pos hws]
      simp [isspace]
    have h2 : (ws ++ [43] ++ d :: t).dropWhile isspace = 43 :: d :: t := by
      rw [List.append_assoc, List.dropWhile_append_of_pos hws]
      simp [isspace]
    have hb45 : ((some 43 : Option Nat) == some 45) = false := by decide
    have hb43 : ((some 43 : Option Nat) == some 43) = true := by decide
    unfold strtol_base10
    simp only [h1, h2, List.head?_cons, hb45, hb43, Bool.false_or, Bool.false_eq_true,
      if_true, if_false, List.drop_succ_cons, List.drop_zero, htw, foldl_decimal,
      Nat.zero_mul, Nat.zero_add, hne, hmin, List.length_singleton]

theorem getD_append_length (l tail : List Nat) :
    (l ++ tail).getD l.length 0 = tail.headD 0 := by
  cases tail with
  | nil => simp [List.getD_eq_getElem?_getD]
  | cons c t =>
    rw [List.getD_eq_getElem?_getD, List.getElem?_append_right (Nat.le_refl _)]
    simp

theorem cast_int_of_range (v : Int) (h1 : 1 ≤ v) (h2 : v ≤ INT_MAX) : cast_int v = v := by
  simp only [INT_MAX] at h2
  simp only [cast_int]
  omega

/-- What parse_positive_int does on a text without an inner terminator: it accepts
exactly white space, an optional plus sign and digits denoting a number from 1 to
INT_MAX, which it stores; everything else gives -1 and leaves the output as it was. -/
theorem parse_positive_int_cases (arg : List Nat) (v0 : Int) (hz : ∀ c ∈ arg, c ≠ 0) :
    (∃ ws sign digits, arg = ws ++ sign ++ digits ∧ decimalText ws sign digits ∧
      1 ≤ decimalValue digits ∧ decimalValue digits ≤ 2147483647 ∧
      parse_positive_int (some arg) (some v0) = (0, some (decimalValue digits : Int))) ∨
    parse_positive_int (some arg) (some v0) = (-1, some v0) := by
  obtain ⟨ws, sign, digits, tail, harg, hws, hsign, hdig, _, hres⟩ := strtol_base10_spec arg
  by_cases hrej : parse_positive_int (some arg) (some v0) = (-1, some v0)
  · exact Or.inr hrej
  left
  simp only [parse_positive_int] at hrej ⊢
  by_cases h0 : arg.getD 0 0 = 0
  · exact absurd (by rw [if_pos h0]) hrej
  rw [if_neg h0] at hrej ⊢
  by_cases hc : (strtol_base10 arg).errno ≠ 0 ∨ (strtol_base10 arg).endptr = 0 ∨
      arg.getD (strtol_base10 arg).endptr 0 ≠ 0 ∨ (strtol_base10 arg).val < 1 ∨
      (strtol_base10 arg).val > INT_MAX
  · exact absurd (by rw [if_pos hc]) hrej
  rw [if_neg hc]
  simp only [not_or, not_not, not_lt] at hc
  obtain ⟨herr, hend, hterm, hlo, hhi⟩ := hc
  have hne : digits ≠ [] := by
    intro h
    rw [hres, if_pos h] at hend
    exact hend rfl
  rw [if_neg hne] at hres
  have hs45 : sign ≠ [45] := by
    intro h
    rw [if_pos h] at hres
    rw [hres] at hlo
    split at hlo
    · simp only [LONG_MIN] at hlo; omega
    · simp only at hlo; omega
  rw [if_neg hs45] at hres
  have hfit : ¬ ((decimalValue digits : Int) > LONG_MAX) := by
    intro h
    rw [hres, if_pos h] at herr
    exact absurd herr (by simp [ERANGE])
  rw [if_neg hfit] at hres
  rw [hres] at hterm hlo hhi ⊢
  simp only at hterm hlo hhi ⊢
  have htail : tail = [] := by
    rcases tail with _ | ⟨c, t⟩
    · rfl
    · exfalso
      have hget : arg.getD (ws.length + sign.length + digits.length) 0 = c := by
        have := getD_append_length (ws ++ sign ++ digits) (c :: t)
        rw [← harg, List.length_append, List.length_append] at this
        exact this
      rw [hget] at hterm
      exact hz c (by rw [harg]; simp) hterm
  rw [htail, List.append_nil] at harg
  have hs : sign = [] ∨ sign = [43] := by
    rcases hsign with h | h | h
    · exact Or.inl h
    · exact Or.inr h
    · exact absurd h hs45
  simp only [INT_MAX] at hhi
  refine ⟨ws, sign, digits, harg, ⟨hws, hs, hne, hdig⟩, by omega, by omega, ?_⟩
  rw [cast_int_of_range _ hlo (by simp only [INT_MAX]; exact hhi)]

/-- Every text of the accepted form is accepted, and its number stored. -/
theorem parse_positive_int_accepts (ws sign digits : List Nat) (v0 : Int)
    (h : decimalText ws sign digits) (h1 : 1 ≤ decimalValue digits)
    (h2 : decimalValue digits ≤ 2147483647) :
    parse_positive_int (some (ws ++ sign ++ digits)) (some v0)
      = (0, some (decimalValue digits : Int)) := by
  have hres := strtol_base10_text ws sign digits h
  have hfit : ¬ ((decimalValue digits : Int) > LONG_MAX) := by
    simp only [LONG_MAX]; omega
  rw [if_neg hfit] at hres
  obtain ⟨hws, hsign, hne, hdig⟩ := h
  obtain ⟨d, t, rfl⟩ := List.exists_cons_of_ne_nil hne
  have hd : isdigit d = true := hdig d (List.mem_cons_self d t)
  have hd0 : d ≠ 0 := by
    simp only [isdigit, Bool.and_eq_true, decide_eq_true_eq] at hd
    omega
  have hfirst : (ws ++ sign ++ d :: t).getD 0 0 ≠ 0 := by
    rcases ws with _ | ⟨w, ws⟩
    · rcases hsign with rfl | rfl
      · simpa using hd0
      · simp
    · have hw := hws w (List.mem_cons_self w ws)
      have : w ≠ 0 := by
        intro h; rw [h] at hw; exact absurd hw (by decide)
      simpa using this
  have hend : (ws ++ sign ++ d :: t).getD (ws.length + sign.length + (d :: t).length) 0
      = 0 := by
    have := getD_append_length (ws ++ sign ++ d :: t) []
    rw [List.append_nil, List.length_append, List.length_append] at this
    exact this
  simp only [parse_positive_int]
  rw [if_neg hfirst, hres]
  simp only
  rw [if_neg, cast_int_of_range _ (by omega) (by simp only [INT_MAX]; omega)]
  simp only [not_or, not_not, not_lt, INT_MAX]
  refine ⟨by decide, by simp, hend, by omega, by omega⟩

theorem parse_positive_int_range (arg : Option (List Nat)) (out : Option Int) :
    (∃ v, parse_positive_int arg out = (0, some v) ∧ 1 ≤ v ∧ v ≤ INT_MAX) ∨
    parse_positive_int arg out = (-1, out) := by
  unfold parse_positive_int
  split
  · split
    · exact Or.inr rfl
    · simp only []
      split
      · exact Or.inr rfl
      · rename_i hc
        simp only [not_or, not_not, not_lt] at hc
        exact Or.inl ⟨_, congrArg _ (congrArg _ (cast_int_of_range _ hc.2.2.2.1 hc.2.2.2.2)),
          hc.2.2.2.1, hc.2.2.2.2⟩
  · exact Or.inr rfl

theorem parse_args_interval (opts : List CliOption) : ∀ st : CliState,
    (parse_args opts st).2.g_interval = st.g_interval ∨
    (1 ≤ (parse_args opts st).2.g_interval ∧ (parse_args opts st).2.g_interval ≤ INT_MAX) := by
  induction opts with
  | nil => intro st; exact Or.inl rfl
  | cons o opts ih =>
    intro st
    cases o with
    | vid optarg =>
      simp only [parse_args]
      split
      · exact Or.inl rfl
      · exact ih _
    | pid optarg =>
      simp only [parse_args]
      split
      · exact Or.inl rfl
      · exact ih _
    | interval optarg =>
      simp only [parse_args]
      split
      · exact Or.inl rfl
      · rename_i hret
        rcases parse_positive_int_range (some optarg) (some 0) with ⟨v, hv, h1, h2⟩ | hv
        · rcases ih { st with g_interval := (parse_positive_int (some optarg) (some 0)).2.getD 0 }
            with h | h
          · right
            rw [h, hv]
            exact ⟨h1, h2⟩
          · exact Or.inr h
        · rw [hv] at hret
          exact absurd hret (by simp)
    | interface optarg =>
      simp only [parse_args]
      split
      · exact Or.inl rfl
      · exact ih _
    | help => exact Or.inl rfl
    | unrecognised => exact Or.inl rfl

/-! ## Claims about the command line -/

/-- C30 as stated does not hold: the text " 7" (a space before the digit) and the text
"+7" are not decimal integers written out completely in digits (32 and 43 are not
digit characters), yet for both parse_positive_int returns 0 and stores 7, because
strtol skips leading white space and accepts a sign. -/
theorem C30_parse_positive_int_counterexample :
    parse_positive_int (some [32, 55]) (some 0) = (0, some 7) ∧ isdigit 32 = false ∧
    parse_positive_int (some [43, 55]) (some 0) = (0, some 7) ∧ isdigit 43 = false := by
  decide

/-- C30, amended: parse_positive_int returns 0 exactly for a text that consists of
optional white space, an optional plus sign and then decimal digits up to its end,
denoting a number from 1 to INT_MAX, and then stores exactly that number; for every
other text (empty, zero, negative, trailing characters after the digits, out of range)
and for a null text or a null output it returns -1 and leaves the output unchanged.
Every rotation interval parse_args assigns is between 1 and INT_MAX, so the interval
stays at least 1 from its initial value 7. -/
theorem C30_parse_positive_int (arg : List Nat) (v0 : Int) (hz : ∀ c ∈ arg, c ≠ 0) :
    (∀ n, positiveDecimal arg n → parse_positive_int (some arg) (some v0) = (0, some (n : Int))) ∧
    ((¬ ∃ n, positiveDecimal arg n) → parse_positive_int (some arg) (some v0) = (-1, some v0)) ∧
    ((parse_positive_int (some arg) (some v0)).1 = 0 ↔ ∃ n, positiveDecimal arg n) ∧
    parse_positive_int (some []) (some v0) = (-1, some v0) ∧
    parse_positive_int none (some v0) = (-1, some v0) ∧
    parse_positive_int (some arg) none = (-1, none) ∧
    (∀ (opts : List CliOption) (st : CliState),
      ((parse_args opts st).2.g_interval = st.g_interval ∨
        (1 ≤ (parse_args opts st).2.g_interval ∧
          (parse_args opts st).2.g_interval ≤ 2147483647)) ∧
      (1 ≤ st.g_interval → 1 ≤ (parse_args opts st).2.g_interval)) := by
  have hacc : ∀ n, positiveDecimal arg n →
      parse_positive_int (some arg) (some v0) = (0, some (n : Int)) := by
    rintro n ⟨ws, sign, digits, rfl, htext, rfl, h1, h2⟩
    exact parse_positive_int_accepts ws sign digits v0 htext h1 h2
  have hrej : (¬ ∃ n, positiveDecimal arg n) →
      parse_positive_int (some arg) (some v0) = (-1, some v0) := by
    intro hno
    rcases parse_positive_int_cases arg v0 hz with ⟨ws, sign, digits, ha, ht, h1, h2, _⟩ | h
    · exact absurd ⟨_, ws, sign, digits, ha, ht, rfl, h1, h2⟩ hno
    · exact h
  refine ⟨hacc, hrej, ⟨?_, ?_⟩, rfl, rfl, rfl, fun opts st => ⟨?_, ?_⟩⟩
  · intro h0
    by_contra hno
    rw [hrej hno] at h0
    exact absurd h0 (by simp)
  · rintro ⟨n, hn⟩
    rw [hacc n hn]
  · exact parse_args_interval opts st
  · intro h1
    rcases parse_args_interval opts st with h | h
    · rw [h]; exact h1
    · exact h.1

/-- Witness of C30: the text "42" of the tests. -/
theorem C30_parse_positive_int_witness :
    (∀ n, positiveDecimal [52, 50] n →
      parse_positive_int (some [52, 50]) (some 5) = (0, some (n : Int))) ∧
    ((¬ ∃ n, positiveDecimal [52, 50] n) →
      parse_positive_int (some [52, 50]) (some 5) = (-1, some 5)) ∧
    ((parse_positive_int (some [52, 50]) (some 5)).1 = 0 ↔ ∃ n, positiveDecimal [52, 50] n) ∧
    parse_positive_int (some []) (some 5) = (-1, some 5) ∧
    parse_positive_int none (some 5) = (-1, some 5) ∧
    parse_positive_int (some [52, 50]) none = (-1, none) ∧
    (∀ (opts : List CliOption) (st : CliState),
      ((parse_args opts st).2.g_interval = st.g_interval ∨
        (1 ≤ (parse_args opts st).2.g_interval ∧
          (parse_args opts st).2.g_interval ≤ 2147483647)) ∧
      (1 ≤ st.g_interval → 1 ≤ (parse_args opts st).2.g_interval)) :=
  C30_parse_positive_int [52, 50] 5 (by decide)


/-! ## The pvesh command line -/

theorem sanitize_node_char_eq (c : Nat) :
    sanitize_node_char c = if nodeCharAllowed c = true then c else 95 := by
  simp only [sanitize_node_char, nodeCharAllowed, Bool.or_eq_true, Bool.and_eq_true,
    decide_eq_true_eq, beq_iff_eq, or_assoc]

theorem sanitize_node_char_allowed (c : Nat) : nodeCharAllowed (sanitize_node_char c) = true := by
  rw [sanitize_node_char_eq]
  split
  · assumption
  · decide

theorem nodeCharAllowed_props (c : Nat) (h : nodeCharAllowed c = true) :
    c ≠ 0 ∧ c ∉ shellMeta ∧ sanitize_node_char c = c := by
  refine ⟨?_, ?_, by rw [sanitize_node_char_eq, if_pos h]⟩
  · rintro rfl
    exact absurd h (by decide)
  · intro hm
    simp only [nodeCharAllowed, Bool.or_eq_true, Bool.and_eq_true, decide_eq_true_eq,
      beq_iff_eq] at h
    simp only [shellMeta, List.mem_cons, List.mem_singleton, List.not_mem_nil, or_false] at hm
    omega

theorem c_str_of_nonzero (s : List Nat) (h : ∀ c ∈ s, c ≠ 0) : c_str s = s :=
  takeWhile_all _ s (fun c hc => by simpa using h c hc)

theorem snprintf_s_fits (size : Nat) (s : List Nat) (h : ∀ c ∈ s, c ≠ 0)
    (hlen : s.length ≤ size - 1) : snprintf_s size s = s := by
  rw [snprintf_s, c_str_of_nonzero s h, List.take_of_length_le hlen]

/-- The sanitised node name: what it is, and that it is a fixed point of sanitising. -/
theorem pvesh_node_spec (node_name : List Nat) :
    pvesh_node node_name
      = (if node_name.getD 0 0 ≠ 0 then ((c_str node_name).take 63).map sanitize_node_char
          else text "localhost") ∧
    (∀ c ∈ pvesh_node node_name, nodeCharAllowed c = true) ∧
    (pvesh_node node_name).length ≤ 63 ∧
    (pvesh_node node_name).getD 0 0 ≠ 0 := by
  have hloc : (snprintf_s 64 (text "localhost")).map sanitize_node_char = text "localhost" := by
    decide
  have hval : pvesh_node node_name
      = (if node_name.getD 0 0 ≠ 0 then ((c_str node_name).take 63).map sanitize_node_char
          else text "localhost") := by
    unfold pvesh_node
    by_cases h : node_name.getD 0 0 ≠ 0
    · rw [if_pos h, if_pos h]
      rfl
    · rw [if_neg h, if_neg h]
      exact hloc
  refine ⟨hval, ?_, ?_, ?_⟩
  · rw [hval]
    split
    · intro c hc
      obtain ⟨a, _, rfl⟩ := List.mem_map.1 hc
      exact sanitize_node_char_allowed a
    · decide
  · rw [hval]
    split
    · rw [List.length_map, List.length_take]
      omega
    · decide
  · rw [hval]
    split
    · rename_i h
      rcases node_name with _ | ⟨a, t⟩
      · exact absurd rfl h
      · have ha : a ≠ 0 := by simpa using h
        have hc : c_str (a :: t) = a :: c_str t := by simp [c_str, ha]
        rw [hc]
        show List.getD (List.map sanitize_node_char (List.take (62 + 1) (a :: c_str t))) 0 0 ≠ 0
        rw [List.take_succ_cons, List.map_cons, List.getD_cons_zero]
        exact (nodeCharAllowed_props _ (sanitize_node_char_allowed a)).1
    · decide

theorem map_sanitize_allowed (s : List Nat) (h : ∀ c ∈ s, nodeCharAllowed c = true) :
    s.map sanitize_node_char = s := by
  induction s with
  | nil => rfl
  | cons a t ih =>
    rw [List.map_cons, (nodeCharAllowed_props a (h a (List.mem_cons_self a t))).2.2,
      ih (fun c hc => h c (List.mem_cons_of_mem a hc))]

theorem pvesh_node_idempotent (node_name : List Nat) :
    pvesh_node (pvesh_node node_name) = pvesh_node node_name := by
  obtain ⟨_, hall, hlen, hfirst⟩ := pvesh_node_spec node_name
  rw [(pvesh_node_spec (pvesh_node node_name)).1, if_pos hfirst,
    c_str_of_nonzero _ (fun c hc => (nodeCharAllowed_props c (hall c hc)).1),
    List.take_of_length_le hlen, map_sanitize_allowed _ hall]

/-! ## Claims about the Proxmox storage query -/

/-- C28: the node name placed in the pvesh command line is sanitised.  For every node
name (a string without inner terminator that fits the 64-byte array node_name), the
command passed to popen is "pvesh get /nodes/" + s + "/storage --output-format json
2>/dev/null", where s is "localhost" when the name is empty and otherwise has the
length of the name, with s[i] = name[i] where name[i] is a letter, a digit, `-`, `_` or
`.` and s[i] = `_` elsewhere; s consists of such characters only, so it holds no shell
metacharacter, and sanitising s again gives s. -/
theorem C28_pvesh_command (node_name : List Nat) (hz : ∀ c ∈ node_name, c ≠ 0)
    (hlen : node_name.length ≤ 63) :
    pvesh_cmd node_name
      = text "pvesh get /nodes/" ++ pvesh_node node_name
          ++ text "/storage --output-format json 2>/dev/null" ∧
    (node_name = [] → pvesh_node node_name = text "localhost") ∧
    (node_name ≠ [] →
      (pvesh_node node_name).length = node_name.length ∧
      ∀ i, i < node_name.length →
        (pvesh_node node_name).getD i 0
          = if nodeCharAllowed (node_name.getD i 0) = true then node_name.getD i 0 else 95) ∧
    (∀ c ∈ pvesh_node node_name, nodeCharAllowed c = true ∧ c ∉ shellMeta) ∧
    (pvesh_node node_name).map sanitize_node_char = pvesh_node node_name ∧
    pvesh_node (pvesh_node node_name) = pvesh_node node_name := by
  obtain ⟨hval, hall, hl, _⟩ := pvesh_node_spec node_name
  refine ⟨?_, ?_, ?_, fun c hc => ⟨hall c hc, (nodeCharAllowed_props c (hall c hc)).2.1⟩,
    map_sanitize_allowed _ hall, pvesh_node_idempotent node_name⟩
  · have h1 : ∀ c ∈ text "pvesh get /nodes/", c ≠ 0 := by decide
    have h2 : ∀ c ∈ text "/storage --output-format json 2>/dev/null", c ≠ 0 := by decide
    have l1 : (text "pvesh get /nodes/").length = 17 := by decide
    have l2 : (text "/storage --output-format json 2>/dev/null").length = 41 := by decide
    apply snprintf_s_fits
    · intro c hc
      rcases List.mem_append.1 hc with hc | hc
      · rcases List.mem_append.1 hc with hc | hc
        · exact h1 c hc
        · exact (nodeCharAllowed_props c (hall c hc)).1
      · exact h2 c hc
    · rw [List.length_append, List.length_append, l1, l2]
      omega
  · rintro rfl
    rfl
  · intro hne
    obtain ⟨a, t, rfl⟩ := List.exists_cons_of_ne_nil hne
    have ha : (a :: t).getD 0 0 ≠ 0 := by
      simpa using hz a (List.mem_cons_self a t)
    have hs : pvesh_node (a :: t) = (a :: t).map sanitize_node_char := by
      rw [hval, if_pos ha, c_str_of_nonzero _ hz, List.take_of_length_le hlen]
    refine ⟨by rw [hs, List.length_map], fun i hi => ?_⟩
    rw [hs, List.getD_eq_getElem?_getD, List.getD_eq_getElem?_getD, List.getElem?_map,
      List.getElem?_eq_getElem hi, Option.map_some', Option.getD_some, Option.getD_some,
      sanitize_node_char_eq]

/-- Witness of C28: the node name "node?bad" of the tests. -/
theorem C28_pvesh_command_witness :
    pvesh_cmd nodeBad
      = text "pvesh get /nodes/" ++ pvesh_node nodeBad
          ++ text "/storage --output-format json 2>/dev/null" ∧
    (nodeBad = [] → pvesh_node nodeBad = text "localhost") ∧
    (nodeBad ≠ [] →
      (pvesh_node nodeBad).length = nodeBad.length ∧
      ∀ i, i < nodeBad.length →
        (pvesh_node nodeBad).getD i 0
          = if nodeCharAllowed (nodeBad.getD i 0) = true then nodeBad.getD i 0 else 95) ∧
    (∀ c ∈ pvesh_node nodeBad, nodeCharAllowed c = true ∧ c ∉ shellMeta) ∧
    (pvesh_node nodeBad).map sanitize_node_char = pvesh_node nodeBad ∧
    pvesh_node (pvesh_node nodeBad) = pvesh_node nodeBad :=
  C28_pvesh_command nodeBad (by decide) (by decide)

/-- C27 does not hold on the code.  On the object text with "storage":0 followed by
"used":1 and "total":2, parse_json_string_field for the field "storage" returns 0 and
reports the key name "used" of the next member as the value: the opening quote is
searched in the whole rest of the object, not right after the colon.  Only when no
quoted token follows, as in the object with "storage":123 alone, it returns -1 and
leaves the output buffer as it was. -/
theorem C27_number_value_reports_next_token :
    parse_json_string_field jsonNumberObject 0 jsonNumberObject.length (text "storage")
        (List.replicate 32 0) 32
      = (0, text "used" ++ List.replicate 28 0) ∧
    parse_json_string_field jsonNumberOnly 0 jsonNumberOnly.length (text "storage")
        (List.replicate 32 0) 32
      = (-1, List.replicate 32 0) := by
  decide

/-- C22 does not hold on the code.  When pvesh cannot be started and the command
`df -B1 /var/lib/vz` prints a header and nine lines with a name and two numbers,
get_pve_storage makes a store at index 8 of the array `storage`, one past its eight
slots: the loop over the lines of df does not test `storage_count < 8`, as the scan loop
and the loop over the paths do. -/
theorem C22_df_fallback_overruns :
    (get_pve_storage popenDfNine 1 pveZero).map (fun st => st.overrun) = some [8] := by
  decide


/-! ## send_frame on the globals -/

theorem convert_row_globals (y : Nat) (xs : List Nat) : ∀ g : UsbGlobals,
    xs.foldl (convert_cell_globals y) g
      = { g with frame_data := xs.foldl (convert_cell g.framebuffer y) g.frame_data } := by
  induction xs with
  | nil => intro g; rfl
  | cons x xs ih =>
    intro g
    rw [List.foldl_cons, ih, List.foldl_cons]
    rfl

theorem convert_rows_globals (ys : List Nat) : ∀ g : UsbGlobals,
    ys.foldl (fun g (y : Nat) => (List.range LCD_W).foldl (convert_cell_globals y) g) g
      = { g with frame_data := ys.foldl (convert_row g.framebuffer) g.frame_data } := by
  induction ys with
  | nil => intro g; rfl
  | cons y ys ih =>
    intro g
    rw [List.foldl_cons, convert_row_globals, ih, List.foldl_cons]
    simp only [convert_row]

theorem convert_globals_eq (g : UsbGlobals) :
    convert_globals g
      = { g with frame_data := convert_framebuffer g.framebuffer g.frame_data } :=
  convert_rows_globals _ g

theorem send_data_globals_eq (usb : Usb) : ∀ (n offset : Nat) (packet : Bytes) (g : UsbGlobals),
    FRAME_SIZE - offset ≤ n * 512 →
    send_data_globals usb offset packet g
      = ((send_data usb g.link g.frame_data offset packet g.log).1,
          { g with log := (send_data usb g.link g.frame_data offset packet g.log).2 }) := by
  intro n
  induction n with
  | zero =>
    intro offset packet g h
    have hge : ¬ offset < FRAME_SIZE := by
      rw [Nat.zero_mul] at h
      omega
    rw [send_data_globals, send_data, if_neg hge, if_neg hge]
  | succ n ih =>
    intro offset packet g h
    rw [send_data_globals, send_data]
    by_cases hlt : offset < FRAME_SIZE
    · rw [if_pos hlt, if_pos hlt]
      by_cases hfail : (libusb_bulk_transfer usb g.link.dev_handle g.link.g_ep_out
          (memcpy (memset packet 0 PACKET_SIZE) g.frame_data offset
            (if FRAME_SIZE - offset > PACKET_SIZE then PACKET_SIZE else FRAME_SIZE - offset))
          PACKET_SIZE 1000 g.log).1.rc < 0 ∨
          (libusb_bulk_transfer usb g.link.dev_handle g.link.g_ep_out
          (memcpy (memset packet 0 PACKET_SIZE) g.frame_data offset
            (if FRAME_SIZE - offset > PACKET_SIZE then PACKET_SIZE else FRAME_SIZE - offset))
          PACKET_SIZE 1000 g.log).1.transferred ≠ PACKET_SIZE
      · simp only [hfail, if_true]
      · simp only [hfail, if_false]
        rw [ih _ _ _ (by
          show FRAME_SIZE - (offset + PACKET_SIZE) ≤ n * 512
          simp only [PACKET_SIZE]
          omega)]
    · rw [if_neg hlt, if_neg hlt]

/-! ## Claims about what send_frame leaves unchanged -/

/-- C35: send_frame only reads the surface and the link.  Whatever the transport
answers, so whether the call succeeds or fails, the framebuffer and the link state
(dev_handle, g_ep_out, g_usb_iface) after the call are those before it: a bound link
stays bound, also across an iteration of the display loop.  The only globals it
changes are its static array and the transport log, which agree with send_frame as
modelled before; every store of the conversion has its index inside the static array
and reads a cell inside the surface. -/
theorem C35_send_frame_reads_only (usb : Usb) (packet : Bytes) (g : UsbGlobals) :
    (send_frame_globals usb packet g).2.framebuffer = g.framebuffer ∧
    (send_frame_globals usb packet g).2.link = g.link ∧
    (send_frame_globals usb packet g).2.link.dev_handle.isSome = g.link.dev_handle.isSome ∧
    (send_frame_globals usb packet g).1
      = (send_frame usb g.link g.framebuffer packet g.frame_data g.log).ret ∧
    (send_frame_globals usb packet g).2.frame_data
      = (send_frame usb g.link g.framebuffer packet g.frame_data g.log).frame_data ∧
    (send_frame_globals usb packet g).2.log
      = (send_frame usb g.link g.framebuffer packet g.frame_data g.log).log ∧
    (∀ x y : Nat, x < LCD_W → y < LCD_H →
      (y * LCD_W + x) * 2 + 1 < FRAME_SIZE ∧ y * LCD_W + x < LCD_W * LCD_H) ∧
    (∀ (σ : Type) (env : LoopEnv σ) (rs : Array (Option Renderer)) (n gi : Int)
      (st : LoopState σ), (loop_body env rs n gi st).1.link = st.link) := by
  have key : send_frame_globals usb packet g
      = ((send_frame usb g.link g.framebuffer packet g.frame_data g.log).ret,
          { g with
            frame_data := (send_frame usb g.link g.framebuffer packet g.frame_data g.log).frame_data,
            log := (send_frame usb g.link g.framebuffer packet g.frame_data g.log).log }) := by
    unfold send_frame_globals send_frame
    by_cases hfail : (libusb_bulk_transfer usb g.link.dev_handle g.link.g_ep_out
        (build_header packet) PACKET_SIZE 1000 g.log).1.rc < 0 ∨
        (libusb_bulk_transfer usb g.link.dev_handle g.link.g_ep_out
        (build_header packet) PACKET_SIZE 1000 g.log).1.transferred ≠ PACKET_SIZE
    · simp only [hfail, if_true]
    · simp only [hfail, if_false]
      rw [convert_globals_eq, send_data_globals_eq usb 300 0 _ _ (by
        rw [FRAME_SIZE_eq])]
  rw [key]
  refine ⟨rfl, rfl, rfl, rfl, rfl, rfl, fun x y hx hy => ?_, fun σ env rs n gi st => ?_⟩
  · rw [FRAME_SIZE_eq]
    simp only [LCD_W, LCD_H] at hx hy ⊢
    omega
  · exact (loop_body_fields env rs n gi st).2.2.2.1


/-! ## Claims about the counter rate -/

/-- C37: compute_counter_rate(current, previous, dt) returns 0 when dt <= 0 or when
current < previous (a counter reset), and otherwise returns (current - previous)
divided by dt, computed in `float`: the rounded quotient of the two converted values,
with a divisor of at least 1.  The result is never negative, it is the exact quotient
whenever the operands and the quotient are representable, and (2000, 1000, 2) gives
500.  The rounding is any monotone map that keeps 0 and 1. -/
theorem C37_compute_counter_rate (rnd : ℚ → ℚ) (h0 : rnd 0 = 0) (h1 : rnd 1 = 1)
    (hmono : Monotone rnd) (current previous : Nat) (dt : Int) :
    (dt ≤ 0 ∨ current < previous → compute_counter_rate rnd current previous dt = 0) ∧
    (0 < dt → previous ≤ current →
      compute_counter_rate rnd current previous dt
        = rnd (rnd (((current - previous : Nat) : ℚ)) / rnd (dt : ℚ)) ∧
      1 ≤ rnd (dt : ℚ)) ∧
    (0 < dt → previous ≤ current → rnd (((current - previous : Nat) : ℚ)) = ((current - previous : Nat) : ℚ) →
      rnd (dt : ℚ) = (dt : ℚ) →
      rnd (((current - previous : Nat) : ℚ) / (dt : ℚ)) = ((current - previous : Nat) : ℚ) / (dt : ℚ) →
      compute_counter_rate rnd current previous dt = ((current : ℚ) - (previous : ℚ)) / (dt : ℚ)) ∧
    0 ≤ compute_counter_rate rnd current previous dt ∧
    (rnd 1000 = 1000 → rnd 2 = 2 → rnd 500 = 500 → compute_counter_rate rnd 2000 1000 2 = 500) := by
  have hden : ∀ d : Int, 0 < d → 1 ≤ rnd (d : ℚ) := by
    intro d hd
    have : (1 : ℚ) ≤ (d : ℚ) := by exact_mod_cast hd
    calc (1 : ℚ) = rnd 1 := h1.symm
      _ ≤ rnd (d : ℚ) := hmono this
  have hnum : ∀ n : Nat, 0 ≤ rnd (n : ℚ) := by
    intro n
    calc (0 : ℚ) = rnd 0 := h0.symm
      _ ≤ rnd (n : ℚ) := hmono (by exact_mod_cast Nat.zero_le n)
  have hrun : ∀ (c p : Nat) (d : Int), 0 < d → p ≤ c →
      compute_counter_rate rnd c p d = rnd (rnd (((c - p : Nat) : ℚ)) / rnd (d : ℚ)) := by
    intro c p d hd hp
    unfold compute_counter_rate
    rw [if_neg (by omega)]
  refine ⟨?_, fun hd hp => ⟨hrun _ _ _ hd hp, hden dt hd⟩, ?_, ?_, ?_⟩
  · intro h
    unfold compute_counter_rate
    rw [if_pos h]
  · intro hd hp e1 e2 e3
    rw [hrun _ _ _ hd hp, e1, e2, e3, Nat.cast_sub hp]
  · by_cases h : dt ≤ 0 ∨ current < previous
    · unfold compute_counter_rate
      rw [if_pos h]
    · rw [hrun _ _ _ (by omega) (by omega)]
      have hq : (0 : ℚ) ≤ rnd (((current - previous : Nat) : ℚ)) / rnd (dt : ℚ) :=
        div_nonneg (hnum _) (le_trans zero_le_one (hden dt (by omega)))
      calc (0 : ℚ) = rnd 0 := h0.symm
        _ ≤ _ := hmono hq
  · intro e1 e2 e3
    rw [hrun 2000 1000 2 (by decide) (by decide)]
    norm_num
    rw [e1, e2]
    norm_num
    exact e3

/-- Witness of C37: exact arithmetic as the rounding, on the values of the tests. -/
theorem C37_compute_counter_rate_witness :
    (((2 : Int) ≤ 0 ∨ 2000 < 1000 → compute_counter_rate id 2000 1000 2 = 0) ∧
    ((0 : Int) < 2 → 1000 ≤ 2000 →
      compute_counter_rate id 2000 1000 2
        = id (id (((2000 - 1000 : Nat) : ℚ)) / id ((2 : Int) : ℚ)) ∧
      1 ≤ id ((2 : Int) : ℚ)) ∧
    ((0 : Int) < 2 → 1000 ≤ 2000 → id (((2000 - 1000 : Nat) : ℚ)) = ((2000 - 1000 : Nat) : ℚ) →
      id ((2 : Int) : ℚ) = ((2 : Int) : ℚ) →
      id (((2000 - 1000 : Nat) : ℚ) / ((2 : Int) : ℚ)) = ((2000 - 1000 : Nat) : ℚ) / ((2 : Int) : ℚ) →
      compute_counter_rate id 2000 1000 2 = (((2000 : Nat) : ℚ) - ((1000 : Nat) : ℚ)) / ((2 : Int) : ℚ)) ∧
    0 ≤ compute_counter_rate id 2000 1000 2 ∧
    (id (1000 : ℚ) = 1000 → id (2 : ℚ) = 2 → id (500 : ℚ) = 500 →
      compute_counter_rate id 2000 1000 2 = 500)) :=
  C37_compute_counter_rate id rfl rfl monotone_id 2000 1000 2


/-! ## The search helpers of proxmox.c -/

theorem find_range_some (f : Nat → Bool) : ∀ (n s p : Nat),
    (List.range' s n).find? f = some p ↔
      (s ≤ p ∧ p < s + n ∧ f p = true ∧ ∀ j, s ≤ j → j < p → f j = false) := by
  intro n
  induction n with
  | zero =>
    intro s p
    simp only [List.range'_zero, List.find?_nil]
    constructor
    · intro h; exact absurd h (by simp)
    · rintro ⟨h1, h2, _⟩; omega
  | succ n ih =>
    intro s p
    rw [List.range'_succ, List.find?_cons]
    by_cases hs : f s = true
    · simp only [hs]
      constructor
      · intro h
        have : s = p := Option.some.inj h
        subst this
        exact ⟨Nat.le_refl _, by omega, hs, fun j h1 h2 => by omega⟩
      · rintro ⟨h1, _, _, h4⟩
        rcases Nat.lt_or_ge s p with h | h
        · have := h4 s (Nat.le_refl _) h
          rw [hs] at this
          exact absurd this (by decide)
        · have : s = p := by omega
          rw [this]
    · have hs2 : f s = false := by simpa using hs
      simp only [hs2]
      rw [ih (s + 1) p]
      constructor
      · rintro ⟨h1, h2, h3, h4⟩
        refine ⟨by omega, by omega, h3, fun j hj1 hj2 => ?_⟩
        rcases Nat.eq_or_lt_of_le hj1 with h | h
        · rw [← h]; exact hs2
        · exact h4 j h hj2
      · rintro ⟨h1, h2, h3, h4⟩
        have hne : s ≠ p := by
          rintro rfl
          rw [hs2] at h3
          exact absurd h3 (by decide)
        exact ⟨by omega, by omega, h3, fun j hj1 hj2 => h4 j (by omega) hj2⟩

theorem find_range_none (f : Nat → Bool) (n s : Nat) :
    (List.range' s n).find? f = none ↔ ∀ j, s ≤ j → j < s + n → f j = false := by
  rw [List.find?_eq_none]
  constructor
  · intro h j h1 h2
    have := h j (List.mem_range'_1.2 ⟨h1, h2⟩)
    simpa using this
  · intro h j hj
    have hj2 := List.mem_range'_1.1 hj
    rw [h j hj2.1 hj2.2]
    decide

theorem memcmp_eq_iff (mem : List Nat) (p : Nat) (needle : List Nat) :
    memcmp_eq mem p needle needle.length = true ↔ occursAt mem p needle := by
  simp only [memcmp_eq, List.all_eq_true, List.mem_range, beq_iff_eq, occursAt]

theorem strlen_of_nonzero (s : List Nat) (h : ∀ c ∈ s, c ≠ 0) : strlen s = s.length := by
  have := c_str_of_nonzero s h
  simp only [c_str] at this
  rw [strlen, this]

/-- The function find_char_in_range returns the first place of the character. -/
theorem find_char_in_range_some (mem : List Nat) (start end_ c p : Nat) :
    find_char_in_range mem start end_ c = some p ↔ firstChar mem start end_ c p := by
  unfold find_char_in_range firstChar
  by_cases h : start ≥ end_
  · rw [if_pos h]
    constructor
    · intro h1; exact absurd h1 (by simp)
    · rintro ⟨h1, h2, _⟩; omega
  · rw [if_neg h, find_range_some]
    have e : start + (end_ - start) = end_ := by omega
    rw [e]
    simp only [beq_iff_eq, beq_eq_false_iff_ne, ne_eq]

theorem find_char_in_range_none (mem : List Nat) (start end_ c : Nat) :
    find_char_in_range mem start end_ c = none ↔
      ∀ j, start ≤ j → j < end_ → mem.getD j 0 ≠ c := by
  unfold find_char_in_range
  by_cases h : start ≥ end_
  · rw [if_pos h]
    exact ⟨fun _ j h1 h2 => by omega, fun _ => rfl⟩
  · rw [if_neg h, find_range_none]
    have e : start + (end_ - start) = end_ := by omega
    rw [e]
    simp only [beq_eq_false_iff_ne, ne_eq]

/-- The function find_in_range returns the first place where the needle stands. -/
theorem find_in_range_some (mem : List Nat) (start end_ : Nat) (needle : List Nat)
    (hz : ∀ c ∈ needle, c ≠ 0) (hne : needle ≠ []) (k : Nat) :
    find_in_range mem start end_ needle = some k ↔ firstOccurrence mem start end_ needle k := by
  have hlen : 0 < needle.length := List.length_pos.2 hne
  unfold find_in_range firstOccurrence
  rw [strlen_of_nonzero needle hz]
  simp only []
  by_cases h1 : needle.length = 0 ∨ start ≥ end_
  · rw [if_pos h1]
    constructor
    · intro h; exact absurd h (by simp)
    · rintro ⟨a, b, _⟩; omega
  · rw [if_neg h1]
    by_cases h2 : end_ - start < needle.length
    · rw [if_pos h2]
      constructor
      · intro h; exact absurd h (by simp)
      · rintro ⟨a, b, _⟩; omega
    · rw [if_neg h2, find_range_some]
      constructor
      · rintro ⟨a, b, c, d⟩
        refine ⟨a, by omega, (memcmp_eq_iff mem k needle).1 c, fun j hj1 hj2 hocc => ?_⟩
        have := d j hj1 hj2
        rw [(memcmp_eq_iff mem j needle).2 hocc] at this
        exact absurd this (by decide)
      · rintro ⟨a, b, c, d⟩
        refine ⟨a, by omega, (memcmp_eq_iff mem k needle).2 c, fun j hj1 hj2 => ?_⟩
        by_contra hc
        exact d j hj1 hj2 ((memcmp_eq_iff mem j needle).1 (by simpa using hc))

theorem find_in_range_none (mem : List Nat) (start end_ : Nat) (needle : List Nat)
    (hz : ∀ c ∈ needle, c ≠ 0) :
    find_in_range mem start end_ needle = none ↔
      ∀ j, start ≤ j → j + needle.length ≤ end_ → needle ≠ [] → ¬ occursAt mem j needle := by
  unfold find_in_range
  rw [strlen_of_nonzero needle hz]
  simp only []
  by_cases h1 : needle.length = 0 ∨ start ≥ end_
  · rw [if_pos h1]
    refine ⟨fun _ j a b c _ => ?_, fun _ => rfl⟩
    have := List.length_pos.2 c
    omega
  · rw [if_neg h1]
    by_cases h2 : end_ - start < needle.length
    · rw [if_pos h2]
      exact ⟨fun _ j a b _ _ => by omega, fun _ => rfl⟩
    · rw [if_neg h2, find_range_none]
      constructor
      · intro h j a b _ hocc
        have := h j a (by omega)
        rw [(memcmp_eq_iff mem j needle).2 hocc] at this
        exact absurd this (by decide)
      · intro h j a b
        by_contra hc
        have hne : needle ≠ [] := by
          intro e; rw [e] at h1; exact h1 (Or.inl rfl)
        exact h j a (by omega) hne ((memcmp_eq_iff mem j needle).1 (by simpa using hc))


/-! ## Numbers in a text -/

theorem takeWhile_append_stop (p : Nat → Bool) (l r : List Nat) (hl : ∀ c ∈ l, p c = true)
    (hr : r.head?.all (fun c => !p c) = true) :
    (l ++ r).takeWhile p = l ∧ (l ++ r).dropWhile p = r := by
  rw [List.takeWhile_append_of_pos hl, List.dropWhile_append_of_pos hl]
  rcases r with _ | ⟨c, t⟩
  · exact ⟨by simp, rfl⟩
  · have hc : p c = false := by simpa using hr
    rw [List.takeWhile_cons_of_neg (by rw [hc]; decide),
      List.dropWhile_cons_of_neg (by rw [hc]; decide), List.append_nil]
    exact ⟨rfl, rfl⟩

/-- Every text splits at its number in the way numberText describes. -/
theorem numberText_exists (s : List Nat) :
    ∃ ws sign digits tail, s = ws ++ sign ++ digits ++ tail ∧ numberText ws sign digits tail := by
  have hdrop : ∀ (p : Nat → Bool) (l : List Nat),
      (l.dropWhile p).head?.all (fun c => !p c) = true := by
    intro p l
    rcases hd : l.dropWhile p with _ | ⟨c, t⟩
    · rfl
    · have := List.head_dropWhile_not p l (by rw [hd]; exact List.cons_ne_nil _ _)
      simp only [hd, List.head_cons] at this
      simp [this]
  have hsp := hdrop isspace s
  have hsplit : s = s.takeWhile isspace ++ s.dropWhile isspace :=
    (List.takeWhile_append_dropWhile isspace s).symm
  have hws : ∀ c ∈ s.takeWhile isspace, isspace c = true := fun c hc =>
    List.mem_takeWhile_imp hc
  rcases hr : s.dropWhile isspace with _ | ⟨c, t⟩
  · exact ⟨s.takeWhile isspace, [], [], [], by rw [hr] at hsplit; simpa using hsplit,
      hws, Or.inl rfl, by simp, rfl, rfl, fun _ => rfl⟩
  · rw [hr] at hsp hsplit
    have hcs : isspace c = false := by simpa using hsp
    have hdig : ∀ l : List Nat, ∀ x ∈ l.takeWhile isdigit, isdigit x = true := fun l x hx =>
      List.mem_takeWhile_imp hx
    by_cases h45 : c = 45
    · subst h45
      refine ⟨s.takeWhile isspace, [45], t.takeWhile isdigit, t.dropWhile isdigit, ?_,
        hws, Or.inr (Or.inr rfl), hdig t, hdrop isdigit t, by simp [isspace],
        fun h => absurd h (by simp)⟩
      rw [List.append_assoc, List.append_assoc, List.takeWhile_append_dropWhile]
      exact hsplit
    · by_cases h43 : c = 43
      · subst h43
        refine ⟨s.takeWhile isspace, [43], t.takeWhile isdigit, t.dropWhile isdigit, ?_,
          hws, Or.inr (Or.inl rfl), hdig t, hdrop isdigit t, by simp [isspace],
          fun h => absurd h (by simp)⟩
        rw [List.append_assoc, List.append_assoc, List.takeWhile_append_dropWhile]
        exact hsplit
      · refine ⟨s.takeWhile isspace, [], (c :: t).takeWhile isdigit,
          (c :: t).dropWhile isdigit, ?_, hws, Or.inl rfl, hdig _, hdrop isdigit _, ?_, ?_⟩
        · rw [List.append_nil, List.append_assoc, List.takeWhile_append_dropWhile]
          exact hsplit
        · rw [List.nil_append, List.takeWhile_append_dropWhile]
          simpa using hcs
        · intro _
          rw [List.takeWhile_append_dropWhile]
          simp [h45, h43]

/-- The result of strtoull in base 10 read off the split of its text. -/
theorem strtoull_base10_parts (ws sign digits tail : List Nat)
    (h : numberText ws sign digits tail) :
    strtoull_base10 (ws ++ sign ++ digits ++ tail)
      = if digits = [] then ⟨0, 0, 0⟩
        else if (decimalValue digits : Int) > ULONG_MAX then
          ⟨ULONG_MAX, ws.length + sign.length + digits.length, ERANGE⟩
        else if sign = [45] then
          ⟨(-(decimalValue digits : Int)) % (ULONG_MAX + 1),
            ws.length + sign.length + digits.length, 0⟩
        else ⟨(decimalValue digits : Int), ws.length + sign.length + digits.length, 0⟩ := by
  obtain ⟨hws, hsign, hdig, htail, hhead, hnosign⟩ := h
  have hw := takeWhile_append_stop isspace ws (sign ++ digits ++ tail) hws hhead
  have hd := takeWhile_append_stop isdigit digits tail hdig htail
  have e : ws ++ sign ++ digits ++ tail = ws ++ (sign ++ digits ++ tail) := by
    simp only [List.append_assoc]
  unfold strtoull_base10
  rw [e]
  simp only [hw.1, hw.2]
  rcases hsign with rfl | rfl | rfl
  · have hh := hnosign rfl
    have h45 : ((digits ++ tail).head? == some 45) = false := by
      rcases hx : digits ++ tail with _ | ⟨c, t⟩
      · rfl
      · rw [hx] at hh
        simp only [List.head?_cons, Option.all_some, Bool.and_eq_true, bne_iff_ne, ne_eq] at hh
        simp [hh.2]
    have h43 : ((digits ++ tail).head? == some 43) = false := by
      rcases hx : digits ++ tail with _ | ⟨c, t⟩
      · rfl
      · rw [hx] at hh
        simp only [List.head?_cons, Option.all_some, Bool.and_eq_true, bne_iff_ne, ne_eq] at hh
        simp [hh.1]
    have es : (([] : List Nat) = [45]) = False := by simp
    simp only [List.nil_append, h45, h43, Bool.or_self, Bool.false_eq_true, if_false, hd.1,
      foldl_decimal, Nat.zero_mul, Nat.zero_add, List.length_nil, Nat.add_zero, es]
  · have h45 : (((43 : Nat) :: (digits ++ tail)).head? == some 45) = false := by simp
    have h43 : (((43 : Nat) :: (digits ++ tail)).head? == some 43) = true := by
      simp
    have es : (([43] : List Nat) = [45]) = False := by simp
    simp only [List.singleton_append, List.cons_append, List.nil_append, h45, h43, Bool.false_or,
      Bool.false_eq_true, if_true, if_false, List.drop_succ_cons, List.drop_zero, hd.1,
      foldl_decimal, Nat.zero_mul, Nat.zero_add, List.length_singleton, es]
  · have h45 : (((45 : Nat) :: (digits ++ tail)).head? == some 45) = true := by simp
    simp only [List.singleton_append, List.cons_append, List.nil_append, h45, Bool.true_or,
      if_true, List.drop_succ_cons, List.drop_zero, hd.1,
      foldl_decimal, Nat.zero_mul, Nat.zero_add, List.length_singleton]


/-! ## The JSON number parser -/

theorem jsonKey_props (field : List Nat) (hfz : ∀ c ∈ field, c ≠ 0) :
    (∀ c ∈ jsonKey field, c ≠ 0) ∧ jsonKey field ≠ [] ∧
    (jsonKey field).length = field.length + 2 := by
  refine ⟨fun c hc => ?_, by simp [jsonKey], by simp [jsonKey]⟩
  simp only [jsonKey, List.mem_append, List.mem_singleton] at hc
  rcases hc with (rfl | hc) | rfl
  · decide
  · exact hfz c hc
  · decide

/-- The result of parse_json_u64_field where the key and a colon are found. -/
theorem parse_json_u64_field_eval (mem : List Nat) (obj_start obj_end : Nat)
    (field : List Nat) (out : Nat) (hfz : ∀ c ∈ field, c ≠ 0) (hlen : field.length < 62)
    (k colon : Nat) (ws sign digits tail : List Nat)
    (h : numberField mem obj_start obj_end field k colon ws sign digits tail) :
    parse_json_u64_field mem obj_start obj_end field out
      = if digits = [] ∨ (decimalValue digits : Int) > ULONG_MAX ∨
            colon + 1 + (ws.length + sign.length + digits.length) > obj_end then (-1, out)
        else (0, if sign = [45] then ((-(decimalValue digits : Int)) % (ULONG_MAX + 1)).toNat
                 else decimalValue digits) := by
  obtain ⟨hk, hc, hdrop, hnum⟩ := h
  obtain ⟨hkz, hkne, hklen⟩ := jsonKey_props field hfz
  have hfind := (find_in_range_some mem obj_start obj_end (jsonKey field) hkz hkne k).2 hk
  have hcol := (find_char_in_range_some mem k obj_end 58 colon).2 hc
  have hlt : ¬ obj_start ≥ obj_end := by
    have := hk.1; have := hk.2.1
    omega
  have hparts := strtoull_base10_parts ws sign digits tail hnum
  unfold parse_json_u64_field
  rw [if_neg hlt, c_str_of_nonzero field hfz, if_neg (by omega)]
  simp only []
  rw [show [34] ++ field ++ [34] = jsonKey field from rfl, hfind]
  simp only [hcol, hdrop, hparts]
  by_cases hd : digits = []
  · simp [hd]
  · by_cases hov : (decimalValue digits : Int) > ULONG_MAX
    · simp [hd, hov, ERANGE]
    · by_cases hs : sign = [45]
      · simp only [hd, hov, hs, if_true, if_false, false_or]
        by_cases he : colon + 1 + (ws.length + [45].length + digits.length) > obj_end
        · have he2 : (0 : Int) ≠ 0 ∨ ws.length + [45].length + digits.length = 0 ∨
              colon + 1 + (ws.length + [45].length + digits.length) > obj_end :=
            Or.inr (Or.inr he)
          rw [if_pos he2, if_pos he]
        · have hpos : ws.length + [45].length + digits.length ≠ 0 := by
            have := List.length_pos.2 hd
            omega
          have he2 : ¬ ((0 : Int) ≠ 0 ∨ ws.length + [45].length + digits.length = 0 ∨
              colon + 1 + (ws.length + [45].length + digits.length) > obj_end) := by
            simp only [ne_eq, not_true_eq_false, false_or, not_or]
            exact ⟨hpos, he⟩
          rw [if_neg he2, if_neg he]
      · simp only [hd, hov, hs, if_false, false_or]
        by_cases he : colon + 1 + (ws.length + sign.length + digits.length) > obj_end
        · have he2 : (0 : Int) ≠ 0 ∨ ws.length + sign.length + digits.length = 0 ∨
              colon + 1 + (ws.length + sign.length + digits.length) > obj_end :=
            Or.inr (Or.inr he)
          rw [if_pos he2, if_pos he]
        · have hpos : ws.length + sign.length + digits.length ≠ 0 := by
            have := List.length_pos.2 hd
            omega
          have he2 : ¬ ((0 : Int) ≠ 0 ∨ ws.length + sign.length + digits.length = 0 ∨
              colon + 1 + (ws.length + sign.length + digits.length) > obj_end) := by
            simp only [ne_eq, not_true_eq_false, false_or, not_or]
            exact ⟨hpos, he⟩
          rw [if_neg he2, if_neg he]
          rfl

/-- Where parse_json_u64_field does not fail for want of a key or a colon, its text
is a number field. -/
theorem parse_json_u64_field_cases (mem : List Nat) (obj_start obj_end : Nat)
    (field : List Nat) (out : Nat) (hfz : ∀ c ∈ field, c ≠ 0) :
    parse_json_u64_field mem obj_start obj_end field out = (-1, out) ∨
    (field.length < 62 ∧ ∃ k colon ws sign digits tail,
      numberField mem obj_start obj_end field k colon ws sign digits tail) := by
  obtain ⟨hkz, hkne, _⟩ := jsonKey_props field hfz
  unfold parse_json_u64_field
  by_cases h1 : obj_start ≥ obj_end
  · rw [if_pos h1]; exact Or.inl rfl
  rw [if_neg h1, c_str_of_nonzero field hfz]
  by_cases h2 : field.length + 2 ≥ 64
  · rw [if_pos h2]; exact Or.inl rfl
  rw [if_neg h2]
  simp only []
  rw [show [34] ++ field ++ [34] = jsonKey field from rfl]
  rcases hf : find_in_range mem obj_start obj_end (jsonKey field) with _ | k
  · exact Or.inl rfl
  simp only []
  rcases hc : find_char_in_range mem k obj_end 58 with _ | colon
  · exact Or.inl rfl
  right
  obtain ⟨ws, sign, digits, tail, hsplit, hnum⟩ := numberText_exists (mem.drop (colon + 1))
  exact ⟨by omega, k, colon, ws, sign, digits, tail,
    (find_in_range_some mem obj_start obj_end (jsonKey field) hkz hkne k).1 hf,
    (find_char_in_range_some mem k obj_end 58 colon).1 hc, hsplit, hnum⟩


theorem firstOccurrence_unique (mem : List Nat) (start end_ : Nat) (needle : List Nat)
    (k1 k2 : Nat) (h1 : firstOccurrence mem start end_ needle k1)
    (h2 : firstOccurrence mem start end_ needle k2) : k1 = k2 := by
  rcases Nat.lt_trichotomy k1 k2 with h | h | h
  · exact absurd h1.2.2.1 (h2.2.2.2 k1 h1.1 h)
  · exact h
  · exact absurd h2.2.2.1 (h1.2.2.2 k2 h2.1 h)

/-! ## Claims about the JSON field parsers -/

/-- C31 as stated does not hold: on the object text with "used":-5 the function
returns 0, and what it stores is not the decimal value 5 of the digits but
18446744073709551611, the negated value modulo 2^64, as strtoull defines it for a
minus sign. -/
theorem C31_negative_number_counterexample :
    parse_json_u64_field jsonNegative 0 jsonNegative.length (text "used") 0
      = (0, 18446744073709551611) ∧
    decimalValue (text "5") = 5 := by
  decide

/-- C31, amended: parse_json_u64_field honours the object bound.  It returns 0 only
if the key, the first colon from the key on and all digits of the number behind that
colon (after optional white space and an optional sign) lie inside [obj_start,
obj_end); it then stores the decimal value of the digits, or, when a minus sign
precedes them, that value negated modulo 2^64.  When the key is missing, no colon
follows it, no digit follows the colon, or the digits extend past obj_end, it returns
-1, and whenever it does not return 0 it returns -1 and leaves the output unchanged. -/
theorem C31_parse_json_u64_field (mem : List Nat) (obj_start obj_end : Nat)
    (field : List Nat) (out : Nat) (hfz : ∀ c ∈ field, c ≠ 0) :
    ((parse_json_u64_field mem obj_start obj_end field out).1 = 0 →
      ∃ k colon ws sign digits tail,
        numberField mem obj_start obj_end field k colon ws sign digits tail ∧
        digits ≠ [] ∧ obj_start ≤ k ∧ k + (jsonKey field).length ≤ obj_end ∧
        k ≤ colon ∧ colon < obj_end ∧
        colon + 1 + (ws.length + sign.length + digits.length) ≤ obj_end ∧
        (parse_json_u64_field mem obj_start obj_end field out).2
          = (if sign = [45] then
              ((-(decimalValue digits : Int)) % 18446744073709551616).toNat
            else decimalValue digits)) ∧
    ((parse_json_u64_field mem obj_start obj_end field out).1 ≠ 0 →
      parse_json_u64_field mem obj_start obj_end field out = (-1, out)) ∧
    ((∀ k, ¬ firstOccurrence mem obj_start obj_end (jsonKey field) k) →
      parse_json_u64_field mem obj_start obj_end field out = (-1, out)) ∧
    (∀ k, firstOccurrence mem obj_start obj_end (jsonKey field) k →
      (∀ colon, ¬ firstChar mem k obj_end 58 colon) →
      parse_json_u64_field mem obj_start obj_end field out = (-1, out)) ∧
    (∀ k colon ws sign digits tail,
      numberField mem obj_start obj_end field k colon ws sign digits tail →
      (digits = [] ∨ colon + 1 + (ws.length + sign.length + digits.length) > obj_end) →
      parse_json_u64_field mem obj_start obj_end field out = (-1, out)) ∧
    (∀ k colon ws digits tail,
      numberField mem obj_start obj_end field k colon ws [] digits tail →
      field.length < 62 → digits ≠ [] → decimalValue digits < 18446744073709551616 →
      colon + 1 + (ws.length + digits.length) ≤ obj_end →
      parse_json_u64_field mem obj_start obj_end field out = (0, decimalValue digits)) := by
  have hcases := parse_json_u64_field_cases mem obj_start obj_end field out hfz
  have hlong : ¬ field.length < 62 →
      parse_json_u64_field mem obj_start obj_end field out = (-1, out) := by
    intro h
    rcases hcases with h1 | ⟨h1, _⟩
    · exact h1
    · exact absurd h1 h
  refine ⟨?_, ?_, ?_, ?_, ?_, ?_⟩
  · intro hret
    rcases hcases with h1 | ⟨hlen, k, colon, ws, sign, digits, tail, hnf⟩
    · rw [h1] at hret
      exact absurd hret (by simp)
    · have hev := parse_json_u64_field_eval mem obj_start obj_end field out hfz hlen k colon
        ws sign digits tail hnf
      by_cases hc : digits = [] ∨ (decimalValue digits : Int) > ULONG_MAX ∨
          colon + 1 + (ws.length + sign.length + digits.length) > obj_end
      · rw [hev, if_pos hc] at hret
        exact absurd hret (by simp)
      · rw [if_neg hc] at hev
        simp only [not_or] at hc
        refine ⟨k, colon, ws, sign, digits, tail, hnf, hc.1, hnf.1.1, hnf.1.2.1, hnf.2.1.1,
          hnf.2.1.2.1, by omega, ?_⟩
        rw [hev]
        rfl
  · intro hret
    rcases hcases with h1 | ⟨hlen, k, colon, ws, sign, digits, tail, hnf⟩
    · exact h1
    · have hev := parse_json_u64_field_eval mem obj_start obj_end field out hfz hlen k colon
        ws sign digits tail hnf
      by_cases hc : digits = [] ∨ (decimalValue digits : Int) > ULONG_MAX ∨
          colon + 1 + (ws.length + sign.length + digits.length) > obj_end
      · rw [hev, if_pos hc]
      · rw [hev, if_neg hc] at hret
        exact absurd rfl hret
  · intro hno
    rcases hcases with h1 | ⟨_, k, _, _, _, _, _, hnf⟩
    · exact h1
    · exact absurd hnf.1 (hno k)
  · intro k hk hno
    rcases hcases with h1 | ⟨_, k1, colon, _, _, _, _, hnf⟩
    · exact h1
    · have e := firstOccurrence_unique _ _ _ _ _ _ hnf.1 hk
      rw [e] at hnf
      exact absurd hnf.2.1 (hno colon)
  · intro k colon ws sign digits tail hnf hbad
    by_cases hlen : field.length < 62
    · rw [parse_json_u64_field_eval mem obj_start obj_end field out hfz hlen k colon
        ws sign digits tail hnf, if_pos]
      rcases hbad with h | h
      · exact Or.inl h
      · exact Or.inr (Or.inr h)
    · exact hlong hlen
  · intro k colon ws digits tail hnf hlen hd hv hin
    rw [parse_json_u64_field_eval mem obj_start obj_end field out hfz hlen k colon
      ws [] digits tail hnf, if_neg, if_neg (by simp)]
    simp only [not_or, ULONG_MAX, List.length_nil, Nat.add_zero]
    exact ⟨hd, by omega, by omega⟩

/-- Witness of C31: the field "used" of the object text of the parser tests. -/
theorem C31_parse_json_u64_field_witness :
    ∃ k colon ws sign digits tail,
        numberField jsonObject 0 jsonObject.length (text "used") k colon ws sign digits tail ∧
        digits ≠ [] ∧ 0 ≤ k ∧ k + (jsonKey (text "used")).length ≤ jsonObject.length ∧
        k ≤ colon ∧ colon < jsonObject.length ∧
        colon + 1 + (ws.length + sign.length + digits.length) ≤ jsonObject.length ∧
        (parse_json_u64_field jsonObject 0 jsonObject.length (text "used") 0).2
          = (if sign = [45] then
              ((-(decimalValue digits : Int)) % 18446744073709551616).toNat
            else decimalValue digits) :=
  (C31_parse_json_u64_field jsonObject 0 jsonObject.length (text "used") 0 (by decide)).1
    (by decide)


/-! ## The JSON string parser -/

theorem storage_set_count (st : PveState) (idx : Int) (e : StorageEntry) :
    (storage_set st idx e).metrics.storage_count = st.metrics.storage_count := by
  unfold storage_set
  split <;> rfl

/-- One iteration of the scan loop that does not leave the loop moves the scan
position forward, not beyond the end of the buffer, and adds at most one entry. -/
theorem storage_scan_body_progress (mem : List Nat) (buf_end p : Nat) (st : PveState)
    (next : Nat × PveState) (h : storage_scan_body mem buf_end p st = some next) :
    p < next.1 ∧ next.1 ≤ buf_end ∧
    (next.2.metrics.storage_count = st.metrics.storage_count ∨
      next.2.metrics.storage_count = st.metrics.storage_count + 1) := by
  have hkey : ([34] ++ text "storage" ++ [34] : List Nat) = jsonKey (text "storage") := rfl
  have hkp := jsonKey_props (text "storage") (by decide)
  have hklen : (jsonKey (text "storage")).length = 9 := by decide
  unfold storage_scan_body at h
  rw [hkey] at h
  rcases hf : find_in_range mem p buf_end (jsonKey (text "storage")) with _ | storage_key
  · rw [hf] at h
    exact absurd h (by simp)
  rw [hf] at h
  simp only [] at h
  have hocc := (find_in_range_some mem p buf_end _ hkp.1 hkp.2.1 storage_key).1 hf
  have h1 : p ≤ storage_key := hocc.1
  have h2 : storage_key + 9 ≤ buf_end := by
    have := hocc.2.1
    rw [hklen] at this
    exact this
  by_cases hb : mem.getD (scan_back mem storage_key) 0 ≠ 123
  · rw [if_pos hb] at h
    have e := Option.some.inj h
    rw [← e]
    exact ⟨by show p < storage_key + 9; omega, h2, Or.inl rfl⟩
  rw [if_neg hb] at h
  rcases hc : find_char_in_range mem storage_key buf_end 125 with _ | brace
  · rw [hc] at h
    exact absurd h (by simp)
  rw [hc] at h
  simp only [] at h
  have hbr := (find_char_in_range_some mem storage_key buf_end 125 brace).1 hc
  have h3 : storage_key ≤ brace := hbr.1
  have h4 : brace < buf_end := hbr.2.1
  split at h
  · have e := Option.some.inj h
    rw [← e]
    exact ⟨by show p < brace + 1; omega, h4, Or.inl rfl⟩
  · have e := Option.some.inj h
    rw [← e]
    refine ⟨by show p < brace + 1; omega, h4, Or.inr ?_⟩
    have key : ∀ (c : Prop) [Decidable c] (a b : PveState) (n : Int),
        a.metrics.storage_count = n → b.metrics.storage_count = n →
        (if c then a else b).metrics.storage_count = n := by
      intro c _ a b n ha hb
      split <;> assumption
    show (if _ then _ else _ : PveState).metrics.storage_count + 1
      = st.metrics.storage_count + 1
    rw [key _ _ _ st.metrics.storage_count (by simp only [storage_set_count])
      (by simp only [storage_set_count])]

/-- The scan loop ends within `buf_end - p + 1` iterations. -/
theorem storage_scan_terminates (mem : List Nat) (buf_end : Nat) :
    ∀ (fuel p : Nat) (st : PveState), buf_end - p < fuel →
      ∃ st1, storage_scan mem buf_end fuel p st = some st1 ∧
        ∀ fuel2, buf_end - p < fuel2 → storage_scan mem buf_end fuel2 p st = some st1 := by
  intro fuel
  induction fuel with
  | zero => intro p st h; omega
  | succ fuel ih =>
    intro p st h
    by_cases hc : st.metrics.storage_count < 8
    · rcases hb : storage_scan_body mem buf_end p st with _ | next
      · refine ⟨st, ?_, fun fuel2 h2 => ?_⟩
        · simp only [storage_scan, hc, if_true, hb]
        · obtain ⟨f, rfl⟩ : ∃ f, fuel2 = f + 1 := ⟨fuel2 - 1, by omega⟩
          simp only [storage_scan, hc, if_true, hb]
      · have hp := storage_scan_body_progress mem buf_end p st next hb
        obtain ⟨st1, h1, h2⟩ := ih next.1 next.2 (by omega)
        refine ⟨st1, ?_, fun fuel2 hf2 => ?_⟩
        · simp only [storage_scan, hc, if_true, hb]
          exact h1
        · obtain ⟨f, rfl⟩ : ∃ f, fuel2 = f + 1 := ⟨fuel2 - 1, by omega⟩
          simp only [storage_scan, hc, if_true, hb]
          exact h2 f (by omega)
    · refine ⟨st, ?_, fun fuel2 h2 => ?_⟩
      · simp only [storage_scan, hc, if_false]
      · obtain ⟨f, rfl⟩ : ∃ f, fuel2 = f + 1 := ⟨fuel2 - 1, by omega⟩
        simp only [storage_scan, hc, if_false]

/-! ## Claims about the storage scan loop -/

/-- C33: the storage-object scan loop of get_pve_storage terminates for every buffer
content.  Each iteration either leaves the loop or moves the scan position p strictly
forward, never beyond the end of the buffer, and appends at most one entry; so from
position p the loop ends within buf_end - p + 1 iterations, with a result that no
further allowance changes, and get_pve_storage returns for every command output once
16384 iterations are allowed (its buffer holds at most 16383 bytes). -/
theorem C33_storage_scan_terminates (mem : List Nat) (buf_end p : Nat) (st : PveState) :
    (∀ next, storage_scan_body mem buf_end p st = some next →
      p < next.1 ∧ next.1 ≤ buf_end ∧
      (next.2.metrics.storage_count = st.metrics.storage_count ∨
        next.2.metrics.storage_count = st.metrics.storage_count + 1)) ∧
    (∃ st1, storage_scan mem buf_end (buf_end - p + 1) p st = some st1 ∧
      ∀ fuel, buf_end - p < fuel → storage_scan mem buf_end fuel p st = some st1) ∧
    (∀ (popen : Popen) (fuel : Nat), 16384 ≤ fuel →
      ∃ st1, get_pve_storage popen fuel st = some st1 ∧
        get_pve_storage popen 16384 st = some st1) := by
  refine ⟨fun next h => storage_scan_body_progress mem buf_end p st next h,
    storage_scan_terminates mem buf_end (buf_end - p + 1) p st (by omega),
    fun popen fuel hfuel => ?_⟩
  unfold get_pve_storage
  simp only []
  rcases popen (pvesh_cmd st.metrics.node_name) with _ | ⟨output, status⟩
  · exact ⟨_, rfl, rfl⟩
  · simp only []
    by_cases hs : status = 0 ∧ (List.take 16383 output).length > 2
    · rw [if_pos hs, if_pos hs]
      have hlen : (List.take 16383 output).length ≤ 16383 := by
        rw [List.length_take]
        omega
      obtain ⟨st1, _, h2⟩ := storage_scan_terminates (List.take 16383 output)
        (List.take 16383 output).length 16384 0
        { st with metrics := { st.metrics with storage_count := 0 } } (by omega)
      rw [h2 fuel (by omega), h2 16384 (by omega)]
      simp only []
      split
      · exact ⟨_, rfl, rfl⟩
      · exact ⟨_, rfl, rfl⟩
    · rw [if_neg hs, if_neg hs]
      exact ⟨_, rfl, rfl⟩


/-! ## The hexadecimal helper of cli.c -/

theorem hexValue_cons (c : Nat) (t : List Nat) :
    hexValue (c :: t) = (hex_digit c).getD 0 * 16 ^ t.length + hexValue t := by
  simp only [hexValue, List.map_cons, List.reverse_cons, Nat.ofDigits_append,
    Nat.ofDigits_singleton, List.length_reverse, List.length_map]
  ring

theorem foldl_hex (l : List Nat) : ∀ a : Nat,
    l.foldl (fun a c => 16 * a + (hex_digit c).getD 0) a = a * 16 ^ l.length + hexValue l := by
  induction l with
  | nil => intro a; simp [hexValue]
  | cons c t ih =>
    intro a
    rw [List.foldl_cons, ih, hexValue_cons, List.length_cons]
    ring

theorem sign_split (rest : List Nat) : ∃ sign rest1, rest = sign ++ rest1 ∧
    (sign = [] ∨ sign = [43] ∨ sign = [45]) ∧
    (rest.head? == some 45) = decide (sign = [45]) ∧
    (if (rest.head? == some 45 || rest.head? == some 43) = true then rest.drop 1 else rest)
      = rest1 ∧
    (if (rest.head? == some 45 || rest.head? == some 43) = true then 1 else 0) = sign.length := by
  rcases rest with _ | ⟨c, t⟩
  · exact ⟨[], [], rfl, Or.inl rfl, rfl, rfl, rfl⟩
  · by_cases h45 : c = 45
    · subst h45
      exact ⟨[45], t, rfl, Or.inr (Or.inr rfl), rfl, rfl, rfl⟩
    · by_cases h43 : c = 43
      · subst h43
        exact ⟨[43], t, rfl, Or.inr (Or.inl rfl), rfl, rfl, rfl⟩
      · refine ⟨[], c :: t, rfl, Or.inl rfl, ?_, ?_, ?_⟩ <;> simp [h45, h43]

theorem prefix_split (rest : List Nat) : ∃ pre rest1, rest = pre ++ rest1 ∧
    (pre = [] ∨ pre = [48, 120] ∨ pre = [48, 88]) ∧
    (if (rest.head? == some 48 &&
          ((rest.drop 1).head? == some 120 || (rest.drop 1).head? == some 88) &&
          (((rest.drop 2).head?.bind hex_digit).isSome)) = true then rest.drop 2 else rest)
      = rest1 ∧
    (if (rest.head? == some 48 &&
          ((rest.drop 1).head? == some 120 || (rest.drop 1).head? == some 88) &&
          (((rest.drop 2).head?.bind hex_digit).isSome)) = true then 2 else 0) = pre.length := by
  by_cases hp : (rest.head? == some 48 &&
      ((rest.drop 1).head? == some 120 || (rest.drop 1).head? == some 88) &&
      (((rest.drop 2).head?.bind hex_digit).isSome)) = true
  · rw [if_pos hp, if_pos hp]
    rcases rest with _ | ⟨a, _ | ⟨x, t⟩⟩
    · exact absurd hp (by simp)
    · exact absurd hp (by simp)
    · simp only [List.head?_cons, List.drop_succ_cons, List.drop_zero, Bool.and_eq_true,
        beq_iff_eq, Option.some.injEq, Bool.or_eq_true] at hp
      obtain ⟨⟨ha, hx⟩, _⟩ := hp
      subst ha
      rcases hx with rfl | rfl
      · exact ⟨[48, 120], t, rfl, Or.inr (Or.inl rfl), rfl, rfl⟩
      · exact ⟨[48, 88], t, rfl, Or.inr (Or.inr rfl), rfl, rfl⟩
  · rw [if_neg hp, if_neg hp]
    exact ⟨[], rest, rfl, Or.inl rfl, rfl, rfl⟩

/-- The text of strtoul in base 16 splits into white space, a sign, a prefix, digits
and a rest that does not start with a digit; the result is read off the parts. -/
theorem strtoul_base16_spec (nptr : List Nat) :
    ∃ ws sign pre digits tail, nptr = ws ++ sign ++ pre ++ digits ++ tail ∧
      (∀ c ∈ ws, isspace c = true) ∧ (sign = [] ∨ sign = [43] ∨ sign = [45]) ∧
      (pre = [] ∨ pre = [48, 120] ∨ pre = [48, 88]) ∧ allHex digits ∧
      strtoul_base16 nptr
        = if digits = [] then ⟨0, 0, 0⟩
          else if (hexValue digits : Int) > ULONG_MAX then
            ⟨ULONG_MAX, ws.length + sign.length + pre.length + digits.length, ERANGE⟩
          else if sign = [45] then
            ⟨(-(hexValue digits : Int)) % (ULONG_MAX + 1),
              ws.length + sign.length + pre.length + digits.length, 0⟩
          else ⟨(hexValue digits : Int),
              ws.length + sign.length + pre.length + digits.length, 0⟩ := by
  obtain ⟨sign, rest1, hrest, hsign, hneg, hdrop, hlen⟩ := sign_split (nptr.dropWhile isspace)
  obtain ⟨pre, rest2, hrest2, hpre, hdrop2, hlen2⟩ := prefix_split rest1
  refine ⟨nptr.takeWhile isspace, sign, pre,
    rest2.takeWhile (fun c => (hex_digit c).isSome),
    rest2.dropWhile (fun c => (hex_digit c).isSome), ?_, ?_, hsign, hpre, ?_, ?_⟩
  · rw [List.append_assoc _ _ (List.dropWhile _ rest2), List.takeWhile_append_dropWhile,
      List.append_assoc _ pre, ← hrest2, List.append_assoc, ← hrest,
      List.takeWhile_append_dropWhile]
  · intro c hc
    exact List.mem_takeWhile_imp hc
  · intro c hc
    exact @List.mem_takeWhile_imp Nat (fun c => (hex_digit c).isSome) rest2 c hc
  · unfold strtoul_base16
    simp only [hdrop, hlen]
    simp only [hdrop2, hlen2]
    simp only [hneg]
    by_cases hdig : rest2.takeWhile (fun c => (hex_digit c).isSome) = []
    · simp only [hdig, if_true]
    · simp only [hdig, if_false, foldl_hex, Nat.zero_mul, Nat.zero_add]
      by_cases hov : (hexValue (rest2.takeWhile (fun c => (hex_digit c).isSome)) : Int)
          > ULONG_MAX
      · simp only [hov, if_true]
      · simp only [hov, if_false]
        by_cases hs : sign = [45]
        · simp only [hs, decide_True, if_true]
        · simp only [hs, decide_False, Bool.false_eq_true, if_false]


theorem hex_digit_range (c : Nat) (h : (hex_digit c).isSome = true) :
    ((48 ≤ c ∧ c ≤ 57) ∨ (97 ≤ c ∧ c ≤ 102) ∨ (65 ≤ c ∧ c ≤ 70)) ∧ (hex_digit c).getD 0 < 16 := by
  unfold hex_digit at h ⊢
  split
  · exact ⟨by omega, by simp only [Option.getD_some]; omega⟩
  · split
    · exact ⟨by omega, by simp only [Option.getD_some]; omega⟩
    · split
      · exact ⟨by omega, by simp only [Option.getD_some]; omega⟩
      · rename_i h1 h2 h3
        rw [if_neg h1, if_neg h2, if_neg h3] at h
        exact absurd h (by simp)

theorem hexValue_lt (digits : List Nat) (h : allHex digits) :
    hexValue digits < 16 ^ digits.length := by
  have := Nat.ofDigits_lt_base_pow_length (b := 16)
    (l := (digits.map (fun c => (hex_digit c).getD 0)).reverse) (by decide)
    (by
      intro x hx
      rw [List.mem_reverse] at hx
      obtain ⟨c, hc, rfl⟩ := List.mem_map.1 hx
      exact (hex_digit_range c (h c hc)).2)
  rw [List.length_reverse, List.length_map] at this
  exact this

/-- The conversion of a text that consists of hexadecimal digits only. -/
theorem strtoul_base16_digits (digits : List Nat) (h : allHex digits) (hne : digits ≠ []) :
    strtoul_base16 digits
      = if (hexValue digits : Int) > ULONG_MAX then ⟨ULONG_MAX, digits.length, ERANGE⟩
        else ⟨(hexValue digits : Int), digits.length, 0⟩ := by
  obtain ⟨d, t, rfl⟩ := List.exists_cons_of_ne_nil hne
  have hd := (hex_digit_range d (h d (List.mem_cons_self d t))).1
  have hsp : isspace d = false := by
    simp only [isspace, Bool.or_eq_false_iff, beq_eq_false_iff_ne, Bool.and_eq_false_iff,
      decide_eq_false_iff_not]
    omega
  have h1 : (d :: t).takeWhile isspace = [] :=
    List.takeWhile_cons_of_neg (by rw [hsp]; decide)
  have h2 : (d :: t).dropWhile isspace = d :: t :=
    List.dropWhile_cons_of_neg (by rw [hsp]; decide)
  have hb45 : (some d == some 45) = false := by
    have : d ≠ 45 := by omega
    simp [this]
  have hb43 : (some d == some 43) = false := by
    have : d ≠ 43 := by omega
    simp [this]
  have hx : (t.head? == some 120 || t.head? == some 88) = false := by
    rcases t with _ | ⟨x, t⟩
    · rfl
    · have hxr := (hex_digit_range x (h x (by simp))).1
      have e1 : x ≠ 120 := by omega
      have e2 : x ≠ 88 := by omega
      simp [e1, e2]
  have htw : (d :: t).takeWhile (fun c => (hex_digit c).isSome) = d :: t :=
    takeWhile_all _ _ h
  unfold strtoul_base16
  simp only [h1, h2, List.head?_cons, hb45, hb43, Bool.or_self, Bool.false_eq_true, if_false,
    List.drop_succ_cons, List.drop_zero, hx, Bool.and_false, Bool.false_and, htw, hne,
    foldl_hex, Nat.zero_mul, Nat.zero_add, List.length_nil, Nat.add_zero]

theorem parse_hex_u16_accepts (digits : List Nat) (v0 : Nat) (h : allHex digits)
    (hne : digits ≠ []) (hv : hexValue digits ≤ 65535) :
    parse_hex_u16 (some digits) (some v0) = (0, some (hexValue digits)) := by
  have hres := strtoul_base16_digits digits h hne
  rw [if_neg (by simp only [ULONG_MAX]; omega)] at hres
  obtain ⟨d, t, rfl⟩ := List.exists_cons_of_ne_nil hne
  have hd := (hex_digit_range d (h d (List.mem_cons_self d t))).1
  have hfirst : (d :: t).getD 0 0 ≠ 0 := by
    rw [List.getD_cons_zero]; omega
  have hend : (d :: t).getD (d :: t).length 0 = 0 := by
    have := getD_append_length (d :: t) []
    rw [List.append_nil] at this
    exact this
  simp only [parse_hex_u16]
  rw [if_neg hfirst, hres]
  simp only []
  rw [if_neg]
  · simp only [cast_uint16]
    congr 2
    omega
  · simp only [not_or, not_not, not_lt, UINT16_MAX, gt_iff_lt]
    exact ⟨by decide, by simp, hend, by omega⟩

theorem parse_hex_u16_too_large (digits : List Nat) (v0 : Nat) (h : allHex digits)
    (hv : 65535 < hexValue digits) :
    parse_hex_u16 (some digits) (some v0) = (-1, some v0) := by
  have hne : digits ≠ [] := by
    rintro rfl
    exact absurd hv (by decide)
  have hres := strtoul_base16_digits digits h hne
  simp only [parse_hex_u16]
  split
  · rfl
  · rw [hres]
    by_cases hov : (hexValue digits : Int) > ULONG_MAX
    · rw [if_pos hov, if_pos (Or.inl (by simp [ERANGE]))]
    · rw [if_neg hov, if_pos (Or.inr (Or.inr (Or.inr (by
        simp only [UINT16_MAX, gt_iff_lt]; omega))))]

/-- What parse_hex_u16 does on a text without inner terminator: either it fails and
leaves the output, or the text is white space, a sign, a prefix and digits to its end,
and the value stored is at most 0xFFFF. -/
theorem parse_hex_u16_cases (arg : List Nat) (v0 : Nat) (hz : ∀ c ∈ arg, c ≠ 0) :
    parse_hex_u16 (some arg) (some v0) = (-1, some v0) ∨
    ∃ ws sign pre digits, arg = ws ++ sign ++ pre ++ digits ∧
      (∀ c ∈ ws, isspace c = true) ∧ (sign = [] ∨ sign = [43] ∨ sign = [45]) ∧
      (pre = [] ∨ pre = [48, 120] ∨ pre = [48, 88]) ∧ allHex digits ∧ digits ≠ [] ∧
      (if sign = [45] then ((-(hexValue digits : Int)) % 18446744073709551616).toNat
        else hexValue digits) ≤ 65535 ∧
      parse_hex_u16 (some arg) (some v0)
        = (0, some (if sign = [45] then
              ((-(hexValue digits : Int)) % 18446744073709551616).toNat
            else hexValue digits)) := by
  obtain ⟨ws, sign, pre, digits, tail, harg, hws, hsign, hpre, hdig, hres⟩ :=
    strtoul_base16_spec arg
  by_cases hrej : parse_hex_u16 (some arg) (some v0) = (-1, some v0)
  · exact Or.inl hrej
  right
  simp only [parse_hex_u16] at hrej ⊢
  by_cases h0 : arg.getD 0 0 = 0
  · exact absurd (by rw [if_pos h0]) hrej
  rw [if_neg h0] at hrej ⊢
  by_cases hc : (strtoul_base16 arg).errno ≠ 0 ∨ (strtoul_base16 arg).endptr = 0 ∨
      arg.getD (strtoul_base16 arg).endptr 0 ≠ 0 ∨ (strtoul_base16 arg).val > UINT16_MAX
  · exact absurd (by rw [if_pos hc]) hrej
  rw [if_neg hc]
  simp only [not_or, not_not, not_lt, gt_iff_lt, UINT16_MAX] at hc
  obtain ⟨herr, hend, hterm, hhi⟩ := hc
  have hne : digits ≠ [] := by
    intro h
    rw [hres, if_pos h] at hend
    exact hend rfl
  rw [if_neg hne] at hres
  have hfit : ¬ ((hexValue digits : Int) > ULONG_MAX) := by
    intro h
    rw [hres, if_pos h] at herr
    exact absurd herr (by simp [ERANGE])
  rw [if_neg hfit] at hres
  have hend2 : (strtoul_base16 arg).endptr
      = ws.length + sign.length + pre.length + digits.length := by
    rw [hres]; split <;> rfl
  have htail : tail = [] := by
    rcases tail with _ | ⟨c, t⟩
    · rfl
    · exfalso
      have hget : arg.getD (ws.length + sign.length + pre.length + digits.length) 0 = c := by
        have := getD_append_length (ws ++ sign ++ pre ++ digits) (c :: t)
        rw [← harg, List.length_append, List.length_append, List.length_append] at this
        exact this
      rw [hend2, hget] at hterm
      exact hz c (by rw [harg]; simp) hterm
  rw [htail, List.append_nil] at harg
  have hval : (strtoul_base16 arg).val
      = if sign = [45] then (-(hexValue digits : Int)) % 18446744073709551616
        else (hexValue digits : Int) := by
    rw [hres]; split <;> rfl
  have hnn : 0 ≤ (strtoul_base16 arg).val := by
    rw [hval]; split
    · exact Int.emod_nonneg _ (by decide)
    · exact Int.ofNat_nonneg _
  have hstored : cast_uint16 (strtoul_base16 arg).val
      = (if sign = [45] then ((-(hexValue digits : Int)) % 18446744073709551616).toNat
          else hexValue digits) := by
    have e : cast_uint16 (strtoul_base16 arg).val = (strtoul_base16 arg).val.toNat := by
      simp only [cast_uint16]
      congr 1
      omega
    rw [e, hval]
    split
    · rfl
    · rfl
  refine ⟨ws, sign, pre, digits, harg, hws, hsign, hpre, hdig, hne, ?_, by rw [hstored]⟩
  rw [← hstored]
  simp only [cast_uint16]
  omega


/-- C34 as stated does not hold: the text "0x1f" contains the character x, which is
not a hexadecimal digit, and the text " 1A" starts with a space, yet parse_hex_u16
returns 0 for both and stores 31 and 26: strtoul in base 16 accepts a 0x prefix,
leading white space and a sign. -/
theorem C34_parse_hex_u16_counterexample :
    parse_hex_u16 (some (text "0x1f")) (some 0) = (0, some 31) ∧ hex_digit 120 = none ∧
    parse_hex_u16 (some (text " 1A")) (some 0) = (0, some 26) ∧ hex_digit 32 = none := by
  decide

/-- C34, amended: parse_hex_u16 returns 0 for every string of one to four hexadecimal
digits (and for every longer string of hexadecimal digits that denotes at most 0xFFFF)
and stores the number they denote.  It returns 0 only for a string that consists of
optional leading white space, an optional sign, an optional prefix 0x or 0X and then
one or more hexadecimal digits up to its end, whose value (negated modulo 2^64 behind a
minus sign) is at most 0xFFFF, and that value is what it stores.  In every other case,
such as the empty string, a string with a character that is not a hexadecimal digit
elsewhere, and a string of hexadecimal digits denoting a value above 0xFFFF, and for a
null argument, it returns -1 and leaves the output unchanged. -/
theorem C34_parse_hex_u16 (arg : List Nat) (v0 : Nat) (hz : ∀ c ∈ arg, c ≠ 0) :
    (allHex arg → 1 ≤ arg.length → arg.length ≤ 4 →
      parse_hex_u16 (some arg) (some v0) = (0, some (hexValue arg)) ∧ hexValue arg ≤ 65535) ∧
    (allHex arg → arg ≠ [] → hexValue arg ≤ 65535 →
      parse_hex_u16 (some arg) (some v0) = (0, some (hexValue arg))) ∧
    (allHex arg → 65535 < hexValue arg →
      parse_hex_u16 (some arg) (some v0) = (-1, some v0)) ∧
    ((parse_hex_u16 (some arg) (some v0)).1 = 0 →
      ∃ ws sign pre digits, arg = ws ++ sign ++ pre ++ digits ∧
        (∀ c ∈ ws, isspace c = true) ∧ (sign = [] ∨ sign = [43] ∨ sign = [45]) ∧
        (pre = [] ∨ pre = [48, 120] ∨ pre = [48, 88]) ∧ allHex digits ∧ digits ≠ [] ∧
        (if sign = [45] then ((-(hexValue digits : Int)) % 18446744073709551616).toNat
          else hexValue digits) ≤ 65535 ∧
        (parse_hex_u16 (some arg) (some v0)).2
          = some (if sign = [45] then
                ((-(hexValue digits : Int)) % 18446744073709551616).toNat
              else hexValue digits)) ∧
    ((parse_hex_u16 (some arg) (some v0)).1 ≠ 0 →
      parse_hex_u16 (some arg) (some v0) = (-1, some v0)) ∧
    parse_hex_u16 (some []) (some v0) = (-1, some v0) ∧
    parse_hex_u16 none (some v0) = (-1, some v0) ∧
    parse_hex_u16 (some arg) none = (-1, none) := by
  have hcases := parse_hex_u16_cases arg v0 hz
  refine ⟨fun h h1 h4 => ?_, fun h hne hv => parse_hex_u16_accepts arg v0 h hne hv,
    fun h hv => parse_hex_u16_too_large arg v0 h hv, fun hret => ?_, fun hret => ?_,
    rfl, rfl, rfl⟩
  · have hlt := hexValue_lt arg h
    have hpow : 16 ^ arg.length ≤ 16 ^ 4 := Nat.pow_le_pow_right (by decide) h4
    have hv : hexValue arg ≤ 65535 := by
      have : (16 : Nat) ^ 4 = 65536 := by decide
      omega
    have hne : arg ≠ [] := by
      intro e; rw [e] at h1; exact absurd h1 (by decide)
    exact ⟨parse_hex_u16_accepts arg v0 h hne hv, hv⟩
  · rcases hcases with h | ⟨ws, sign, pre, digits, ha, hws, hs, hp, hd, hne, hle, hres⟩
    · rw [h] at hret
      exact absurd hret (by simp)
    · exact ⟨ws, sign, pre, digits, ha, hws, hs, hp, hd, hne, hle, by rw [hres]⟩
  · rcases hcases with h | ⟨_, _, _, _, _, _, _, _, _, _, _, hres⟩
    · exact h
    · rw [hres] at hret
      exact absurd rfl hret

/-- Witness of C34: the text "0416" of the tests. -/
theorem C34_parse_hex_u16_witness :
    (parse_hex_u16 (some (text "0416")) (some 0) = (0, some (hexValue (text "0416"))) ∧
      hexValue (text "0416") ≤ 65535) ∧
    hexValue (text "0416") = 0x0416 :=
  ⟨(C34_parse_hex_u16 (text "0416") 0 (by decide)).1 (by decide) (by decide) (by decide),
    by decide⟩


/-! ## Lines of a command output -/

theorem linesOf_line (l rest : List Nat) (h : 10 ∉ l) :
    linesOf (l ++ 10 :: rest) = l :: linesOf rest := by
  induction l with
  | nil => simp [linesOf]
  | cons c l ih =>
    have hc : c ≠ 10 := fun e => h (e ▸ List.mem_cons_self c l)
    have hl : 10 ∉ l := fun e => h (List.mem_cons_of_mem c e)
    show linesOf (c :: (l ++ 10 :: rest)) = (c :: l) :: linesOf rest
    rw [linesOf, if_neg hc, ih hl]

theorem linesOf_last (l : List Nat) (h : 10 ∉ l) (hne : l ≠ []) : linesOf l = [l] := by
  induction l with
  | nil => exact absurd rfl hne
  | cons c l ih =>
    have hc : c ≠ 10 := fun e => h (e ▸ List.mem_cons_self c l)
    have hl : 10 ∉ l := fun e => h (List.mem_cons_of_mem c e)
    rcases l with _ | ⟨d, t⟩
    · simp [linesOf, hc]
    · simp only [linesOf, if_neg hc] at ih ⊢
      rw [ih hl (List.cons_ne_nil d t)]

theorem line_split (s : List Nat) :
    (∃ l rest, s = l ++ 10 :: rest ∧ 10 ∉ l) ∨ 10 ∉ s := by
  induction s with
  | nil => exact Or.inr (List.not_mem_nil 10)
  | cons c s ih =>
    by_cases hc : c = 10
    · exact Or.inl ⟨[], s, by rw [hc]; rfl, List.not_mem_nil 10⟩
    · rcases ih with ⟨l, rest, rfl, hl⟩ | h
      · refine Or.inl ⟨c :: l, rest, rfl, fun hm => ?_⟩
        rcases List.mem_cons.1 hm with e | e
        · exact hc e.symm
        · exact hl e
      · refine Or.inr (fun hm => ?_)
        rcases List.mem_cons.1 hm with e | e
        · exact hc e.symm
        · exact h e

theorem indexOf_newline (l x : List Nat) (h : 10 ∉ l) :
    (l ++ 10 :: x).indexOf? 10 = some l.length := by
  induction l with
  | nil => simp [List.indexOf?_cons]
  | cons c l ih =>
    have hc : c ≠ 10 := fun e => h (e ▸ List.mem_cons_self c l)
    have hl : 10 ∉ l := fun e => h (List.mem_cons_of_mem c e)
    rw [List.cons_append, List.indexOf?_cons, ih hl]
    simp [hc]

theorem indexOf_no_newline (l : List Nat) (h : 10 ∉ l) : l.indexOf? 10 = none := by
  induction l with
  | nil => rfl
  | cons c l ih =>
    have hc : c ≠ 10 := fun e => h (e ▸ List.mem_cons_self c l)
    have hl : 10 ∉ l := fun e => h (List.mem_cons_of_mem c e)
    rw [List.indexOf?_cons, ih hl]
    simp [hc]

/-- A line of at most 254 characters is read by fgets with its newline. -/
theorem fgets_short_line (l rest : List Nat) (h : 10 ∉ l) (hlen : l.length ≤ 254) :
    fgets 256 (l ++ 10 :: rest) = some (l ++ [10], rest) := by
  have htake : (l ++ 10 :: rest).take 255 = l ++ 10 :: rest.take (254 - l.length) := by
    rw [List.take_append_eq_append_take, List.take_of_length_le (by omega),
      show 255 - l.length = (254 - l.length) + 1 by omega, List.take_succ_cons]
  unfold fgets
  rw [if_neg (by simp)]
  simp only [show 256 - 1 = 255 from rfl, htake, indexOf_newline l _ h]
  have e1 : (l ++ 10 :: rest.take (254 - l.length)).take (l.length + 1) = l ++ [10] := by
    rw [List.take_append_eq_append_take, List.take_of_length_le (by omega),
      show l.length + 1 - l.length = 1 by omega]
    rfl
  rw [e1]
  congr 2
  rw [List.length_append, List.length_singleton, List.drop_append_eq_append_drop,
    List.drop_eq_nil_of_le (by omega), List.nil_append,
    show l.length + 1 - l.length = 1 by omega]
  rfl

/-- A line of exactly 255 characters is read by fgets without its newline. -/
theorem fgets_full_line (l rest : List Nat) (h : 10 ∉ l) (hlen : l.length = 255) :
    fgets 256 (l ++ 10 :: rest) = some (l, 10 :: rest) := by
  have htake : (l ++ 10 :: rest).take 255 = l := by
    rw [List.take_append_eq_append_take, List.take_of_length_le (by omega),
      show 255 - l.length = 0 by omega, List.take_zero, List.append_nil]
  unfold fgets
  rw [if_neg (by simp)]
  simp only [show 256 - 1 = 255 from rfl, htake, indexOf_no_newline l h]
  congr 2
  rw [List.drop_append_eq_append_drop, List.drop_eq_nil_of_le (by omega), List.nil_append,
    show l.length - l.length = 0 by omega, List.drop_zero]

/-- A last line without newline of at most 255 characters is read by fgets whole. -/
theorem fgets_last_line (l : List Nat) (h : 10 ∉ l) (hne : l ≠ []) (hlen : l.length ≤ 255) :
    fgets 256 l = some (l, []) := by
  unfold fgets
  rw [if_neg hne]
  simp only [show 256 - 1 = 255 from rfl, List.take_of_length_le hlen, indexOf_no_newline l h,
    List.drop_length]

theorem strstr_running (l : List Nat) (hz : ∀ c ∈ l, c ≠ 0) :
    strstr_found l (text "running") = decide (text "running" <:+: l) ∧
    strstr_found (l ++ [10]) (text "running") = decide (text "running" <:+: l) := by
  have hn : c_str (text "running") = text "running" := by decide
  have hl : c_str l = l := c_str_of_nonzero l hz
  have hl2 : c_str (l ++ [10]) = l ++ [10] := c_str_of_nonzero _ (by
    intro c hc
    rcases List.mem_append.1 hc with h | h
    · exact hz c h
    · rw [List.mem_singleton.1 h]; decide)
  refine ⟨by rw [strstr_found, hn, hl], ?_⟩
  rw [strstr_found, hn, hl2]
  congr 1
  apply propext
  rw [List.infix_concat_iff]
  constructor
  · rintro (h | h)
    · rcases List.suffix_concat_iff.1 h with e | ⟨t, e, _⟩
      · exact absurd e (by decide)
      · exfalso
        have : (text "running").getLast? = some 10 := by rw [e]; simp
        exact absurd this (by decide)
    · exact h
  · exact Or.inr

theorem list_lines_first (f : Nat) (stream line rest : List Nat) (c : Int × Int)
    (h : fgets 256 stream = some (line, rest)) :
    list_lines (f + 1) stream true c = list_lines f rest false c := by
  simp only [list_lines, h, if_true]

theorem list_lines_skip (f : Nat) (stream line rest : List Nat) (c : Int × Int)
    (h : fgets 256 stream = some (line, rest)) (h10 : line.getD 0 0 = 10) :
    list_lines (f + 1) stream false c = list_lines f rest false c := by
  simp only [list_lines, h, Bool.false_eq_true, if_false, h10, true_or, if_true]

theorem list_lines_count (f : Nat) (stream line rest : List Nat) (c : Int × Int)
    (h : fgets 256 stream = some (line, rest)) (h10 : line.getD 0 0 ≠ 10)
    (h0 : line.getD 0 0 ≠ 0) :
    list_lines (f + 1) stream false c
      = list_lines f rest false
          (if strstr_found line (text "running") = true then c.1 + 1 else c.1, c.2 + 1) := by
  simp only [list_lines, h, Bool.false_eq_true, if_false, h10, h0, or_self]

theorem list_lines_nil (f : Nat) (first : Bool) (c : Int × Int) :
    list_lines f [] first c = c := by
  cases f with
  | zero => rfl
  | succ f => simp [list_lines, fgets]

theorem countedLines_cons (l : List Nat) (ls : List (List Nat))
    (s : List Nat) (h : linesOf s = l :: ls) :
    countedLines true s = ls.filter (fun l => !l.isEmpty) ∧
    countedLines false s
      = if l = [] then ls.filter (fun l => !l.isEmpty)
        else l :: ls.filter (fun l => !l.isEmpty) := by
  simp only [countedLines, h, if_true, List.drop_succ_cons, List.drop_zero, Bool.false_eq_true,
    if_false, true_and]
  rcases l with _ | ⟨a, t⟩
  · simp
  · simp

/-- What one pass over a line adds to the two counters. -/
theorem count_line (l : List Nat) (c : Int × Int) (ls : List (List Nat)) :
    ((if decide (text "running" <:+: l) = true then c.1 + 1 else c.1)
        + ((withRunning ls).length : Int)
      = c.1 + ((withRunning (l :: ls)).length : Int)) ∧
    (c.2 + 1 + (ls.length : Int) = c.2 + (((l :: ls).length : Nat) : Int)) := by
  constructor
  · by_cases h : text "running" <:+: l
    · simp only [h, decide_True, if_true, withRunning, List.filter_cons_of_pos,
        List.length_cons, Nat.cast_add, Nat.cast_one]
      omega
    · simp only [h, decide_False, Bool.false_eq_true, if_false, withRunning]
      rw [List.filter_cons_of_neg (by simp [h])]
  · simp only [List.length_cons, Nat.cast_add, Nat.cast_one]
    omega

/-- The loop over the lines of a list command counts the non-empty lines (after the
header when `first` is set) and those among them with "running", when no line has 256
characters or more and the fuel covers the text. -/
theorem list_lines_spec : ∀ (n : Nat) (s : List Nat), s.length ≤ n →
    ∀ (f : Nat) (first : Bool) (c : Int × Int), s.length < f →
      (∀ x ∈ s, x ≠ 0) → (∀ l ∈ linesOf s, l.length < 256) →
      list_lines f s first c
        = (c.1 + ((withRunning (countedLines first s)).length : Int),
           c.2 + ((countedLines first s).length : Int)) := by
  have hempty : ∀ (f : Nat) (first : Bool) (c : Int × Int),
      list_lines f [] first c
        = (c.1 + ((withRunning (countedLines first [])).length : Int),
           c.2 + ((countedLines first [])).length) := by
    intro f first c
    rw [list_lines_nil]
    cases first <;> simp [countedLines, linesOf, withRunning]
  have hfilter : ∀ s, countedLines false s = (linesOf s).filter (fun l => !l.isEmpty) := by
    intro s
    simp [countedLines]
  intro n
  induction n with
  | zero =>
    intro s hs f first c _ _ _
    have : s = [] := List.length_eq_zero.1 (by omega)
    subst this
    exact hempty f first c
  | succ n ih =>
    intro s hs f first c hf hz hlines
    by_cases hnil : s = []
    · subst hnil
      exact hempty f first c
    obtain ⟨f, rfl⟩ : ∃ g, f = g + 1 := ⟨f - 1, by omega⟩
    rcases line_split s with ⟨l, rest, rfl, hl⟩ | hno
    · have hlo := linesOf_line l rest hl
      have hcl := countedLines_cons l (linesOf rest) _ hlo
      have hllen : l.length < 256 := hlines l (by rw [hlo]; exact List.mem_cons_self _ _)
      have hrl : ∀ x ∈ linesOf rest, x.length < 256 := fun x hx =>
        hlines x (by rw [hlo]; exact List.mem_cons_of_mem _ hx)
      have hzl : ∀ x ∈ l, x ≠ 0 := fun x hx => hz x (List.mem_append_left _ hx)
      have hzr : ∀ x ∈ rest, x ≠ 0 := fun x hx =>
        hz x (List.mem_append_right _ (List.mem_cons_of_mem _ hx))
      have hslen : (l ++ 10 :: rest).length = l.length + (rest.length + 1) := by
        rw [List.length_append, List.length_cons]
      rw [hslen] at hs hf
      by_cases hshort : l.length ≤ 254
      · have hfg := fgets_short_line l rest hl hshort
        have ihr := fun c => ih rest (by omega) f false c (by omega) hzr hrl
        cases first
        · rcases l with _ | ⟨a, t⟩
          · rw [list_lines_skip f _ _ _ c hfg rfl, ihr c, hcl.2, if_pos rfl, hfilter]
          · have ha10 : a ≠ 10 := fun e => hl (e ▸ List.mem_cons_self a t)
            have ha0 : a ≠ 0 := hzl a (List.mem_cons_self a t)
            rw [list_lines_count f _ _ _ c hfg (by simpa using ha10) (by simpa using ha0), ihr,
              hcl.2, if_neg (List.cons_ne_nil a t), hfilter, (strstr_running _ hzl).2]
            exact Prod.ext (count_line _ c _).1 (count_line (a :: t) c _).2
        · rw [list_lines_first f _ _ _ c hfg, ihr c, hcl.1, hfilter]
      · have h255 : l.length = 255 := by omega
        have hfg := fgets_full_line l rest hl h255
        have hlo2 : linesOf (10 :: rest) = [] :: linesOf rest :=
          linesOf_line [] rest (List.not_mem_nil 10)
        have hc2 : countedLines false (10 :: rest)
            = (linesOf rest).filter (fun l => !l.isEmpty) := by
          rw [(countedLines_cons [] _ _ hlo2).2, if_pos rfl]
        have ihr := fun c => ih (10 :: rest) (by rw [List.length_cons]; omega) f false c
          (by rw [List.length_cons]; omega)
          (fun x hx => hz x (List.mem_append_right _ hx))
          (fun x hx => by
            rw [hlo2] at hx
            rcases List.mem_cons.1 hx with e | e
            · rw [e]; decide
            · exact hrl x e)
        cases first
        · obtain ⟨a, t, rfl⟩ := List.exists_cons_of_ne_nil
            (fun e : l = [] => by rw [e] at h255; exact absurd h255 (by decide))
          have ha10 : a ≠ 10 := fun e => hl (e ▸ List.mem_cons_self a t)
          have ha0 : a ≠ 0 := hzl a (List.mem_cons_self a t)
          rw [list_lines_count f _ _ _ c hfg (by simpa using ha10) (by simpa using ha0), ihr,
            hcl.2, if_neg (List.cons_ne_nil a t), hc2, (strstr_running _ hzl).1]
          exact Prod.ext (count_line _ c _).1 (count_line (a :: t) c _).2
        · rw [list_lines_first f _ _ _ c hfg, ihr c, hcl.1, hc2]
    · have hlo := linesOf_last s hno hnil
      have hlen : s.length < 256 := hlines s (by rw [hlo]; exact List.mem_singleton.2 rfl)
      have hfg := fgets_last_line s hno hnil (by omega)
      have hcl := countedLines_cons s [] s hlo
      cases first
      · obtain ⟨a, t, rfl⟩ := List.exists_cons_of_ne_nil hnil
        have ha10 : a ≠ 10 := fun e => hno (e ▸ List.mem_cons_self a t)
        have ha0 : a ≠ 0 := hz a (List.mem_cons_self a t)
        rw [list_lines_count f _ _ _ c hfg (by simpa using ha10) (by simpa using ha0),
          list_lines_nil, hcl.2, if_neg (List.cons_ne_nil a t), (strstr_running _ hz).1]
        have h1 := (count_line (a :: t) c []).1
        have h2 := (count_line (a :: t) c []).2
        simp only [List.filter_nil] at h1 h2 ⊢
        simp only [withRunning, List.filter_nil, List.length_nil, Nat.cast_zero,
          Int.add_zero] at h1 h2
        exact Prod.ext (by rw [h1]; rfl) (by rw [h2])
      · rw [list_lines_first f _ _ _ c hfg, list_lines_nil, hcl.1]
        simp [withRunning]

theorem list_lines_bounds : ∀ (f : Nat) (s : List Nat) (first : Bool) (c : Int × Int),
    0 ≤ c.1 → c.1 ≤ c.2 →
    0 ≤ (list_lines f s first c).1 ∧ (list_lines f s first c).1 ≤ (list_lines f s first c).2 := by
  intro f
  induction f with
  | zero => intro s first c h0 h1; exact ⟨h0, h1⟩
  | succ f ih =>
    intro s first c h0 h1
    rcases hfg : fgets 256 s with _ | ⟨line, rest⟩
    · simp only [list_lines, hfg]
      exact ⟨h0, h1⟩
    · cases first
      · by_cases hskip : line.getD 0 0 = 10 ∨ line.getD 0 0 = 0
        · simp only [list_lines, hfg, Bool.false_eq_true, if_false, hskip, if_true]
          exact ih rest false c h0 h1
        · simp only [list_lines, hfg, Bool.false_eq_true, if_false, hskip]
          apply ih
          · show 0 ≤ (if _ then _ else _ : Int)
            split
            · exact Int.add_nonneg h0 (by decide)
            · exact h0
          · show (if _ then _ else _ : Int) ≤ c.2 + 1
            split
            · exact Int.add_le_add_right h1 1
            · exact Int.le_trans h1 (Int.le_add_of_nonneg_right (by decide))
      · rw [list_lines_first f s line rest c hfg]
        exact ih rest false c h0 h1

/-! ## Claims about the guest counters -/

/-- C36 as stated fails on an output that holds the byte 0.  Every line of the output
is shorter than 256 characters, it has 2 non-empty lines after the header line and 1 of
them contains the text "running"; get_pve_vms and get_pve_cts end with total 1 and
running 0: the line that begins with the byte 0 is skipped as empty, and the search for
"running" ends at the byte 0 of the other line. -/
theorem C36_guest_counters_counterexample :
    (∀ l ∈ linesOf listOutputNul, l.length < 256) ∧
    (listedLines listOutputNul).length = 2 ∧ (runningLines listOutputNul).length = 1 ∧
    (get_pve_vms popenListNul pveZero).metrics.total_vms = 1 ∧
    (get_pve_vms popenListNul pveZero).metrics.running_vms = 0 ∧
    (get_pve_cts popenListNul pveZero).metrics.total_cts = 1 ∧
    (get_pve_cts popenListNul pveZero).metrics.running_cts = 0 := by
  decide

/-- C36, amended: after get_pve_vms, and likewise after get_pve_cts,
0 <= running <= total, for every output of the list command.  When the command runs,
its output holds no byte 0 and every line of it is shorter than 256 characters, total
is the number of non-empty lines after the first, header, line and running the number
of those lines that contain the text "running"; when the command cannot be started both
counters are 0. -/
theorem C36_guest_counters (popen : Popen) (st : PveState) :
    (0 ≤ (get_pve_vms popen st).metrics.running_vms ∧
      (get_pve_vms popen st).metrics.running_vms ≤ (get_pve_vms popen st).metrics.total_vms) ∧
    (0 ≤ (get_pve_cts popen st).metrics.running_cts ∧
      (get_pve_cts popen st).metrics.running_cts ≤ (get_pve_cts popen st).metrics.total_cts) ∧
    (∀ output status, popen (text "qm list 2>/dev/null") = some (output, status) →
      (∀ x ∈ output, x ≠ 0) → (∀ l ∈ linesOf output, l.length < 256) →
      (get_pve_vms popen st).metrics.total_vms = ((listedLines output).length : Int) ∧
      (get_pve_vms popen st).metrics.running_vms = ((runningLines output).length : Int)) ∧
    (∀ output status, popen (text "pct list 2>/dev/null") = some (output, status) →
      (∀ x ∈ output, x ≠ 0) → (∀ l ∈ linesOf output, l.length < 256) →
      (get_pve_cts popen st).metrics.total_cts = ((listedLines output).length : Int) ∧
      (get_pve_cts popen st).metrics.running_cts = ((runningLines output).length : Int)) ∧
    (popen (text "qm list 2>/dev/null") = none →
      (get_pve_vms popen st).metrics.total_vms = 0 ∧
      (get_pve_vms popen st).metrics.running_vms = 0) ∧
    (popen (text "pct list 2>/dev/null") = none →
      (get_pve_cts popen st).metrics.total_cts = 0 ∧
      (get_pve_cts popen st).metrics.running_cts = 0) := by
  refine ⟨?_, ?_, fun output status hp hz hl => ?_, fun output status hp hz hl => ?_,
    fun hp => ?_, fun hp => ?_⟩
  · unfold get_pve_vms
    rcases popen (text "qm list 2>/dev/null") with _ | ⟨output, status⟩
    · exact ⟨Int.le_refl 0, Int.le_refl 0⟩
    · exact list_lines_bounds _ output true (0, 0) (Int.le_refl 0) (Int.le_refl 0)
  · unfold get_pve_cts
    rcases popen (text "pct list 2>/dev/null") with _ | ⟨output, status⟩
    · exact ⟨Int.le_refl 0, Int.le_refl 0⟩
    · exact list_lines_bounds _ output true (0, 0) (Int.le_refl 0) (Int.le_refl 0)
  · have h := list_lines_spec output.length output (Nat.le_refl _) (output.length + 1) true
      (0, 0) (Nat.lt_succ_self _) hz hl
    unfold get_pve_vms
    rw [hp]
    simp only []
    rw [h]
    exact ⟨Int.zero_add _, Int.zero_add _⟩
  · have h := list_lines_spec output.length output (Nat.le_refl _) (output.length + 1) true
      (0, 0) (Nat.lt_succ_self _) hz hl
    unfold get_pve_cts
    rw [hp]
    simp only []
    rw [h]
    exact ⟨Int.zero_add _, Int.zero_add _⟩
  · unfold get_pve_vms
    rw [hp]
    exact ⟨rfl, rfl⟩
  · unfold get_pve_cts
    rw [hp]
    exact ⟨rfl, rfl⟩

/-- Witness of the amended C36: the output of `qm list` of the tests gives 2 guests, 1 running. -/
theorem C36_guest_counters_witness :
    ((get_pve_vms popenList pveZero).metrics.total_vms = ((listedLines qmListOutput).length : Int) ∧
      (get_pve_vms popenList pveZero).metrics.running_vms
        = ((runningLines qmListOutput).length : Int)) ∧
    (listedLines qmListOutput).length = 2 ∧ (runningLines qmListOutput).length = 1 :=
  ⟨(C36_guest_counters popenList pveZero).2.2.1 qmListOutput 0 (by decide) (by decide)
    (by decide), by decide, by decide⟩


/-! ## The Proxmox collectors -/

theorem get_pve_storage_returns (popen : Popen) (fuel : Nat) (st : PveState)
    (hfuel : 16384 ≤ fuel) :
    ∃ st1, get_pve_storage popen fuel st = some st1 := by
  unfold get_pve_storage
  simp only []
  rcases popen (pvesh_cmd st.metrics.node_name) with _ | ⟨output, status⟩
  · exact ⟨_, rfl⟩
  · simp only []
    by_cases hs : status = 0 ∧ (List.take 16383 output).length > 2
    · rw [if_pos hs]
      have hlen : (List.take 16383 output).length ≤ 16383 := by
        rw [List.length_take]
        omega
      obtain ⟨st1, _, h2⟩ := storage_scan_terminates (List.take 16383 output)
        (List.take 16383 output).length 16384 0
        { st with metrics := { st.metrics with storage_count := 0 } } (by omega)
      rw [h2 fuel (by omega)]
      simp only []
      split
      · exact ⟨_, rfl⟩
      · exact ⟨_, rfl⟩
    · rw [if_neg hs]
      exact ⟨_, rfl⟩

theorem df_fallback_events_commands (popen : Popen) : ∀ (paths : List (List Nat))
    (st : PveState), (df_fallback_events popen paths st).all isCommand = true := by
  intro paths
  induction paths with
  | nil => intro st; rfl
  | cons path paths ih =>
    intro st
    unfold df_fallback_events
    split
    · simp only []
      split
      · rw [List.all_cons, ih]; rfl
      · rw [List.all_cons, ih]; rfl
    · rfl

theorem get_pve_storage_events_commands (popen : Popen) (fuel : Nat) (st : PveState) :
    (get_pve_storage_events popen fuel st).all isCommand = true := by
  unfold get_pve_storage_events
  simp only []
  rw [List.all_cons]
  simp only [isCommand, Bool.true_and]
  split
  · exact df_fallback_events_commands _ _ _
  · split
    · split
      · rfl
      · split
        · rfl
        · exact df_fallback_events_commands _ _ _
    · exact df_fallback_events_commands _ _ _

theorem get_pve_version_events_commands (env : PveEnv) (st : PveState) :
    (get_pve_version_events env st).all isCommand = true := by
  unfold get_pve_version_events
  simp only []
  split
  · rfl
  · split <;> rfl

/-! ## Claims about the collection of the Proxmox metrics -/

/-- C38: collect_proxmox_metrics is throttled.  When Proxmox is not available it
returns at once; when fewer than 10 seconds have passed since last_pve_collect it only
asks the time: in both cases the Proxmox snapshot and last_pve_collect stay as they
were and no command is run and no file opened.  Otherwise it returns, having set
last_pve_collect to the current time before anything is collected: the assignment is
followed only by commands, the first being `qm list`, and the snapshot is what
get_pve_vms, get_pve_cts, get_pve_storage and get_pve_version make of it in turn. -/
theorem C38_collect_throttled (env : PveEnv) (now : Int) (s : CollectState) :
    (s.pve.metrics.pve_available = 0 → collect_proxmox_metrics env now s = some s) ∧
    (s.pve.metrics.pve_available ≠ 0 → now - s.last_pve_collect < 10 →
      ∃ s1, collect_proxmox_metrics env now s = some s1 ∧ s1.pve = s.pve ∧
        s1.last_pve_collect = s.last_pve_collect ∧
        s1.events = s.events ++ [PveEvent.time] ∧
        s1.events.filter isCommand = s.events.filter isCommand) ∧
    (s.pve.metrics.pve_available ≠ 0 → 10 ≤ now - s.last_pve_collect →
      ∃ s1 evs pve, collect_proxmox_metrics env now s = some s1 ∧
        s1.last_pve_collect = now ∧
        s1.events
          = s.events ++ [PveEvent.time, PveEvent.store_last_pve_collect now] ++ evs ∧
        evs.all isCommand = true ∧
        evs.head? = some (PveEvent.popen (text "qm list 2>/dev/null")) ∧
        get_pve_storage env.popen 16384 (get_pve_cts env.popen (get_pve_vms env.popen s.pve))
          = some pve ∧
        s1.pve = get_pve_version env pve) := by
  refine ⟨fun h => ?_, fun h hlt => ?_, fun h hge => ?_⟩
  · unfold collect_proxmox_metrics
    rw [if_pos h]
  · refine ⟨{ s with events := s.events ++ [PveEvent.time] }, ?_, rfl, rfl, rfl, ?_⟩
    · unfold collect_proxmox_metrics
      rw [if_neg h]
      simp only [PVE_COLLECT_INTERVAL]
      rw [if_pos hlt]
    · show (s.events ++ [PveEvent.time]).filter isCommand = _
      rw [List.filter_append]
      simp [isCommand]
  · obtain ⟨pve, hpve⟩ := get_pve_storage_returns env.popen 16384
      (get_pve_cts env.popen (get_pve_vms env.popen s.pve)) (Nat.le_refl _)
    refine ⟨⟨get_pve_version env pve, now,
        s.events ++ [PveEvent.time] ++ [PveEvent.store_last_pve_collect now]
          ++ [PveEvent.popen (text "qm list 2>/dev/null")]
          ++ [PveEvent.popen (text "pct list 2>/dev/null")]
          ++ get_pve_storage_events env.popen 16384
            (get_pve_cts env.popen (get_pve_vms env.popen s.pve))
          ++ get_pve_version_events env pve⟩,
      [PveEvent.popen (text "qm list 2>/dev/null"),
        PveEvent.popen (text "pct list 2>/dev/null")]
        ++ get_pve_storage_events env.popen 16384
          (get_pve_cts env.popen (get_pve_vms env.popen s.pve))
        ++ get_pve_version_events env pve, pve, ?_, ?_, ?_, ?_, rfl, hpve, ?_⟩
    · unfold collect_proxmox_metrics
      rw [if_neg h]
      simp only [PVE_COLLECT_INTERVAL]
      rw [if_neg (by omega)]
      simp only [hpve]
    · rfl
    · simp only [List.append_assoc, List.cons_append, List.nil_append, List.singleton_append]
    · rw [List.all_append, List.all_append, get_pve_storage_events_commands,
        get_pve_version_events_commands]
      rfl
    · rfl

/-- Witness of C38: the collect test five seconds after the last collection. -/
theorem C38_collect_throttled_witness :
    ∃ s1, collect_proxmox_metrics envCollect 105 collectStart = some s1 ∧
      s1.pve = collectStart.pve ∧
      s1.last_pve_collect = collectStart.last_pve_collect ∧
      s1.events = collectStart.events ++ [PveEvent.time] ∧
      s1.events.filter isCommand = collectStart.events.filter isCommand :=
  (C38_collect_throttled envCollect 105 collectStart).2.1 (by decide) (by decide)

end HomelabScreen
